import Mathlib

/-!
# Device scalability tester

A shallow embedding of the three programs: the frontend
(`cmd/frontend/main.go`, namespace `Frontend`), the client
(`cmd/client/main.go`, namespace `Client`) and the backend
(`cmd/backend/main.go`, namespace `Backend`).  The definitions of all three
come first, then the theorems.

Conventions of the embedding, stated for the frontend.

* `float64` and `time.Time` values are elements of an arbitrary type `F` that
  carries a linear order, a zero and two binary operations `+` and `-` about
  which nothing is assumed.  Every value that reaches a comparison in the
  source is a number (JSON cannot carry NaN), so the order is total; rounding
  of `+` and `-` is whatever the instance says.
* The counters `success`, `failure`, `disconnect` (`uint64`) are `Nat` and
  `running` (`int`) is `Int`: one unit is added per network request, so the
  64-bit range is never left.
* A connection is a handle; what the process does to connections is recorded
  as a list of `Action`s in program order.  What the peer does is an input:
  the result of a `Read` or `Write` is passed in by the caller.
* `encoding/json` is a parameter (`Codec`): the theorems hold for every
  encoder and decoder.
* `log.Fatalf` ends the process.  The branches that call it (a deadline that
  cannot be set on a connection the process still holds open, an encoder that
  rejects a well-typed record) are outside the executions described here.
* The body of each `for` loop of a listener is one function from the state
  before the iteration to the state after it; the part run under the queue
  mutex is a function of its own, since that is the unit of interleaving.
-/

namespace Frontend

/-- Handle of an accepted TCP connection (`net.Conn`). -/
abbrev Conn := Nat

/-- Contents of a TCP message (`[]byte`). -/
abbrev Bytes := List UInt8

/-- Client service request (`clientReq`). -/
structure clientReq (F : Type) where
  Queue : String
  Args : List String
  Limit : F
deriving DecidableEq, Repr

/-- Worker work item request (`workReq`). -/
structure workReq where
  Queue : String
deriving DecidableEq, Repr

/-- Work for worker (`workItem`). -/
structure workItem (F : Type) where
  Error : String
  Args : List String
  Limit : F
  Empty : Bool
deriving DecidableEq, Repr

/-- Queued request (`queueItem`): where to reply, when added, what to run. -/
structure queueItem (F : Type) where
  client : Conn
  added : F
  Args : List String
  Limit : F
deriving DecidableEq, Repr

/-- Queue record (`queueT`) without its mutex. -/
structure queueT (F : Type) where
  items : List (queueItem F)
  running : Int
  disconnect : Nat
  success : Nat
  failure : Nat
  maxtotal : F
  maxwait : F
  maxrun : F
deriving DecidableEq, Repr

/-- Worker to frontend to client reply (`replyT`). -/
structure replyT (F : Type) where
  Pod : String
  Node : String
  Device : String
  Error : String
  Timeout : F
  Runtime : F
  Waittime : F
  Retcode : Int
deriving DecidableEq, Repr

/-- What the process does to a connection. -/
inductive Action where
  | write (conn : Conn) (data : Bytes)
  | close (conn : Conn)
  | setReadDeadline (conn : Conn)
  | clearReadDeadline (conn : Conn)
  | read (conn : Conn)
deriving DecidableEq, Repr

section Obsolete

variable {F : Type}

/-- The loop of `countObsolete` over the remaining items.  `expired c` is
`errors.Is(err, os.ErrDeadlineExceeded)` for the one-byte read on `c`. -/
def countObsoleteLoop (expired : Conn → Bool) : List (queueItem F) → Nat × List Action
  | [] => (0, [])
  | item :: rest =>
    if expired item.client then
      (0, [Action.setReadDeadline item.client, Action.read item.client,
           Action.clearReadDeadline item.client])
    else
      let r := countObsoleteLoop expired rest
      (r.1 + 1, [Action.setReadDeadline item.client, Action.read item.client,
                 Action.close item.client] ++ r.2)

/-- The function `countObsolete`: number of items at the queue front whose
client has disconnected, with the connection actions it performed. -/
def countObsolete (expired : Conn → Bool) (queue : queueT F) : Nat × List Action :=
  countObsoleteLoop expired queue.items

/-- Connections closed by a list of actions, in order. -/
def closedConns : List Action → List Conn
  | [] => []
  | Action.close c :: rest => c :: closedConns rest
  | _ :: rest => closedConns rest

/-- Connections read from by a list of actions, in order. -/
def readConns : List Action → List Conn
  | [] => []
  | Action.read c :: rest => c :: readConns rest
  | _ :: rest => readConns rest

end Obsolete

/-! ## Encoding, replies and the client listener -/

/-- The functions of `encoding/json` used by the frontend.  `unmarshalReply`
decodes into an existing record and returns the record as the decoder left
it, together with the error if there was one. -/
structure Codec (F : Type) where
  marshalReply : replyT F → Bytes
  marshalWorkItem : workItem F → Bytes
  unmarshalReply : Bytes → replyT F → replyT F × Option String
  unmarshalClientReq : Bytes → Except String (clientReq F)
  unmarshalWorkReq : Bytes → Except String workReq

/-- Result of `conn.Read(data)`: byte count, error, and `data[:n]`. -/
structure ReadResult where
  n : Int
  err : Option String
  data : Bytes
deriving DecidableEq, Repr

/-- Rendering of an `error` by the verb `%s` of `fmt.Sprintf`. -/
def fmtS : Option String → String
  | none => "%!s(<nil>)"
  | some e => e

/-- Rendering of an `error` by the verb `%v` of `fmt.Sprintf`. -/
def fmtV : Option String → String
  | none => "<nil>"
  | some e => e

/-- Process-wide queue set (`queuesT`) without its mutex. -/
structure queuesT (F : Type) where
  maps : List (String × queueT F)
  clients : Nat
  workers : Nat
  metrics : Nat
  interval : Int
deriving DecidableEq, Repr

/-- The map read `queues.maps[name]`. -/
def getQueue {F : Type} (maps : List (String × queueT F)) (name : String) : Option (queueT F) :=
  match maps with
  | [] => none
  | (k, q) :: rest => if k = name then some q else getQueue rest name

/-- Writing through the pointer `queues.maps[name]`. -/
def setQueue {F : Type} (maps : List (String × queueT F)) (name : String) (q : queueT F) :
    List (String × queueT F) :=
  match maps with
  | [] => []
  | (k, old) :: rest => if k = name then (k, q) :: rest else (k, old) :: setQueue rest name q

/-- The function `sendJSONClose`: send the data, close the connection. -/
def sendJSONClose (conn : Conn) (data : Bytes) : List Action :=
  [Action.write conn data, Action.close conn]

/-- The record `replyT{Error: msg, Retcode: 1}`. -/
def errorReply {F : Type} [Zero F] (msg : String) : replyT F :=
  { Pod := "", Node := "", Device := "", Error := msg,
    Timeout := 0, Runtime := 0, Waittime := 0, Retcode := 1 }

/-- The function `errorReplyClose`. -/
def errorReplyClose {F : Type} [Zero F] (codec : Codec F) (conn : Conn) (msg : String) :
    List Action :=
  sendJSONClose conn (codec.marshalReply (errorReply msg))

/-- The record `workItem{Error: msg, Empty: empty}`. -/
def errorItem {F : Type} [Zero F] (empty : Bool) (msg : String) : workItem F :=
  { Error := msg, Args := [], Limit := 0, Empty := empty }

/-- The function `errorItemClose`. -/
def errorItemClose {F : Type} [Zero F] (codec : Codec F) (conn : Conn) (empty : Bool)
    (msg : String) : List Action :=
  sendJSONClose conn (codec.marshalWorkItem (errorItem empty msg))

/-- Request validation of `listenForClients` (from `conn.Read` to the map
lookup): the error message to send, or the request and its queue. -/
def clientCheck {F : Type} (codec : Codec F) (maps : List (String × queueT F))
    (rd : ReadResult) : Except String (clientReq F × queueT F) :=
  if rd.n ≤ 0 ∨ rd.err ≠ none then
    .error ("No bytes (" ++ toString rd.n ++ ") / error (" ++ fmtS rd.err ++ ") from read")
  else
    match codec.unmarshalClientReq rd.data with
    | .error e => .error ("Unmarshaling clientReq JSON failed: " ++ e)
    | .ok req =>
      if req.Queue = "" then
        .error "invalid queue name ''"
      else
        match getQueue maps req.Queue with
        | none => .error ("Unknown '" ++ req.Queue ++ "' queue")
        | some queue => .ok (req, queue)

/-- The part of `listenForClients` run under the queue mutex: reject at full
capacity, else append the new item. -/
def enqueue {F : Type} [Zero F] (codec : Codec F) (qmax : Int) (name : String) (conn : Conn)
    (req : clientReq F) (now : F) (queue : queueT F) : queueT F × List Action :=
  if qmax > 0 ∧ (queue.items.length : Int) ≥ qmax then
    (queue, errorReplyClose codec conn
      ("'" ++ name ++ "' queue already at full capacity (" ++ toString qmax ++ ")"))
  else
    let item : queueItem F :=
      { Limit := req.Limit, Args := req.Args, added := now, client := conn }
    ({ queue with items := queue.items ++ [item] }, [])

/-- One iteration of the loop of `listenForClients`, after `Accept`. -/
def listenForClientsConn {F : Type} [Zero F] (codec : Codec F) (qmax : Int)
    (queues : queuesT F) (conn : Conn) (rd : ReadResult) (now : F) :
    queuesT F × List Action :=
  let queues := { queues with clients := queues.clients + 1 }
  match clientCheck codec queues.maps rd with
  | .error msg => (queues, Action.read conn :: errorReplyClose codec conn msg)
  | .ok (req, queue) =>
    let r := enqueue codec qmax req.Queue conn req now queue
    ({ queues with maps := setQueue queues.maps req.Queue r.1 }, Action.read conn :: r.2)

/-! ## Dispatch -/

/-- What the worker connection returns during `processItem`. -/
structure WorkerOutcome where
  writeN : Int
  writeErr : Option String
  read : ReadResult
deriving DecidableEq, Repr

/-- The record `workItem{Limit: item.Limit, Args: item.Args}` that
`processItem` sends to the worker. -/
def workItemOf {F : Type} (item : queueItem F) : workItem F :=
  { Error := "", Args := item.Args, Limit := item.Limit, Empty := false }

/-- The record `replyT{Waittime: queuetime, Retcode: 1}` with which
`processItem` starts. -/
def replyInit {F : Type} [Zero F] (queuetime : F) : replyT F :=
  { Pod := "", Node := "", Device := "", Error := "",
    Timeout := 0, Runtime := 0, Waittime := queuetime, Retcode := 1 }

/-- The function `processItem`: the reply it returns and what it does to the
two connections.  `now` is the clock when `time.Since(item.added)` runs. -/
def processItem {F : Type} [Zero F] [Sub F] (codec : Codec F) (out : WorkerOutcome) (now : F)
    (worker : Conn) (item : queueItem F) : replyT F × List Action :=
  let workitem : workItem F := workItemOf item
  let data := codec.marshalWorkItem workitem
  let queuetime := now - item.added
  let reply : replyT F := replyInit queuetime
  if out.writeErr ≠ none ∨ out.writeN ≠ (data.length : Int) then
    (reply, Action.write worker data ::
      (errorReplyClose codec item.client
        ("Worker write (" ++ toString out.writeN ++ "/" ++ toString data.length
          ++ " bytes) failed: " ++ fmtV out.writeErr ++ "\n")
       ++ [Action.close worker]))
  else if out.read.n ≤ 0 ∨ out.read.err ≠ none then
    (reply, [Action.write worker data, Action.read worker, Action.close worker]
      ++ errorReplyClose codec item.client
        ("No bytes (" ++ toString out.read.n ++ ") / error (" ++ fmtV out.read.err
          ++ ") from worker reply read"))
  else
    let dec := codec.unmarshalReply out.read.data reply
    let reply := { dec.1 with Waittime := queuetime }
    match dec.2 with
    | some e =>
      ({ reply with Retcode := 1 },
        [Action.write worker data, Action.read worker, Action.close worker]
        ++ errorReplyClose codec item.client ("Unmarshaling worker reply JSON failed: " ++ e))
    | none =>
      (reply, [Action.write worker data, Action.read worker, Action.close worker]
        ++ sendJSONClose item.client (codec.marshalReply reply))

/-- The part of `doItem` run under the queue mutex. -/
def doItemUpdate {F : Type} [LinearOrder F] [Add F] (reply : replyT F) (queue : queueT F) :
    queueT F :=
  let queue := if reply.Waittime > queue.maxwait then
    { queue with maxwait := reply.Waittime } else queue
  let queue := if reply.Runtime > queue.maxrun then
    { queue with maxrun := reply.Runtime } else queue
  let total := reply.Waittime + reply.Runtime
  let queue := if total > queue.maxtotal then
    { queue with maxtotal := total } else queue
  let queue := if reply.Retcode = 0 then
    { queue with success := queue.success + 1 }
  else
    { queue with failure := queue.failure + 1 }
  { queue with running := queue.running - 1 }

/-- The function `doItem`; `queue` is the record when the mutex is taken. -/
def doItem {F : Type} [LinearOrder F] [Zero F] [Add F] [Sub F] (codec : Codec F)
    (out : WorkerOutcome) (now : F) (worker : Conn) (item : queueItem F) (queue : queueT F) :
    queueT F × List Action :=
  let r := processItem codec out now worker item
  (doItemUpdate r.1 queue, r.2)

/-! ## The worker listener -/

/-- Request validation of `listenForWorkers` (from `conn.Read` to the map
lookup): the error message to send, or the queue name and its queue. -/
def workerCheck {F : Type} (codec : Codec F) (maps : List (String × queueT F))
    (rd : ReadResult) : Except String (String × queueT F) :=
  if rd.n ≤ 0 ∨ rd.err ≠ none then
    .error ("No bytes (" ++ toString rd.n ++ ") / error (" ++ fmtV rd.err ++ ") from read")
  else
    match codec.unmarshalWorkReq rd.data with
    | .error e => .error ("Unmarshaling workReq JSON failed: " ++ e)
    | .ok req =>
      if req.Queue = "" then
        .error "invalid queue name ''"
      else
        match getQueue maps req.Queue with
        | none => .error ("Unknown '" ++ req.Queue ++ "' queue")
        | some queue => .ok (req.Queue, queue)

/-- Outcome of the part of `listenForWorkers` run under the queue mutex:
the queue record afterwards, what was done to connections, and the item for
which a `doItem` goroutine was started, if any. -/
structure PullResult (F : Type) where
  queue : queueT F
  actions : List Action
  started : Option (queueItem F)

/-- The part of `listenForWorkers` run under the queue mutex: prune the
obsolete front, then tell the worker the queue is empty or hand it the first
remaining item. -/
def pull {F : Type} [Zero F] (codec : Codec F) (expired : Conn → Bool) (name : String)
    (conn : Conn) (queue : queueT F) : PullResult F :=
  let obs := countObsolete expired queue
  let offset := obs.1
  let queue := if offset > 0 then
    { queue with disconnect := queue.disconnect + offset } else queue
  if h : offset ≥ queue.items.length then
    { queue := { queue with items := [] },
      actions := obs.2 ++ errorItemClose codec conn true ("Queue '" ++ name ++ "' is empty"),
      started := none }
  else
    { queue := { queue with items := queue.items.drop (offset + 1),
                            running := queue.running + 1 },
      actions := obs.2,
      started := some (queue.items.get ⟨offset, Nat.lt_of_not_ge h⟩) }

/-- One iteration of the loop of `listenForWorkers`, after `Accept`: the queue
set afterwards, what was done to connections, and the started `doItem`
goroutine (queue name and item), if any. -/
def listenForWorkersConn {F : Type} [Zero F] (codec : Codec F) (expired : Conn → Bool)
    (queues : queuesT F) (conn : Conn) (rd : ReadResult) :
    queuesT F × List Action × Option (String × queueItem F) :=
  let queues := { queues with workers := queues.workers + 1 }
  match workerCheck codec queues.maps rd with
  | .error msg => (queues, Action.read conn :: errorItemClose codec conn false msg, none)
  | .ok (name, queue) =>
    let r := pull codec expired name conn queue
    ({ queues with maps := setQueue queues.maps name r.queue },
      Action.read conn :: r.actions, r.started.map (fun item => (name, item)))

/-! ## One queue under interleaved admissions, pulls and completions -/

/-- An item handed to a worker: the number of the pull that took it, its
position in the admission log, and the item. -/
structure Dispatch (F : Type) where
  pull : Nat
  index : Nat
  item : queueItem F

/-- One queue together with a record of its history.  `queue` and `inflight`
are the program state (the queue record and the `doItem` goroutines that have
not yet taken the mutex); `admitted`, `pulls` and `dispatched` only record
what happened. -/
structure Sys (F : Type) where
  queue : queueT F
  inflight : List (Conn × queueItem F)
  admitted : List (queueItem F)
  pulls : Nat
  dispatched : List (Dispatch F)

/-- The atomic steps on one queue. -/
inductive Event (F : Type) where
  | request (conn : Conn) (req : clientReq F) (now : F)
  | pull (worker : Conn) (expired : Conn → Bool)
  | complete (i : Nat) (out : WorkerOutcome) (now : F)

/-- Queue record of a queue created by `main`. -/
def emptyQueue {F : Type} [Zero F] : queueT F :=
  { items := [], running := 0, disconnect := 0, success := 0, failure := 0,
    maxtotal := 0, maxwait := 0, maxrun := 0 }

/-- State of a queue at startup. -/
def Sys.init {F : Type} [Zero F] : Sys F :=
  { queue := emptyQueue, inflight := [], admitted := [], pulls := 0, dispatched := [] }

/-- One atomic step.  An admission runs `enqueue` and logs the items it appended;
a pull runs `pull` and logs the item it started, at the position in the
admission log just before the items still queued; a completion runs `doItem`
for the `i`-th goroutine in flight (and is no step if there is none). -/
def Sys.step {F : Type} [LinearOrder F] [Zero F] [Add F] [Sub F] (codec : Codec F)
    (qmax : Int) (name : String) (s : Sys F) : Event F → Sys F
  | .request conn req now =>
    let r := enqueue codec qmax name conn req now s.queue
    { s with queue := r.1,
             admitted := s.admitted ++ r.1.items.drop s.queue.items.length }
  | .pull worker expired =>
    let r := pull codec expired name worker s.queue
    match r.started with
    | none => { s with queue := r.queue, pulls := s.pulls + 1 }
    | some item =>
      { s with queue := r.queue, pulls := s.pulls + 1,
               inflight := s.inflight ++ [(worker, item)],
               dispatched := s.dispatched ++
                 [{ pull := s.pulls,
                    index := s.admitted.length - r.queue.items.length - 1,
                    item := item }] }
  | .complete i out now =>
    match s.inflight.get? i with
    | none => s
    | some (worker, item) =>
      { s with queue := (doItem codec out now worker item s.queue).1,
               inflight := s.inflight.eraseIdx i }

/-- The state after a sequence of atomic steps. -/
def Sys.run {F : Type} [LinearOrder F] [Zero F] [Add F] [Sub F] (codec : Codec F)
    (qmax : Int) (name : String) (s : Sys F) (evs : List (Event F)) : Sys F :=
  evs.foldl (Sys.step codec qmax name) s

/-- The queue record after the `doItem` goroutines that returned the given
replies have run their locked part, in that order. -/
def completeAll {F : Type} [LinearOrder F] [Add F] (replies : List (replyT F))
    (queue : queueT F) : queueT F :=
  replies.foldl (fun q r => doItemUpdate r q) queue

/-- A codec for examples: every record is encoded as the empty message; every
worker reply decodes to a success from pod `p` that ran 5 seconds and claims
to have waited 999; every request decodes to a request for queue `sleep`. -/
def sampleCodec : Codec Int :=
  { marshalReply := fun _ => [],
    marshalWorkItem := fun _ => [],
    unmarshalReply := fun _ r =>
      ({ r with Pod := "p", Runtime := 5, Waittime := 999, Retcode := 0 }, none),
    unmarshalClientReq := fun _ => .ok { Queue := "sleep", Args := ["1"], Limit := 0 },
    unmarshalWorkReq := fun _ => .ok { Queue := "sleep" } }

/-- A queued item for examples: client connection 7, added at time 3. -/
def sampleItem : queueItem Int :=
  { client := 7, added := 3, Args := ["1"], Limit := 0 }

/-- A worker that takes the work item and answers with one message. -/
def sampleWorkerOk : WorkerOutcome :=
  { writeN := 0, writeErr := none, read := { n := 1, err := none, data := [] } }

/-- A worker whose connection breaks when the work item is written. -/
def sampleWorkerBroken : WorkerOutcome :=
  { writeN := 0, writeErr := some "broken pipe",
    read := { n := 0, err := some "EOF", data := [] } }

/-- A request for examples. -/
def sampleReq : clientReq Int :=
  { Queue := "sleep", Args := ["1"], Limit := 0 }

/-- The accounting relation between the admission log, the counters, the
queue length and the goroutines in flight. -/
def Accounted {F : Type} (s : Sys F) : Prop :=
  (s.admitted.length : Int)
      = (s.queue.success : Int) + s.queue.failure + s.queue.disconnect
        + s.queue.items.length + s.queue.running
    ∧ s.queue.running = (s.inflight.length : Int)

/-- The ordering relation between the admission log, the queue and the
dispatch log: the queue is the tail of the admission log; every dispatched
item sits in the part of the log in front of the queue, at its recorded
position, and was taken by a pull already made; along the dispatch log both
the pull number and the position grow strictly; the dispatched items, in
dispatch order, are picked from that front part in log order. -/
def Fifo {F : Type} (s : Sys F) : Prop :=
  ∃ pre : List (queueItem F), s.admitted = pre ++ s.queue.items
    ∧ (∀ d ∈ s.dispatched, d.pull < s.pulls ∧ d.index < pre.length
        ∧ pre[d.index]? = some d.item)
    ∧ s.dispatched.Pairwise (fun a b => a.pull < b.pull ∧ a.index < b.index)
    ∧ (s.dispatched.map (fun d => d.item)).Sublist pre

/-- Two replies for examples: a success after waiting 3 and running 5, and a
failure after waiting 4 and running 2. -/
def sampleReplies : List (replyT Int) :=
  [{ Pod := "p", Node := "n", Device := "d", Error := "",
     Timeout := 0, Runtime := 5, Waittime := 3, Retcode := 0 },
   { Pod := "p", Node := "n", Device := "d", Error := "exit status 2",
     Timeout := 0, Runtime := 2, Waittime := 4, Retcode := 2 }]

/-- A queue set for examples: one queue named `sleep`, as created by `main`. -/
def sampleQueues : queuesT Int :=
  { maps := [("sleep", emptyQueue)], clients := 0, workers := 0, metrics := 0, interval := 0 }

/-- A read that returned one message. -/
def sampleRead : ReadResult :=
  { n := 1, err := none, data := [] }

/-! ## The metrics exporter -/

/-- The parts of an `http.Request` the handlers look at: method, URL path,
whether `r.Body` is `http.NoBody`, and the form values. -/
structure httpRequest where
  Method : String
  Path : String
  noBody : Bool
  form : String → String

/-- What a handler did to the `http.ResponseWriter`: the status passed to
`WriteHeader` if it was called, and the pieces of text written, in order. -/
structure httpResponse where
  status : Option Nat
  body : List String
deriving DecidableEq, Repr

/-- The function `requestCheck` of the frontend. -/
def requestCheck (r : httpRequest) : Nat :=
  if r.Method ≠ "GET" then 405
  else if r.Path ≠ "/metrics" then 404
  else if r.noBody = false then 400
  else 200

/-- The body of the loop over queues in `exporter`, run under the queue
mutex: the lines written for the queue and the queue record afterwards.
`fmtG` renders a `float64` with the verb `%g`. -/
def exportQueue {F : Type} [Zero F] (fmtG : F → String) (interval : Int) (name : String)
    (q : queueT F) : queueT F × List String :=
  let counts : List String :=
    ["hpa_queue_all\x7bname=\"" ++ name ++ "\"\x7d "
        ++ toString ((q.items.length : Int) + q.running) ++ "\n",
     "hpa_queue_waiting\x7bname=\"" ++ name ++ "\"\x7d " ++ toString q.items.length ++ "\n",
     "hpa_queue_running\x7bname=\"" ++ name ++ "\"\x7d " ++ toString q.running ++ "\n",
     "hpa_queue_success_total\x7bname=\"" ++ name ++ "\"\x7d " ++ toString q.success ++ "\n",
     "hpa_queue_failure_total\x7bname=\"" ++ name ++ "\"\x7d " ++ toString q.failure ++ "\n",
     "hpa_queue_disconnect_total\x7bname=\"" ++ name ++ "\"\x7d "
        ++ toString q.disconnect ++ "\n"]
  if interval > 0 then
    let labels := "name=\"" ++ name ++ "\",interval=\"" ++ toString interval ++ "s\""
    (q, counts ++
      ["hpa_queue_maxrun_seconds\x7b" ++ labels ++ "\x7d " ++ fmtG q.maxrun ++ "\n",
       "hpa_queue_maxwait_seconds\x7b" ++ labels ++ "\x7d " ++ fmtG q.maxwait ++ "\n",
       "hpa_queue_maxtotal_seconds\x7b" ++ labels ++ "\x7d " ++ fmtG q.maxtotal ++ "\n"])
  else
    ({ q with maxrun := 0, maxwait := 0, maxtotal := 0 }, counts ++
      ["hpa_queue_maxrun_seconds\x7bname=\"" ++ name ++ "\"\x7d " ++ fmtG q.maxrun ++ "\n",
       "hpa_queue_maxwait_seconds\x7bname=\"" ++ name ++ "\"\x7d " ++ fmtG q.maxwait ++ "\n",
       "hpa_queue_maxtotal_seconds\x7bname=\"" ++ name ++ "\"\x7d "
          ++ fmtG q.maxtotal ++ "\n"])

/-- The function `exporter`.  The queues are visited in the order of the
list that stands for the map. -/
def exporter {F : Type} [Zero F] (fmtG : F → String) (queues : queuesT F)
    (r : httpRequest) : queuesT F × httpResponse :=
  if requestCheck r ≠ 200 then
    (queues, { status := some (requestCheck r), body := [] })
  else
    let header : List String :=
      ["# Device Scalability Tester for Kubernetes - frontend v0.1\n",
       "hpa_client_connections_total " ++ toString queues.clients ++ "\n",
       "hpa_worker_connections_total " ++ toString queues.workers ++ "\n"]
    ({ queues with
        metrics := queues.metrics + 1,
        maps := queues.maps.map
          (fun p => (p.1, (exportQueue fmtG queues.interval p.1 p.2).1)) },
     { status := none,
       body := header ++ (queues.maps.map
          (fun p => (exportQueue fmtG queues.interval p.1 p.2).2)).flatten })

/-- A rendering of numbers for examples. -/
def sampleFmt : Int → String := fun x => toString x

/-- A scrape for examples. -/
def sampleScrape : httpRequest :=
  { Method := "GET", Path := "/metrics", noBody := true, form := fun _ => "" }

end Frontend

/-!
# The client (`cmd/client/main.go`)

The conventions are those of the frontend.  In addition: the counter
`pending` is incremented and decremented with the wrap-around of an unsigned
64-bit number, since it can be decremented at zero; a Go map is a list of
key-value pairs with at most one pair per key; the text written to an HTTP
response is not modelled, only the status and the effect on the statistics.
-/

namespace Client

/-- Worker to frontend to client reply (`replyT`). -/
structure replyT (F : Type) where
  Pod : String
  Node : String
  Device : String
  Error : String
  Timeout : F
  Waittime : F
  Runtime : F
  Retcode : Int
deriving DecidableEq, Repr

/-- Reply counters (`replyStatT`). -/
structure replyStatT where
  success : Nat
  failure : Nat
deriving DecidableEq, Repr

/-- Time statistics (`timeStatT`); `timeStatT{}` has all three fields zero. -/
structure timeStatT (F : Type) where
  min : F
  max : F
  total : F
deriving DecidableEq, Repr

/-- Per-node metrics (`nodeStatT`). -/
structure nodeStatT (F : Type) where
  device : List (String × Nat)
  pod : List (String × Nat)
  error : List (String × Nat)
  runtime : List F
  reply : replyStatT
deriving DecidableEq, Repr

/-- The statistics record (`statsT`) without its mutex. -/
structure statsT (F : Type) where
  node : List (String × nodeStatT F)
  start : F
  reply : replyStatT
  pending : Nat
  run : timeStatT F
  wait : timeStatT F
  comm : timeStatT F
  completed : Nat
  rejected : Nat
deriving DecidableEq, Repr

/-- The map read `m[k]` with the found flag. -/
def mapGet {α : Type} (m : List (String × α)) (k : String) : Option α :=
  match m with
  | [] => none
  | (k2, v) :: rest => if k2 = k then some v else mapGet rest k

/-- The map write `m[k] = v`. -/
def mapSet {α : Type} (m : List (String × α)) (k : String) (v : α) : List (String × α) :=
  match m with
  | [] => [(k, v)]
  | (k2, old) :: rest => if k2 = k then (k2, v) :: rest else (k2, old) :: mapSet rest k v

/-- The statement `m[k]++` on a `map[string]uint64`. -/
def mapIncr (m : List (String × Nat)) (k : String) : List (String × Nat) :=
  mapSet m k ((mapGet m k).getD 0 + 1)

/-- What `html.EscapeString` does to one character. -/
def escapeChar (c : Char) : List Char :=
  if c = '&' then "&amp;".data
  else if c = Char.ofNat 39 then "&#39;".data
  else if c = '<' then "&lt;".data
  else if c = '>' then "&gt;".data
  else if c = Char.ofNat 34 then "&#34;".data
  else [c]

/-- The function `html.EscapeString`. -/
def escapeString (s : String) : String :=
  String.mk (s.data.map escapeChar).flatten

/-- The value `timeStatT{}`. -/
def timeStatT.zero {F : Type} [Zero F] : timeStatT F :=
  { min := 0, max := 0, total := 0 }

/-- The function `updateTime`. -/
def updateTime {F : Type} [LinearOrder F] [Add F] (t : timeStatT F) (secs : F) : timeStatT F :=
  let t := if secs > t.max then { t with max := secs } else t
  let t := if secs < t.min then { t with min := secs } else t
  { t with total := t.total + secs }

/-- The statement `x--` on a `uint64`: at zero the value wraps to `2^64 - 1`. -/
def decr64 (x : Nat) : Nat :=
  if x = 0 then 2 ^ 64 - 1 else x - 1

/-- The statement `x++` on a `uint64`: at `2^64 - 1` the value wraps to zero. -/
def incr64 (x : Nat) : Nat :=
  (x + 1) % 2 ^ 64

/-- The node record a fresh `getStatsNode` creates. -/
def newNode {F : Type} : nodeStatT F :=
  { device := [], pod := [], error := [], runtime := [],
    reply := { success := 0, failure := 0 } }

/-- The function `getStatsNode`: the record of the node, created if missing.
The caller writes the record back with `mapSet`, which stands for the
update through the returned pointer. -/
def getStatsNode {F : Type} (nodes : List (String × nodeStatT F)) (name : String) :
    nodeStatT F :=
  (mapGet nodes name).getD newNode

/-- The function `statsFailure`. -/
def statsFailure {F : Type} (reply : replyT F) (stats : statsT F) : statsT F :=
  let stats := { stats with pending := decr64 stats.pending }
  let stats := { stats with reply := { stats.reply with failure := stats.reply.failure + 1 } }
  if reply.Node ≠ "" then
    let name := escapeString reply.Node
    let node := getStatsNode stats.node name
    let node := { node with error := mapIncr node.error reply.Error }
    let node := { node with reply := { node.reply with failure := node.reply.failure + 1 } }
    { stats with node := mapSet stats.node name node }
  else
    stats

/-- The function `statsSuccess`. -/
def statsSuccess {F : Type} [LinearOrder F] [Add F] (reply : replyT F) (commtime : F)
    (stats : statsT F) : statsT F :=
  let stats := { stats with pending := decr64 stats.pending }
  let stats := { stats with reply := { stats.reply with success := stats.reply.success + 1 } }
  let name := escapeString reply.Node
  let node := getStatsNode stats.node name
  let node := { node with reply := { node.reply with success := node.reply.success + 1 } }
  let node := { node with runtime := node.runtime ++ [reply.Runtime] }
  let stats := { stats with run := updateTime stats.run reply.Runtime }
  let stats := { stats with wait := updateTime stats.wait reply.Waittime }
  let stats := { stats with comm := updateTime stats.comm commtime }
  let node := { node with device := mapIncr node.device (escapeString reply.Device) }
  let node := { node with pod := mapIncr node.pod (escapeString reply.Pod) }
  { stats with node := mapSet stats.node name node }

/-- The function `statsStart`. -/
def statsStart {F : Type} (start : F) (stats : statsT F) : statsT F :=
  let stats :=
    if stats.pending = 0 ∧ stats.reply.success = 0 ∧ stats.reply.failure = 0 then
      { stats with start := start }
    else stats
  { stats with pending := incr64 stats.pending }

/-- The locked part of the function `statsReset`; `now` is `time.Now()`. -/
def statsReset {F : Type} [Zero F] (now : F) (stats : statsT F) : statsT F :=
  { stats with
      pending := 0,
      start := now,
      node := [],
      reply := { success := 0, failure := 0 },
      run := timeStatT.zero,
      wait := timeStatT.zero,
      comm := timeStatT.zero }

/-- The statistics when `main` has set them up; `now` is `time.Now()`. -/
def statsInit {F : Type} [Zero F] (now : F) : statsT F :=
  { node := [], start := now, reply := { success := 0, failure := 0 }, pending := 0,
    run := timeStatT.zero, wait := timeStatT.zero, comm := timeStatT.zero,
    completed := 0, rejected := 0 }

/-! ## Requests in flight and the statistics -/

/-- The statistics together with a record of the requests behind them:
`started` counts the `statsStart` calls since the last reset (or startup),
`fresh` the requests started since then and not yet recorded as success or
failure, `stale` the requests started before the last reset and not yet
recorded. -/
structure Tally (F : Type) where
  stats : statsT F
  started : Nat
  fresh : Nat
  stale : Nat

/-- The calls that change the statistics.  A success or failure says whether
the request it records was started before the last reset (`old`). -/
inductive Call (F : Type) where
  | start (t : F)
  | success (old : Bool) (reply : replyT F) (commtime : F)
  | failure (old : Bool) (reply : replyT F)
  | reset (now : F)

/-- A call that records a request started before the last reset. -/
def Call.isOld {F : Type} : Call F → Bool
  | .success old _ _ => old
  | .failure old _ => old
  | _ => false

/-- The state at startup. -/
def Tally.init {F : Type} [Zero F] (now : F) : Tally F :=
  { stats := statsInit now, started := 0, fresh := 0, stale := 0 }

/-- One call.  A success or failure is recorded for a request in flight; when
there is none of the kind it names, the call does not happen. -/
def Tally.step {F : Type} [LinearOrder F] [Zero F] [Add F] (s : Tally F) : Call F → Tally F
  | .start t =>
    { s with stats := statsStart t s.stats, started := s.started + 1, fresh := s.fresh + 1 }
  | .success old reply commtime =>
    if old then
      if s.stale = 0 then s
      else { s with stats := statsSuccess reply commtime s.stats, stale := s.stale - 1 }
    else
      if s.fresh = 0 then s
      else { s with stats := statsSuccess reply commtime s.stats, fresh := s.fresh - 1 }
  | .failure old reply =>
    if old then
      if s.stale = 0 then s
      else { s with stats := statsFailure reply s.stats, stale := s.stale - 1 }
    else
      if s.fresh = 0 then s
      else { s with stats := statsFailure reply s.stats, fresh := s.fresh - 1 }
  | .reset now =>
    { stats := statsReset now s.stats, started := 0, fresh := 0, stale := s.stale + s.fresh }

/-- The state after a sequence of calls. -/
def Tally.run {F : Type} [LinearOrder F] [Zero F] [Add F] (s : Tally F)
    (calls : List (Call F)) : Tally F :=
  calls.foldl Tally.step s

/-- A reply for examples: a success from node `n1`. -/
def sampleReply : replyT Int :=
  { Pod := "p1", Node := "n1", Device := "card0", Error := "",
    Timeout := 0, Waittime := 1, Runtime := 2, Retcode := 0 }

/-- The time statistics after `updateTime` has been applied to the samples in
order. -/
def updateTimes {F : Type} [LinearOrder F] [Add F] (t : timeStatT F) (samples : List F) :
    timeStatT F :=
  samples.foldl updateTime t

/-- The relation between `pending` and the calls counted since the last
reset: `pending` is a `uint64` value, and it is the number of `statsStart`
calls minus the successes and failures counted, taken modulo `2^64`. -/
def Tally.Congruent {F : Type} (s : Tally F) : Prop :=
  s.stats.pending < 2 ^ 64
    ∧ (s.stats.pending : Int)
      = ((s.started : Int) - s.stats.reply.success - s.stats.reply.failure) % 2 ^ 64

/-! ## The HTTP control endpoint -/

/-- The function `requestCheck` of the client. -/
def requestCheck (r : Frontend.httpRequest) : Nat :=
  if r.Method ≠ "GET" then 405
  else if r.noBody = false then 400
  else 200

/-- The function `increaseRejected`. -/
def increaseRejected {F : Type} (stats : statsT F) : statsT F :=
  { stats with rejected := stats.rejected + 1 }

/-- The function `increaseCompleted`. -/
def increaseCompleted {F : Type} (stats : statsT F) : statsT F :=
  { stats with completed := stats.completed + 1 }

/-- What a handler of the control endpoint does besides writing text: its
boolean result, the statistics afterwards, and the value it put on the
`parallel` channel, if any. -/
structure Handled (F : Type) where
  ok : Bool
  stats : statsT F
  sent : Option Int

/-- The function `parallelization`; `parseInt` is `strconv.ParseInt(s, 10, 64)`
with `none` for an error. -/
def parallelization {F : Type} (parseInt : String → Option Int) (r : Frontend.httpRequest)
    (stats : statsT F) : Handled F :=
  match parseInt (r.form "value") with
  | none => { ok := false, stats := stats, sent := none }
  | some value => { ok := true, stats := stats, sent := some value }

/-- The table `handlers` of `myHandler`.  The handlers `failCount`,
`nodeStatsOutput`, `podStatsOutput`, `reqsPerSecond` and `statsOutput` only
read the statistics and return true; `statsReset` resets them and returns
true. -/
def handlers {F : Type} [Zero F] (parseInt : String → Option Int) (now : F)
    (r : Frontend.httpRequest) (path : String) : Option (statsT F → Handled F) :=
  if path = "/fails" then some (fun st => { ok := true, stats := st, sent := none })
  else if path = "/nodes" then some (fun st => { ok := true, stats := st, sent := none })
  else if path = "/parallel" then some (parallelization parseInt r)
  else if path = "/pods" then some (fun st => { ok := true, stats := st, sent := none })
  else if path = "/reqs-per-sec" then
    some (fun st => { ok := true, stats := st, sent := none })
  else if path = "/reset" then
    some (fun st => { ok := true, stats := statsReset now st, sent := none })
  else if path = "/stats" then some (fun st => { ok := true, stats := st, sent := none })
  else none

/-- The function `myHandler`: the statistics afterwards, the status passed to
`WriteHeader` if it was called, and the value put on the `parallel` channel,
if any. -/
def myHandler {F : Type} [Zero F] (parseInt : String → Option Int) (now : F)
    (stats : statsT F) (r : Frontend.httpRequest) : statsT F × Option Nat × Option Int :=
  if requestCheck r ≠ 200 then
    (increaseRejected stats, some (requestCheck r), none)
  else
    match handlers parseInt now r r.Path with
    | none => (increaseRejected stats, some 404, none)
    | some handler =>
      if (handler stats).ok then
        (increaseCompleted (handler stats).stats, none, (handler stats).sent)
      else
        (increaseRejected (handler stats).stats, none, (handler stats).sent)

/-- A parser for examples: only `3` is a number. -/
def sampleParse (s : String) : Option Int :=
  if s = "3" then some 3 else none

/-- A request to the control endpoint for examples. -/
def sampleQuery : Frontend.httpRequest :=
  { Method := "GET", Path := "/parallel", noBody := true, form := fun _ => "three" }

/-! ## The parallelism controller -/

/-- The target of a change of parallelism: `value` constrained as in the
`parallel` case of the loop of `doParallelRequests`. -/
def clampTarget (value reqmax : Int) : Int :=
  if value > reqmax then reqmax
  else if value < 0 then 0
  else value

/-- The values `i` takes in `for i := reqnow; i < target; i++`. -/
def promotions (reqnow target : Int) : List Int :=
  (List.range (target - reqnow).toNat).map (fun (k : Nat) => reqnow + (k : Int))

/-- What the `parallel` case of the loop of `doParallelRequests` does: the slots
it sends a go-ahead to, in order, the value it sends back on `parallel`, and
the new `reqnow`. -/
structure TargetChange where
  sends : List Int
  reply : Int
  reqnow : Int
deriving DecidableEq, Repr

/-- The `parallel` case of the loop of `doParallelRequests`. -/
def targetChange (reqmax value reqnow : Int) : TargetChange :=
  let target := clampTarget value reqmax
  { sends := promotions reqnow target, reply := target, reqnow := target }

/-- The send `proceed[i] <- true` on the number of go-aheads queued per slot. -/
def sendGo (proceed : Int → Nat) (i : Int) : Int → Nat :=
  fun j => if j = i then proceed j + 1 else proceed j

/-- The controller and the requester goroutines.  `reqnow` is the local
variable of `doParallelRequests`; `proceed i` is the number of go-aheads
queued in `proceed[i]`; `finished` is the content of the channel `finished`;
`busy i` says that `doRequests` of slot `i` is between `<-proceed` and
`finished <- t`.  `peak` and `lowered` record history: the largest value
`reqnow` has had, and whether a change has ever made it smaller. -/
structure Pool where
  reqnow : Int
  proceed : Int → Nat
  finished : List Int
  busy : Int → Bool
  peak : Int
  lowered : Bool

/-- The atomic steps: the controller handles a value from `parallel`
(`change`) or an index from `finished` (`done`); the requester of a slot takes a
go-ahead and starts a request (`begin`) or ends its request and reports its
index (`finish`). -/
inductive Move where
  | change (value : Int)
  | done
  | begin (i : Int)
  | finish (i : Int)
deriving DecidableEq, Repr

/-- The state when `doParallelRequests` enters its loop: the first `reqnow`
slots hold one go-ahead each. -/
def Pool.init (reqnow : Int) : Pool :=
  { reqnow := reqnow,
    proceed := fun i => if 0 ≤ i ∧ i < reqnow then 1 else 0,
    finished := [],
    busy := fun _ => false,
    peak := reqnow,
    lowered := false }

/-- One atomic step.  A step that cannot happen (nothing in `finished`, no
go-ahead queued, no request running) leaves the state as it is. -/
def Pool.step (reqmax : Int) (s : Pool) : Move → Pool
  | .change value =>
    let t := targetChange reqmax value s.reqnow
    { s with
        proceed := t.sends.foldl sendGo s.proceed,
        reqnow := t.reqnow,
        peak := max s.peak t.reqnow,
        lowered := s.lowered || decide (t.reqnow < s.reqnow) }
  | .done =>
    match s.finished with
    | [] => s
    | i :: rest =>
      { s with
          finished := rest,
          proceed := if s.reqnow > i then sendGo s.proceed i else s.proceed }
  | .begin i =>
    if 0 ≤ i ∧ i < reqmax ∧ s.busy i = false ∧ 0 < s.proceed i then
      { s with
          proceed := fun j => if j = i then s.proceed j - 1 else s.proceed j,
          busy := fun j => if j = i then true else s.busy j }
    else s
  | .finish i =>
    if s.busy i = true then
      { s with
          busy := fun j => if j = i then false else s.busy j,
          finished := s.finished ++ [i] }
    else s

/-- The state after a sequence of atomic steps. -/
def Pool.run (reqmax : Int) (s : Pool) (moves : List Move) : Pool :=
  moves.foldl (Pool.step reqmax) s

/-- Number of requester slots with a request in flight. -/
def Pool.inflight (reqmax : Int) (s : Pool) : Nat :=
  ((List.range reqmax.toNat).filter (fun (n : Nat) => s.busy (n : Int))).length

/-- Every slot that runs a request, holds a go-ahead or has reported its end
lies below the largest target there has been, which is between the current
target and `reqmax` and is the current target when no change has lowered
it. -/
def Pool.Granted (reqmax : Int) (s : Pool) : Prop :=
  0 ≤ s.reqnow ∧ s.reqnow ≤ s.peak ∧ s.peak ≤ reqmax
    ∧ (∀ i, (s.busy i = true ∨ 0 < s.proceed i ∨ i ∈ s.finished) → 0 ≤ i ∧ i < s.peak)
    ∧ (s.lowered = false → s.peak = s.reqnow)

/-! ## Printing the node errors -/

/-- The type `outputType`. -/
abbrev outputType := Int

/-- The constant `plainOutput`, `outputType(0)`. -/
def plainOutput : outputType := 0

/-- The constant `htmlOutput`, `outputType(0)`. -/
def htmlOutput : outputType := 0

/-- The function `sortByCount`: the entries of the map with the largest count
first.  The order among equal counts, which Go leaves open, is here that of
the list. -/
def sortByCount (mapping : List (String × Nat)) : List (String × Nat) :=
  mapping.insertionSort (fun a b => a.2 ≥ b.2)

/-- The function `printNodeErrors`: the pieces of text written, in order.
`nodeStatsOutput` (the `/nodes` endpoint) has it called with `htmlOutput`,
the report at exit with `plainOutput`. -/
def printNodeErrors (mapping : List (String × Nat)) (output : outputType) : List String :=
  if mapping.length = 0 then []
  else
    "\nNode errors (count / description):\n" ::
      (sortByCount mapping).map (fun err =>
        if output = plainOutput then
          "- " ++ toString err.2 ++ ": " ++ err.1 ++ "\n"
        else
          "- " ++ toString err.2 ++ ": " ++ escapeString err.1 ++ "\n")

/-! ## Per-node statistics and the totals -/

/-- Sum of the counts of a `map[string]uint64`. -/
def sumCounts (m : List (String × Nat)) : Nat :=
  (m.map Prod.snd).sum

/-- A node record whose success count is the sum of its per-device counts,
the sum of its per-pod counts and the length of its runtime list, and whose
failure count is the sum of its per-error counts. -/
def nodeConsistent {F : Type} (node : nodeStatT F) : Prop :=
  node.reply.success = sumCounts node.device
    ∧ node.reply.success = sumCounts node.pod
    ∧ node.reply.success = node.runtime.length
    ∧ node.reply.failure = sumCounts node.error

/-- Statistics whose global success count is the sum of the per-node success
counts, whose node records are all consistent, and whose per-node failure
counts sum to at most the global failure count. -/
def statsConsistent {F : Type} (stats : statsT F) : Prop :=
  stats.reply.success = (stats.node.map (fun p => p.2.reply.success)).sum
    ∧ (∀ p ∈ stats.node, nodeConsistent p.2)
    ∧ (stats.node.map (fun p => p.2.reply.failure)).sum ≤ stats.reply.failure

/-- One call on the statistics, whatever is in flight. -/
def statsApply {F : Type} [LinearOrder F] [Zero F] [Add F] (stats : statsT F) :
    Call F → statsT F
  | .start t => statsStart t stats
  | .success _ reply commtime => statsSuccess reply commtime stats
  | .failure _ reply => statsFailure reply stats
  | .reset now => statsReset now stats

/-! ## Go-aheads queued when the controller sends -/

/-- The sends `proceed[i] <- true` the controller makes in one atomic step,
each with the number of go-aheads queued in `proceed[i]` just before it. -/
def Pool.sendsOf (reqmax : Int) (s : Pool) : Move → List (Int × Nat)
  | .change value =>
    (targetChange reqmax value s.reqnow).sends.map (fun i => (i, s.proceed i))
  | .done =>
    match s.finished with
    | [] => []
    | i :: _ => if s.reqnow > i then [(i, s.proceed i)] else []
  | .begin _ => []
  | .finish _ => []

/-- The controller and requesters with a record of history: the number of
target changes that made `reqnow` smaller, and every send of a go-ahead so
far with the number queued just before it.  The capacity of the channels is
not part of the state: a send that finds 2 queued is one that blocks in
`proceed[i] <- true`, the channel having capacity 2. -/
structure Watch where
  pool : Pool
  lowerings : Nat
  sends : List (Int × Nat)

/-- The state when `doParallelRequests` enters its loop; the seeding loop has
sent one go-ahead into each of the first `reqnow` channels, all empty. -/
def Watch.init (reqnow : Int) : Watch :=
  { pool := Pool.init reqnow,
    lowerings := 0,
    sends := (promotions 0 reqnow).map (fun i => (i, 0)) }

/-- Whether a step is a target change that makes `reqnow` smaller. -/
def Pool.lowers (reqmax : Int) (s : Pool) : Move → Bool
  | .change value => decide ((targetChange reqmax value s.reqnow).reqnow < s.reqnow)
  | _ => false

/-- One atomic step with its record. -/
def Watch.step (reqmax : Int) (w : Watch) (m : Move) : Watch :=
  { pool := Pool.step reqmax w.pool m,
    lowerings := if Pool.lowers reqmax w.pool m then w.lowerings + 1 else w.lowerings,
    sends := w.sends ++ Pool.sendsOf reqmax w.pool m }

/-- The state and record after a sequence of atomic steps. -/
def Watch.run (reqmax : Int) (w : Watch) (moves : List Move) : Watch :=
  moves.foldl (Watch.step reqmax) w

/-- What a slot has in hand: the go-aheads queued for it, the request it is
running, and its reports waiting in `finished`. -/
def Pool.activity (s : Pool) (i : Int) : Nat :=
  s.proceed i + (if s.busy i = true then 1 else 0) + s.finished.count i

/-- No slot has more in hand than the number of lowerings so far, plus one
when it is below `reqnow`; and no send so far found more go-aheads queued
than there had been lowerings. -/
def Watch.Bounded (w : Watch) : Prop :=
  (∀ i : Int, w.pool.activity i ≤ w.lowerings + (if i < w.pool.reqnow then 1 else 0))
    ∧ (∀ e ∈ w.sends, e.2 ≤ w.lowerings)

/-! ## The target change step by step -/

/-- Where the controller is in the loop of `doParallelRequests`: at the
`select` (`idle`); in the `parallel` case, in the loop
`for i := reqnow; i < target; i++` with the value of `i` (`promoting`); or
past that loop, before `reqnow = target` (`settling`).  The send
`parallel <- target` and the log lines in between change nothing here. -/
inductive Phase where
  | idle
  | promoting (target i : Int)
  | settling (target : Int)
deriving DecidableEq, Repr

/-- The controller and the requesters, with the `parallel` case of the
controller taken one statement at a time. -/
structure Crew where
  pool : Pool
  phase : Phase

/-- The atomic steps: the controller takes a value from `parallel` and
constrains it (`recv`), runs one round of the promotion loop (`send`: the
test `i < target`, and either the send `proceed[i] <- true` with `i++` or
the exit from the loop), assigns `reqnow = target` (`settle`), or handles an
index from `finished` (`done`); the requester of a slot takes a go-ahead and
starts a request (`begin`) or ends its request and reports (`finish`). -/
inductive Act where
  | recv (value : Int)
  | send
  | settle
  | done
  | begin (i : Int)
  | finish (i : Int)
deriving DecidableEq, Repr

/-- The state when `doParallelRequests` enters its loop. -/
def Crew.init (reqnow : Int) : Crew :=
  { pool := Pool.init reqnow, phase := .idle }

/-- One atomic step.  A step the controller is not at leaves the state as it
is; the requesters step as in `Pool.step`. -/
def Crew.step (reqmax : Int) (c : Crew) : Act → Crew
  | .recv value =>
    match c.phase with
    | .idle => { c with phase := .promoting (clampTarget value reqmax) c.pool.reqnow }
    | _ => c
  | .send =>
    match c.phase with
    | .promoting target i =>
      if i < target then
        { pool := { c.pool with proceed := sendGo c.pool.proceed i },
          phase := .promoting target (i + 1) }
      else { c with phase := .settling target }
    | _ => c
  | .settle =>
    match c.phase with
    | .settling target =>
      { pool := { c.pool with
                    reqnow := target,
                    peak := max c.pool.peak target,
                    lowered := c.pool.lowered || decide (target < c.pool.reqnow) },
        phase := .idle }
    | _ => c
  | .done =>
    match c.phase with
    | .idle => { c with pool := Pool.step reqmax c.pool .done }
    | _ => c
  | .begin i => { c with pool := Pool.step reqmax c.pool (.begin i) }
  | .finish i => { c with pool := Pool.step reqmax c.pool (.finish i) }

/-- The state after a sequence of atomic steps. -/
def Crew.run (reqmax : Int) (c : Crew) (acts : List Act) : Crew :=
  acts.foldl (Crew.step reqmax) c

/-- The number of slots the controller grants: the slots below it are the
ones it re-arms or has sent a promotion to.  It is `reqnow` at the `select`;
in the promotion loop it is the loop variable, and past the loop the larger
of `reqnow` and the target. -/
def Crew.armed (c : Crew) : Int :=
  match c.phase with
  | .idle => c.pool.reqnow
  | .promoting _ i => i
  | .settling target => max c.pool.reqnow target

/-- What the slots from `lo` up to `hi` have in hand together: go-aheads
queued, requests running and reports waiting in `finished`. -/
def Pool.held (s : Pool) (lo hi : Int) : Nat :=
  ((List.range hi.toNat).map
    (fun (n : Nat) => if lo ≤ (n : Int) then s.activity (n : Int) else 0)).sum

/-- What the slots that are not granted have in hand together. -/
def Crew.excess (reqmax : Int) (c : Crew) : Nat :=
  c.pool.held c.armed reqmax

/-- Whether a step is the assignment `reqnow = target` with a target below
`reqnow`. -/
def Crew.lowers (c : Crew) : Act → Bool
  | .settle =>
    match c.phase with
    | .settling target => decide (target < c.pool.reqnow)
    | _ => false
  | _ => false

/-- The controller's variables are in range, whatever a slot has in hand is
in a slot of the pool, and until `reqnow` is lowered it is in a granted
slot. -/
def Crew.Sound (reqmax : Int) (c : Crew) : Prop :=
  0 ≤ c.pool.reqnow ∧ c.pool.reqnow ≤ reqmax
    ∧ (match c.phase with
        | .idle => True
        | .promoting target i =>
          0 ≤ target ∧ target ≤ reqmax ∧ c.pool.reqnow ≤ i ∧ i ≤ max c.pool.reqnow target
        | .settling target => 0 ≤ target ∧ target ≤ reqmax)
    ∧ (∀ i, 0 < c.pool.activity i → 0 ≤ i ∧ i < reqmax)
    ∧ (c.pool.lowered = false → ∀ i, 0 < c.pool.activity i → i < c.armed)

end Client

/-!
# The backend (`cmd/backend/main.go`)

Strings are compared and searched character by character.  The times are
values of a type `F` with an order, a zero, an addition and the conversion
`uint64(1000*x)`, of which nothing is assumed; `float64` below gives them
for the finite `float64` values that are not negative, with the rounding of
IEEE 754, and `Int` gives them for whole numbers of seconds.
-/

namespace Backend

/-- The constant `mapster`. -/
def mapster : String := "FILENAME"

/-- Whether `s` starts with `pat`. -/
def startsWith : List Char → List Char → Bool
  | [], _ => true
  | _ :: _, [] => false
  | p :: ps, c :: cs => p = c && startsWith ps cs

/-- Whether `pat` occurs in `s`. -/
def containsSub (pat : List Char) : List Char → Bool
  | [] => startsWith pat []
  | c :: cs => startsWith pat (c :: cs) || containsSub pat cs

/-- Replacement of the occurrences of a non-empty `pat` in `s` by `rep`, from
left to right and without overlap; `skip` is the number of characters of an
occurrence just replaced that are still to be passed over. -/
def replaceFrom (pat rep : List Char) : Nat → List Char → List Char
  | _, [] => []
  | skip + 1, _ :: cs => replaceFrom pat rep skip cs
  | 0, c :: cs =>
    if startsWith pat (c :: cs) then rep ++ replaceFrom pat rep (pat.length - 1) cs
    else c :: replaceFrom pat rep 0 cs

/-- The function `strings.Contains`. -/
def stringsContains (s substr : String) : Bool :=
  containsSub substr.data s.data

/-- The function `strings.ReplaceAll` for a non-empty `old`. -/
def stringsReplaceAll (s old new : String) : String :=
  String.mk (replaceFrom old.data new.data 0 s.data)

/-- The loop of `mapArgs`: the arguments after mapping, or `none` when the loop
is left by the `return` for a missing file name. -/
def mapArgsLoop (name : String) : List String → Option (List String)
  | [] => some []
  | arg :: rest =>
    if stringsContains arg mapster = false then
      (mapArgsLoop name rest).map (fun r => arg :: r)
    else if name = "" then
      none
    else
      (mapArgsLoop name rest).map (fun r => stringsReplaceAll arg mapster name :: r)

/-- The function `mapArgs`: the modified slice (`nil` is the empty list) and
the error string. -/
def mapArgs (args : List String) (name : String) : List String × String :=
  match mapArgsLoop name args with
  | none => ([], mapster ++ " in args, but no file name to map to it")
  | some mapped => (mapped, "")

/-- The fields of `workOptions` used by the loop of `main`: the backoff times,
the limit, the device file, the node and pod names, the workload arguments
and the `ignore` flag. -/
structure workOptions (F : Type) where
  inc : F
  max : F
  limit : F
  file : String := ""
  node : String := ""
  pod : String := ""
  args : List String := []
  ignore : Bool := false

/-! ## The type `float64` -/

/-- The finite values of `float64` that are not negative.  The value is
`units * 2^-1074`, a multiple of the smallest positive `float64`; the values
of the type are those whose `units` have at most 53 significant bits
(`float64.Rep`), below `2^1024`.  Infinities, NaN and negative numbers are
left out. -/
structure float64 where
  units : Nat
deriving DecidableEq, Repr

/-- The least `e` from `e` on with `n < 2^(53+e)`, in steps of one. -/
def float64.expFrom (n : Nat) : Nat → Nat → Nat
  | 0, e => e
  | fuel + 1, e => if n < 2 ^ (53 + e) then e else float64.expFrom n fuel (e + 1)

/-- The first `e` from `e` on, in steps of 64, with `n < 2^(53+e+64)`. -/
def float64.expCoarse (n : Nat) : Nat → Nat → Nat
  | 0, e => e
  | fuel + 1, e => if n < 2 ^ (53 + e + 64) then e else float64.expCoarse n fuel (e + 64)

/-- The exponent of the unit in the last place of a number of `n` units: the
least `e` with `n < 2^(53+e)`. -/
def float64.exponent (n : Nat) : Nat :=
  float64.expFrom n n (float64.expCoarse n n 0)

/-- Rounding of a number of units to 53 significant bits: to the nearest
value, and to the one with an even last bit when two are equally near. -/
def float64.round (n : Nat) : Nat :=
  let e := float64.exponent n
  let q := n / 2 ^ e
  let r := n % 2 ^ e
  if 2 * r > 2 ^ e ∨ (2 * r = 2 ^ e ∧ q % 2 = 1) then (q + 1) * 2 ^ e else q * 2 ^ e

/-- A value with at most 53 significant bits. -/
def float64.Rep (x : float64) : Prop :=
  ∃ m e : Nat, m < 2 ^ 53 ∧ x.units = m * 2 ^ e

/-- The operator `+` of `float64`: the exact sum, rounded.  A sum of `2^1024`
or more, which is `+Inf` in Go, is kept as a finite number. -/
instance : Add float64 := ⟨fun x y => ⟨float64.round (x.units + y.units)⟩⟩

instance : Zero float64 := ⟨⟨0⟩⟩

instance : LinearOrder float64 :=
  LinearOrder.lift' float64.units (fun x y h => by cases x; cases y; cases h; rfl)

/-- The conversion `float64(n)` of a whole number. -/
def float64.ofNat (n : Nat) : float64 :=
  ⟨float64.round (n * 2 ^ 1074)⟩

/-- The `float64` that `0.1` denotes, `0x3FB999999999999A`:
`7205759403792794 * 2^-56`. -/
def float64.tenth : float64 :=
  ⟨7205759403792794 * 2 ^ 1018⟩

/-- The expression `uint64(1000*x)`: the product rounded, then cut to a whole
number.  The conversion of a number of `2^64` or more, which Go leaves to the
implementation, is not reduced. -/
def float64.millis (x : float64) : Nat :=
  float64.round (1000 * x.units) / 2 ^ 1074

/-- The expression `uint64(1000*x)` for the times of type `F`. -/
class Millis (F : Type) where
  millis : F → Nat

instance : Millis float64 := ⟨float64.millis⟩

instance : Millis Int := ⟨fun x => (1000 * x).toNat⟩

/-! ## The backoff -/

/-- The argument of `time.Sleep` in milliseconds, `uint64(1000*total)`. -/
def sleepMillis {F : Type} [Millis F] (total : F) : Nat :=
  Millis.millis total

/-- The branch `conn == nil` of the loop of `main`: the time slept, in
seconds, and the new value of `total`. -/
def emptyPoll {F : Type} [LinearOrder F] [Zero F] [Add F] (opts : workOptions F)
    (total : F) : F × F :=
  let total := if total > opts.max then opts.max else total
  let total := if opts.limit > 0 ∧ total > opts.limit then opts.limit else total
  (total, total + opts.inc)

/-- What `getWork` returned: no connection (the queue was empty) or a work
item. -/
inductive Poll where
  | empty
  | work
deriving DecidableEq, Repr

/-- The variables of the loop of `main`, with the log of the sleeps made:
seconds computed and milliseconds passed to `time.Sleep`. -/
structure Loop (F : Type) where
  total : F
  completed : Nat
  sleeps : List (F × Nat)

/-- The variables when the loop of `main` is entered. -/
def Loop.init {F : Type} (opts : workOptions F) : Loop F :=
  { total := opts.inc, completed := 0, sleeps := [] }

/-- One iteration of the loop of `main`, as far as the backoff goes. -/
def Loop.step {F : Type} [LinearOrder F] [Zero F] [Add F] [Millis F]
    (opts : workOptions F) (s : Loop F) : Poll → Loop F
  | .empty =>
    { s with
        total := (emptyPoll opts s.total).2,
        sleeps := s.sleeps
          ++ [((emptyPoll opts s.total).1, sleepMillis (emptyPoll opts s.total).1)] }
  | .work => { s with total := opts.inc, completed := s.completed + 1 }

/-- The variables after a sequence of iterations. -/
def Loop.run {F : Type} [LinearOrder F] [Zero F] [Add F] [Millis F]
    (opts : workOptions F) (s : Loop F) (polls : List Poll) : Loop F :=
  polls.foldl (Loop.step opts) s

/-- The cap on a sleep: `max`, and also `limit` when `limit > 0`. -/
def sleepCap {F : Type} [LinearOrder F] [Zero F] (opts : workOptions F) : F :=
  if opts.limit > 0 then min opts.max opts.limit else opts.max

/-- The value `total` has at the `k+1`-st consecutive empty poll when nothing
caps it: `inc`, and `inc` added to it `k` times, one addition after the
other. -/
def accumulate {F : Type} [Add F] (inc : F) : Nat → F
  | 0 => inc
  | k + 1 => accumulate inc k + inc

/-- The backoff options of the end-to-end scenario: increment 1, cap 3, no
limit. -/
def sampleBackoff : workOptions float64 :=
  { inc := float64.ofNat 1, max := float64.ofNat 3, limit := 0 }

/-- Backoff options with the increment `0.1`, and the cap 5 that
`-backoff-max` has when it is not given; no limit. -/
def tenthBackoff : workOptions float64 :=
  { inc := float64.tenth, max := float64.ofNat 5, limit := 0 }

/-! ## Running a work item -/

/-- Work for worker (`workItem`). -/
structure workItem (F : Type) where
  Error : String
  Args : List String
  Limit : F
  Empty : Bool
deriving DecidableEq, Repr

/-- Worker to frontend to client reply (`replyT`). -/
structure replyT (F : Type) where
  Pod : String
  Node : String
  Device : String
  Error : String
  Timeout : F
  Runtime : F
  Retcode : Int
deriving DecidableEq, Repr

/-- Library functions the backend calls: `strconv.ParseFloat(s, 64)` and
`path.Base`. -/
structure Extern (F : Type) where
  parseFloat : String → Except String F
  pathBase : String → String

/-- The function `runSleep`: return code, timeout and error description, and
the sleep made, if any, in seconds and in the milliseconds passed to
`time.Sleep`. -/
def runSleep {F : Type} [LinearOrder F] [Zero F] [Millis F] (ext : Extern F)
    (args : List String) (limit : F) : (Int × F × String) × Option (F × Nat) :=
  match args with
  | [] => ((1, 0, "Sleep time (seconds) argument missing"), none)
  | first :: _ =>
    match ext.parseFloat first with
    | .error e => ((1, 0, "invalid sleep time value '" ++ first ++ "': " ++ e), none)
    | .ok secs =>
      if limit > 0 ∧ secs > limit then
        ((0, limit, "Sleep timeout"), some (limit, sleepMillis limit))
      else
        ((0, 0, ""), some (secs, sleepMillis secs))

/-- The function `runPath`; `exitCode` is `state.ExitCode()` of the process
started.  The argument list is not empty when `main` calls `doWork`. -/
def runPath {F : Type} [Zero F] (args : List String) (exitCode : Int) (_limit : F) :
    Int × F × String :=
  (exitCode, 0,
    if exitCode ≠ 0 then args.headD "" ++ " returned error code " ++ toString exitCode
    else "")

/-- The first statement of `doWork`: the limit that `runSleep` or `runPath` is
given. -/
def effectiveLimit {F : Type} [LinearOrder F] [Zero F] (deflimit limit : F) : F :=
  if limit ≤ 0 ∨ limit > deflimit then deflimit else limit

/-- The function `doWork`: the reply and the sleep made by `runSleep`, if
any.  `elapsed` is `time.Since(start).Seconds()`. -/
def doWork {F : Type} [LinearOrder F] [Zero F] [Millis F] (ext : Extern F) (exitCode : Int)
    (elapsed : F) (args : List String) (deflimit limit : F) :
    replyT F × Option (F × Nat) :=
  let limit := effectiveLimit deflimit limit
  let r : (Int × F × String) × Option (F × Nat) :=
    if args.headD "" = "sleep" then runSleep ext args.tail limit
    else (runPath args exitCode limit, none)
  ({ Pod := "", Node := "", Device := "", Error := r.1.2.2, Timeout := r.1.2.1,
     Runtime := elapsed, Retcode := r.1.1 }, r.2)

/-- The branch of the loop of `main` that has received a work item, up to the
reply passed to `sendReplyClose`. -/
def mainWork {F : Type} [LinearOrder F] [Zero F] [Millis F] (ext : Extern F) (exitCode : Int)
    (elapsed : F) (opts : workOptions F) (item : workItem F) :
    replyT F × Option (F × Nat) :=
  let r : replyT F × Option (F × Nat) :=
    if opts.ignore then
      doWork ext exitCode elapsed opts.args item.Limit opts.limit
    else
      if (mapArgs item.Args opts.file).2 = "" then
        doWork ext exitCode elapsed (opts.args ++ (mapArgs item.Args opts.file).1)
          item.Limit opts.limit
      else
        ({ Pod := "", Node := "", Device := "", Error := (mapArgs item.Args opts.file).2,
           Timeout := 0, Runtime := 0, Retcode := 0 }, none)
  ({ r.1 with Node := opts.node, Pod := opts.pod, Device := ext.pathBase opts.file }, r.2)

/-- Library functions for examples: only `10` is a number; `path.Base` as it is
on the empty path and on a path without a slash. -/
def sampleExtern : Extern Int :=
  { parseFloat := fun s => if s = "10" then .ok 10 else .error "invalid syntax",
    pathBase := fun s => if s = "" then "." else s }

/-- A backend for examples: the workload `sleep`, no device file, a limit of
5 seconds. -/
def sampleOptions : workOptions Int :=
  { inc := 1, max := 3, limit := 5, args := ["sleep"], node := "n1", pod := "p1" }

end Backend

namespace Frontend

/-! ## Theorems -/

section ObsoleteTheorems

variable {F : Type}

theorem countObsoleteLoop_spec (expired : Conn → Bool) (items : List (queueItem F)) :
    (countObsoleteLoop expired items).1
        = (items.takeWhile (fun it => !expired it.client)).length
      ∧ closedConns (countObsoleteLoop expired items).2
        = ((items.takeWhile (fun it => !expired it.client)).map (fun it => it.client))
      ∧ readConns (countObsoleteLoop expired items).2
        = ((items.take ((items.takeWhile (fun it => !expired it.client)).length + 1)).map
            (fun it => it.client)) := by
  induction items with
  | nil => simp [countObsoleteLoop, closedConns, readConns]
  | cons item rest ih =>
    obtain ⟨ih1, ih2, ih3⟩ := ih
    by_cases h : expired item.client = true
    · simp [countObsoleteLoop, h, closedConns, readConns]
    · simp only [Bool.not_eq_true] at h
      simp [countObsoleteLoop, h, closedConns, readConns, ih1, ih2, ih3]

theorem takeWhile_eq_take_length {α : Type} (p : α → Bool) (l : List α) :
    l.takeWhile p = l.take (l.takeWhile p).length := by
  induction l with
  | nil => simp
  | cons a t ih =>
    by_cases h : p a = true
    · simp only [List.takeWhile_cons, h, if_true, List.length_cons, List.take_succ_cons]
      rw [← ih]
    · simp [List.takeWhile_cons, h]

theorem takeWhile_stop {α : Type} (p : α → Bool) (l : List α) :
    (l.takeWhile p).length = l.length
      ∨ ∃ a, l[(l.takeWhile p).length]? = some a ∧ p a = false := by
  induction l with
  | nil => simp
  | cons a t ih =>
    by_cases h : p a = true
    · rcases ih with ih | ⟨b, hb, hpb⟩
      · left; simp [List.takeWhile_cons, h, ih]
      · right; exact ⟨b, by simp [List.takeWhile_cons, h, hb], hpb⟩
    · right; exact ⟨a, by simp [List.takeWhile_cons, h], by simpa using h⟩

theorem countObsoleteLoop_congr (expired expired2 : Conn → Bool) (items : List (queueItem F))
    (h : ∀ it ∈ items.take ((items.takeWhile (fun it => !expired it.client)).length + 1),
      expired2 it.client = expired it.client) :
    countObsoleteLoop expired2 items = countObsoleteLoop expired items := by
  induction items with
  | nil => rfl
  | cons item rest ih =>
    have h0 : expired2 item.client = expired item.client := h item (by simp)
    by_cases he : expired item.client = true
    · simp [countObsoleteLoop, h0, he]
    · simp only [Bool.not_eq_true] at he
      have hrest : countObsoleteLoop expired2 rest = countObsoleteLoop expired rest := by
        apply ih
        intro it hit
        apply h
        simp [List.takeWhile_cons, he, hit]
      simp [countObsoleteLoop, h0, he, hrest]

theorem countObsolete_count (expired : Conn → Bool) (queue : queueT F) :
    (countObsolete expired queue).1
      = (queue.items.takeWhile (fun it => !expired it.client)).length :=
  (countObsoleteLoop_spec expired queue.items).1

theorem countObsolete_le (expired : Conn → Bool) (queue : queueT F) :
    (countObsolete expired queue).1 ≤ queue.items.length := by
  rw [countObsolete_count]
  exact (List.takeWhile_sublist _).length_le

theorem countObsolete_gone (expired : Conn → Bool) (queue : queueT F) :
    ∀ it ∈ queue.items.take (countObsolete expired queue).1, expired it.client = false := by
  intro it hit
  rw [countObsolete_count, ← takeWhile_eq_take_length] at hit
  simpa using List.mem_takeWhile_imp hit

theorem countObsolete_stop (expired : Conn → Bool) (queue : queueT F) :
    (countObsolete expired queue).1 = queue.items.length
      ∨ ∃ it, queue.items[(countObsolete expired queue).1]? = some it
          ∧ expired it.client = true := by
  rw [countObsolete_count]
  rcases takeWhile_stop (fun it : queueItem F => !expired it.client) queue.items with h | h
  · exact Or.inl h
  · obtain ⟨a, ha, hpa⟩ := h
    exact Or.inr ⟨a, ha, by simpa using hpa⟩

theorem countObsolete_eq_length_iff (expired : Conn → Bool) (queue : queueT F) :
    (countObsolete expired queue).1 = queue.items.length
      ↔ ∀ it ∈ queue.items, expired it.client = false := by
  constructor
  · intro h it hit
    apply countObsolete_gone expired queue
    rw [h, List.take_length]
    exact hit
  · intro h
    rcases countObsolete_stop expired queue with h4 | ⟨it, hit, hexp⟩
    · exact h4
    · have hmem : it ∈ queue.items := List.getElem?_mem hit
      rw [h it hmem] at hexp
      exact absurd hexp (by decide)

/-- C3 (prefix-only pruning).  `countObsolete` returns the length `k` of the
longest prefix of `items` whose probe does not report deadline-exceeded: `k`
is at most the queue length, every one of `items[0..k)` is gone, either `k`
is the queue length or `items[k]` is alive, the connections closed are exactly
those of `items[0..k)`, the connections probed are exactly those of
`items[0..k]`, and the result is the same for every probe outcome of the
items behind `items[k]`. -/
theorem countObsolete_prefix (expired : Conn → Bool) (queue : queueT F) :
    (countObsolete expired queue).1
        = (queue.items.takeWhile (fun it => !expired it.client)).length
      ∧ (countObsolete expired queue).1 ≤ queue.items.length
      ∧ (∀ it ∈ queue.items.take (countObsolete expired queue).1, expired it.client = false)
      ∧ ((countObsolete expired queue).1 = queue.items.length
          ∨ ∃ it, queue.items[(countObsolete expired queue).1]? = some it
              ∧ expired it.client = true)
      ∧ closedConns (countObsolete expired queue).2
          = (queue.items.take (countObsolete expired queue).1).map (fun it => it.client)
      ∧ readConns (countObsolete expired queue).2
          = (queue.items.take ((countObsolete expired queue).1 + 1)).map (fun it => it.client)
      ∧ (∀ expired2 : Conn → Bool,
          (∀ it ∈ queue.items.take ((countObsolete expired queue).1 + 1),
              expired2 it.client = expired it.client) →
          countObsolete expired2 queue = countObsolete expired queue) := by
  obtain ⟨-, h2, h3⟩ := countObsoleteLoop_spec expired queue.items
  have hk := countObsolete_count expired queue
  refine ⟨hk, countObsolete_le expired queue, countObsolete_gone expired queue,
    countObsolete_stop expired queue, ?_, ?_, ?_⟩
  · rw [hk, ← takeWhile_eq_take_length]; exact h2
  · rw [hk]; exact h3
  · intro expired2 hagree
    rw [hk] at hagree
    exact countObsoleteLoop_congr expired expired2 queue.items hagree

end ObsoleteTheorems

section Strings

theorem ne_empty_of_length_pos (s : String) (h : 0 < s.length) : s ≠ "" := by
  intro hs
  rw [hs] at h
  exact absurd h (by decide)

theorem append_ne_empty_left (a b : String) (h : 0 < a.length) : a ++ b ≠ "" := by
  apply ne_empty_of_length_pos
  rw [String.length_append]
  omega

theorem append_ne_empty_right (a b : String) (h : 0 < b.length) : a ++ b ≠ "" := by
  apply ne_empty_of_length_pos
  rw [String.length_append]
  omega

theorem errorReplyClose_sends {F : Type} [Zero F] (codec : Codec F) (conn : Conn)
    (msg : String) :
    Action.write conn (codec.marshalReply
        { Pod := "", Node := "", Device := "", Error := msg,
          Timeout := 0, Runtime := 0, Waittime := 0, Retcode := 1 })
      ∈ errorReplyClose codec conn msg
    ∧ Action.close conn ∈ errorReplyClose codec conn msg := by
  simp [errorReplyClose, sendJSONClose, errorReply]

end Strings

section PullTheorems

variable {F : Type}

theorem disconnect_update (queue : queueT F) (k : Nat) :
    (if k > 0 then { queue with disconnect := queue.disconnect + k } else queue)
      = { queue with disconnect := queue.disconnect + k } := by
  by_cases h : k > 0
  · simp [h]
  · have hz : k = 0 := by omega
    subst hz
    simp

variable [Zero F]

theorem pull_empty (codec : Codec F) (expired : Conn → Bool) (name : String) (conn : Conn)
    (queue : queueT F) (h : (countObsolete expired queue).1 = queue.items.length) :
    pull codec expired name conn queue =
      { queue := { queue with items := [],
                              disconnect := queue.disconnect + queue.items.length },
        actions := (countObsolete expired queue).2
          ++ errorItemClose codec conn true ("Queue '" ++ name ++ "' is empty"),
        started := none } := by
  unfold pull
  simp only [disconnect_update]
  rw [dif_pos (by simp [h])]
  simp [h]

theorem pull_dispatch (codec : Codec F) (expired : Conn → Bool) (name : String) (conn : Conn)
    (queue : queueT F) (h : (countObsolete expired queue).1 < queue.items.length) :
    pull codec expired name conn queue =
      { queue := { queue with items := queue.items.drop ((countObsolete expired queue).1 + 1),
                              running := queue.running + 1,
                              disconnect := queue.disconnect + (countObsolete expired queue).1 },
        actions := (countObsolete expired queue).2,
        started := some (queue.items.get ⟨(countObsolete expired queue).1, h⟩) } := by
  unfold pull
  simp only [disconnect_update]
  rw [dif_neg (by simpa using h)]
  by_cases h0 : 0 < (countObsolete expired queue).1 <;> simp [h0]

/-- C4 (worker pull postcondition).  With `k` the count returned by
`countObsolete`: `disconnect` grows by exactly `k` and `success`, `failure`
and the watermarks are unchanged; if `k` is the queue length, no item is
started, the worker is sent a `workItem` with `Empty` true and a non-empty
`Error`, `items` becomes empty and `running` is unchanged; otherwise the item
started is `items[k]`, the new `items` is `items[k+1:]`, `running` grows by
exactly one and nothing is sent to the worker by the pull itself.  The
worker is sent the empty-queue reply exactly when no queued item has a live
client. -/
theorem pull_postcondition (codec : Codec F) (expired : Conn → Bool) (name : String)
    (conn : Conn) (queue : queueT F) :
    (pull codec expired name conn queue).queue.disconnect
        = queue.disconnect + (countObsolete expired queue).1
      ∧ (pull codec expired name conn queue).queue.success = queue.success
      ∧ (pull codec expired name conn queue).queue.failure = queue.failure
      ∧ (pull codec expired name conn queue).queue.maxwait = queue.maxwait
      ∧ (pull codec expired name conn queue).queue.maxrun = queue.maxrun
      ∧ (pull codec expired name conn queue).queue.maxtotal = queue.maxtotal
      ∧ ((countObsolete expired queue).1 = queue.items.length →
          (pull codec expired name conn queue).started = none
          ∧ (pull codec expired name conn queue).queue.items = []
          ∧ (pull codec expired name conn queue).queue.running = queue.running
          ∧ ∃ msg : String, msg ≠ ""
              ∧ (pull codec expired name conn queue).actions
                  = (countObsolete expired queue).2
                    ++ [Action.write conn (codec.marshalWorkItem
                          { Error := msg, Args := [], Limit := 0, Empty := true }),
                        Action.close conn])
      ∧ ((countObsolete expired queue).1 ≠ queue.items.length →
          (pull codec expired name conn queue).started
              = queue.items[(countObsolete expired queue).1]?
          ∧ (pull codec expired name conn queue).started.isSome = true
          ∧ (pull codec expired name conn queue).queue.items
              = queue.items.drop ((countObsolete expired queue).1 + 1)
          ∧ (pull codec expired name conn queue).queue.running = queue.running + 1
          ∧ (pull codec expired name conn queue).actions = (countObsolete expired queue).2)
      ∧ ((∃ msg : String, (pull codec expired name conn queue).actions
              = (countObsolete expired queue).2 ++ errorItemClose codec conn true msg)
          ↔ ∀ it ∈ queue.items, expired it.client = false) := by
  have hle := countObsolete_le expired queue
  by_cases h : (countObsolete expired queue).1 = queue.items.length
  · have hp := pull_empty codec expired name conn queue h
    have hmsg : "Queue '" ++ name ++ "' is empty" ≠ "" :=
      append_ne_empty_right _ _ (by decide)
    rw [hp]
    refine ⟨by simp [h], rfl, rfl, rfl, rfl, rfl, ?_, ?_, ?_⟩
    · intro _
      exact ⟨rfl, rfl, rfl, _, hmsg, rfl⟩
    · intro hne
      exact absurd h hne
    · constructor
      · intro _
        exact (countObsolete_eq_length_iff expired queue).mp h
      · intro _
        exact ⟨_, rfl⟩
  · have hlt : (countObsolete expired queue).1 < queue.items.length := by omega
    have hp := pull_dispatch codec expired name conn queue hlt
    rw [hp]
    refine ⟨rfl, rfl, rfl, rfl, rfl, rfl, ?_, ?_, ?_⟩
    · intro heq
      exact absurd heq h
    · intro _
      refine ⟨?_, rfl, rfl, rfl, rfl⟩
      simp [List.getElem?_eq_getElem hlt]
    · constructor
      · rintro ⟨msg, hmsg⟩
        have hlen := congrArg List.length hmsg
        simp [errorItemClose, sendJSONClose] at hlen
      · intro hall
        exact absurd ((countObsolete_eq_length_iff expired queue).mpr hall) h

end PullTheorems

section EnqueueTheorems

variable {F : Type} [Zero F]

theorem enqueue_full (codec : Codec F) (qmax : Int) (name : String) (conn : Conn)
    (req : clientReq F) (now : F) (queue : queueT F)
    (h : qmax > 0 ∧ (queue.items.length : Int) ≥ qmax) :
    enqueue codec qmax name conn req now queue
      = (queue, errorReplyClose codec conn
          ("'" ++ name ++ "' queue already at full capacity (" ++ toString qmax ++ ")")) := by
  unfold enqueue
  rw [if_pos h]

theorem enqueue_room (codec : Codec F) (qmax : Int) (name : String) (conn : Conn)
    (req : clientReq F) (now : F) (queue : queueT F)
    (h : ¬ (qmax > 0 ∧ (queue.items.length : Int) ≥ qmax)) :
    enqueue codec qmax name conn req now queue
      = ({ queue with items := queue.items
            ++ [{ client := conn, added := now, Args := req.Args, Limit := req.Limit }] }, []) := by
  unfold enqueue
  rw [if_neg h]

end EnqueueTheorems

section DoItemTheorems

variable {F : Type} [LinearOrder F] [Add F]

theorem doItemUpdate_items (reply : replyT F) (queue : queueT F) :
    (doItemUpdate reply queue).items = queue.items := by
  unfold doItemUpdate
  simp only []
  split_ifs <;> rfl

theorem doItemUpdate_disconnect (reply : replyT F) (queue : queueT F) :
    (doItemUpdate reply queue).disconnect = queue.disconnect := by
  unfold doItemUpdate
  simp only []
  split_ifs <;> rfl

theorem doItemUpdate_running (reply : replyT F) (queue : queueT F) :
    (doItemUpdate reply queue).running = queue.running - 1 := by
  unfold doItemUpdate
  simp only []
  split_ifs <;> rfl

theorem doItemUpdate_success (reply : replyT F) (queue : queueT F) :
    (doItemUpdate reply queue).success
      = if reply.Retcode = 0 then queue.success + 1 else queue.success := by
  unfold doItemUpdate
  simp only []
  split_ifs <;> rfl

theorem doItemUpdate_failure (reply : replyT F) (queue : queueT F) :
    (doItemUpdate reply queue).failure
      = if reply.Retcode = 0 then queue.failure else queue.failure + 1 := by
  unfold doItemUpdate
  simp only []
  split_ifs <;> rfl

theorem doItemUpdate_maxwait (reply : replyT F) (queue : queueT F) :
    (doItemUpdate reply queue).maxwait = max queue.maxwait reply.Waittime := by
  unfold doItemUpdate
  simp only []
  split_ifs <;> first
    | exact Eq.symm (max_eq_right (le_of_lt (by assumption)))
    | exact Eq.symm (max_eq_left (not_lt.mp (by assumption)))

theorem doItemUpdate_maxrun (reply : replyT F) (queue : queueT F) :
    (doItemUpdate reply queue).maxrun = max queue.maxrun reply.Runtime := by
  unfold doItemUpdate
  simp only []
  split_ifs <;> first
    | exact Eq.symm (max_eq_right (le_of_lt (by assumption)))
    | exact Eq.symm (max_eq_left (not_lt.mp (by assumption)))

theorem doItemUpdate_maxtotal (reply : replyT F) (queue : queueT F) :
    (doItemUpdate reply queue).maxtotal
      = max queue.maxtotal (reply.Waittime + reply.Runtime) := by
  unfold doItemUpdate
  simp only []
  split_ifs <;> first
    | exact Eq.symm (max_eq_right (le_of_lt (by assumption)))
    | exact Eq.symm (max_eq_left (not_lt.mp (by assumption)))

end DoItemTheorems

section SysTheorems

variable {F : Type} [LinearOrder F] [Zero F] [Add F] [Sub F]

theorem Sys.run_append (codec : Codec F) (qmax : Int) (name : String) (s : Sys F)
    (evs : List (Event F)) (ev : Event F) :
    Sys.run codec qmax name s (evs ++ [ev])
      = Sys.step codec qmax name (Sys.run codec qmax name s evs) ev := by
  simp [Sys.run, List.foldl_append]

/-- Induction over the states reached from `s`: a property of `s` that every
atomic step preserves holds after every sequence of steps. -/
theorem Sys.run_induction (codec : Codec F) (qmax : Int) (name : String)
    (P : Sys F → Prop) (hstep : ∀ s ev, P s → P (Sys.step codec qmax name s ev))
    (s : Sys F) (hs : P s) (evs : List (Event F)) : P (Sys.run codec qmax name s evs) := by
  induction evs using List.reverseRecOn with
  | nil => exact hs
  | append_singleton evs ev ih =>
    rw [Sys.run_append]
    exact hstep _ _ ih

theorem Sys.step_request_full (codec : Codec F) (qmax : Int) (name : String) (s : Sys F)
    (conn : Conn) (req : clientReq F) (now : F)
    (h : qmax > 0 ∧ (s.queue.items.length : Int) ≥ qmax) :
    Sys.step codec qmax name s (.request conn req now) = s := by
  simp only [Sys.step, enqueue_full codec qmax name conn req now s.queue h,
    List.drop_length, List.append_nil]

theorem Sys.step_request_room (codec : Codec F) (qmax : Int) (name : String) (s : Sys F)
    (conn : Conn) (req : clientReq F) (now : F)
    (h : ¬ (qmax > 0 ∧ (s.queue.items.length : Int) ≥ qmax)) :
    Sys.step codec qmax name s (.request conn req now)
      = { s with
          queue := { s.queue with items := s.queue.items
            ++ [{ client := conn, added := now, Args := req.Args, Limit := req.Limit }] },
          admitted := s.admitted
            ++ [{ client := conn, added := now, Args := req.Args, Limit := req.Limit }] } := by
  simp only [Sys.step, enqueue_room codec qmax name conn req now s.queue h,
    List.drop_left]

theorem Sys.step_pull_empty (codec : Codec F) (qmax : Int) (name : String) (s : Sys F)
    (worker : Conn) (expired : Conn → Bool)
    (h : (countObsolete expired s.queue).1 = s.queue.items.length) :
    Sys.step codec qmax name s (.pull worker expired)
      = { s with
          queue := { s.queue with
                       items := [],
                       disconnect := s.queue.disconnect + s.queue.items.length },
          pulls := s.pulls + 1 } := by
  simp only [Sys.step, pull_empty codec expired name worker s.queue h]

theorem Sys.step_pull_dispatch (codec : Codec F) (qmax : Int) (name : String) (s : Sys F)
    (worker : Conn) (expired : Conn → Bool)
    (h : (countObsolete expired s.queue).1 < s.queue.items.length) :
    Sys.step codec qmax name s (.pull worker expired)
      = { s with
          queue := { s.queue with
                       items := s.queue.items.drop ((countObsolete expired s.queue).1 + 1),
                       running := s.queue.running + 1,
                       disconnect := s.queue.disconnect + (countObsolete expired s.queue).1 },
          pulls := s.pulls + 1,
          inflight := s.inflight
            ++ [(worker, s.queue.items.get ⟨(countObsolete expired s.queue).1, h⟩)],
          dispatched := s.dispatched ++
            [{ pull := s.pulls,
               index := s.admitted.length
                 - (s.queue.items.drop ((countObsolete expired s.queue).1 + 1)).length - 1,
               item := s.queue.items.get ⟨(countObsolete expired s.queue).1, h⟩ }] } := by
  simp only [Sys.step, pull_dispatch codec expired name worker s.queue h]

theorem Sys.step_complete_none (codec : Codec F) (qmax : Int) (name : String) (s : Sys F)
    (i : Nat) (out : WorkerOutcome) (now : F) (h : s.inflight.get? i = none) :
    Sys.step codec qmax name s (.complete i out now) = s := by
  simp only [Sys.step, h]

theorem Sys.step_complete_some (codec : Codec F) (qmax : Int) (name : String) (s : Sys F)
    (i : Nat) (out : WorkerOutcome) (now : F) (worker : Conn) (item : queueItem F)
    (h : s.inflight.get? i = some (worker, item)) :
    Sys.step codec qmax name s (.complete i out now)
      = { s with
          queue := doItemUpdate (processItem codec out now worker item).1 s.queue,
          inflight := s.inflight.eraseIdx i } := by
  simp only [Sys.step, h, doItem]

/-- Case analysis of an atomic step into the six ways it can go. -/
theorem Sys.step_cases (codec : Codec F) (qmax : Int) (name : String) (P : Sys F → Prop)
    (s : Sys F) (ev : Event F)
    (hfull : ∀ conn req now, (qmax > 0 ∧ (s.queue.items.length : Int) ≥ qmax) →
      ev = .request conn req now → P s)
    (hroom : ∀ item : queueItem F, ¬ (qmax > 0 ∧ (s.queue.items.length : Int) ≥ qmax) →
      P { s with
          queue := { s.queue with items := s.queue.items ++ [item] },
          admitted := s.admitted ++ [item] })
    (hempty : ∀ expired : Conn → Bool,
      (countObsolete expired s.queue).1 = s.queue.items.length →
      P { s with
          queue := { s.queue with
                       items := [],
                       disconnect := s.queue.disconnect + s.queue.items.length },
          pulls := s.pulls + 1 })
    (hdisp : ∀ (worker : Conn) (k : Nat) (h : k < s.queue.items.length),
      P { s with
          queue := { s.queue with
                       items := s.queue.items.drop (k + 1),
                       running := s.queue.running + 1,
                       disconnect := s.queue.disconnect + k },
          pulls := s.pulls + 1,
          inflight := s.inflight ++ [(worker, s.queue.items.get ⟨k, h⟩)],
          dispatched := s.dispatched ++
            [{ pull := s.pulls,
               index := s.admitted.length - (s.queue.items.drop (k + 1)).length - 1,
               item := s.queue.items.get ⟨k, h⟩ }] })
    (hnone : P s)
    (hdone : ∀ (i : Nat) (reply : replyT F), i < s.inflight.length →
      P { s with queue := doItemUpdate reply s.queue, inflight := s.inflight.eraseIdx i }) :
    P (Sys.step codec qmax name s ev) := by
  cases ev with
  | request conn req now =>
    by_cases h : qmax > 0 ∧ (s.queue.items.length : Int) ≥ qmax
    · rw [Sys.step_request_full codec qmax name s conn req now h]
      exact hfull conn req now h rfl
    · rw [Sys.step_request_room codec qmax name s conn req now h]
      exact hroom _ h
  | pull worker expired =>
    by_cases h : (countObsolete expired s.queue).1 = s.queue.items.length
    · rw [Sys.step_pull_empty codec qmax name s worker expired h]
      exact hempty expired h
    · have hlt : (countObsolete expired s.queue).1 < s.queue.items.length := by
        have := countObsolete_le expired s.queue
        omega
      rw [Sys.step_pull_dispatch codec qmax name s worker expired hlt]
      exact hdisp worker _ hlt
  | complete i out now =>
    cases h : s.inflight.get? i with
    | none =>
      rw [Sys.step_complete_none codec qmax name s i out now h]
      exact hnone
    | some p =>
      obtain ⟨worker, item⟩ := p
      rw [Sys.step_complete_some codec qmax name s i out now worker item h]
      apply hdone
      by_contra hge
      rw [List.get?_eq_none.mpr (by omega)] at h
      exact absurd h (by simp)

end SysTheorems

section Accounting

variable {F : Type} [LinearOrder F] [Zero F] [Add F] [Sub F]

theorem accounted_step (codec : Codec F) (qmax : Int) (name : String) (s : Sys F)
    (ev : Event F) (h : Accounted s) : Accounted (Sys.step codec qmax name s ev) := by
  obtain ⟨h1, h2⟩ := h
  apply Sys.step_cases codec qmax name Accounted s ev
  · intro _ _ _ _ _
    exact ⟨h1, h2⟩
  · intro item _
    refine ⟨?_, h2⟩
    simp only [List.length_append, List.length_singleton, Nat.cast_add, Nat.cast_one]
    omega
  · intro _ _
    refine ⟨?_, h2⟩
    simp only [List.length_nil, Nat.cast_add, Nat.cast_zero]
    omega
  · intro worker k hk
    refine ⟨?_, ?_⟩
    · simp only [List.length_drop, Nat.cast_add]
      omega
    · simp only [List.length_append, List.length_singleton, Nat.cast_add, Nat.cast_one]
      omega
  · exact ⟨h1, h2⟩
  · intro i reply hi
    refine ⟨?_, ?_⟩
    · simp only [doItemUpdate_success, doItemUpdate_failure, doItemUpdate_disconnect,
        doItemUpdate_items, doItemUpdate_running]
      split_ifs <;> push_cast <;> omega
    · simp only [doItemUpdate_running, List.length_eraseIdx, hi, if_true]
      omega

/-- C2 (queue accounting invariant).  In every state reached from the empty
queue by admissions, worker pulls and completions, the number of requests
appended to `items` minus `success + failure + disconnect` equals
`len(items) + running`; moreover `running` is the number of `doItem`
goroutines that have not completed. -/
theorem queue_accounting (codec : Codec F) (qmax : Int) (name : String)
    (evs : List (Event F)) :
    ((Sys.run codec qmax name Sys.init evs).admitted.length : Int)
        - ((Sys.run codec qmax name Sys.init evs).queue.success
            + (Sys.run codec qmax name Sys.init evs).queue.failure
            + (Sys.run codec qmax name Sys.init evs).queue.disconnect : Nat)
      = ((Sys.run codec qmax name Sys.init evs).queue.items.length : Int)
          + (Sys.run codec qmax name Sys.init evs).queue.running
    ∧ (Sys.run codec qmax name Sys.init evs).queue.running
      = ((Sys.run codec qmax name Sys.init evs).inflight.length : Int) := by
  have hinit : Accounted (Sys.init : Sys F) := by
    simp [Accounted, Sys.init, emptyQueue]
  have h := Sys.run_induction codec qmax name Accounted
    (fun s ev hs => accounted_step codec qmax name s ev hs) Sys.init hinit evs
  obtain ⟨h1, h2⟩ := h
  refine ⟨?_, h2⟩
  push_cast
  omega

end Accounting

section FifoTheorems

variable {F : Type} [LinearOrder F] [Zero F] [Add F] [Sub F]

theorem fifo_step (codec : Codec F) (qmax : Int) (name : String) (s : Sys F)
    (ev : Event F) (h : Fifo s) : Fifo (Sys.step codec qmax name s ev) := by
  obtain ⟨pre, hpre, hd, hpw, hsub⟩ := h
  apply Sys.step_cases codec qmax name Fifo s ev
  · intro _ _ _ _ _
    exact ⟨pre, hpre, hd, hpw, hsub⟩
  · intro item _
    refine ⟨pre, ?_, hd, hpw, hsub⟩
    show s.admitted ++ [item] = pre ++ (s.queue.items ++ [item])
    rw [hpre, List.append_assoc]
  · intro _ _
    refine ⟨pre ++ s.queue.items, ?_, ?_, hpw, ?_⟩
    · show s.admitted = pre ++ s.queue.items ++ []
      rw [hpre, List.append_nil]
    · intro d hdm
      obtain ⟨h1, h2, h3⟩ := hd d hdm
      refine ⟨Nat.lt_succ_of_lt h1, ?_, ?_⟩
      · rw [List.length_append]; omega
      · rw [List.getElem?_append_left h2]; exact h3
    · exact hsub.trans (List.sublist_append_left _ _)
  · intro worker k hk
    have hidx : s.admitted.length - (s.queue.items.drop (k + 1)).length - 1
        = pre.length + k := by
      rw [hpre, List.length_append, List.length_drop]
      omega
    have htake : s.queue.items.take (k + 1)
        = s.queue.items.take k ++ [s.queue.items.get ⟨k, hk⟩] := by
      rw [List.take_succ, List.getElem?_eq_getElem hk]
      rfl
    refine ⟨pre ++ s.queue.items.take (k + 1), ?_, ?_, ?_, ?_⟩
    · show s.admitted = pre ++ s.queue.items.take (k + 1) ++ s.queue.items.drop (k + 1)
      rw [List.append_assoc, List.take_append_drop, hpre]
    · intro d hdm
      rcases List.mem_append.mp hdm with hold | hnew
      · obtain ⟨h1, h2, h3⟩ := hd d hold
        refine ⟨Nat.lt_succ_of_lt h1, ?_, ?_⟩
        · rw [List.length_append]; omega
        · rw [List.getElem?_append_left h2]; exact h3
      · rw [List.mem_singleton] at hnew
        subst hnew
        refine ⟨Nat.lt_succ_self _, ?_, ?_⟩
        · show s.admitted.length - (s.queue.items.drop (k + 1)).length - 1 < _
          rw [hidx, List.length_append, List.length_take]
          omega
        · show (pre ++ s.queue.items.take (k + 1))[s.admitted.length
              - (s.queue.items.drop (k + 1)).length - 1]? = _
          rw [hidx, List.getElem?_append_right (Nat.le_add_right _ _),
            Nat.add_sub_cancel_left, List.getElem?_take_of_lt (Nat.lt_succ_self k),
            List.getElem?_eq_getElem hk]
          rfl
    · show (s.dispatched ++ [_]).Pairwise _
      rw [List.pairwise_append]
      refine ⟨hpw, List.pairwise_singleton _ _, ?_⟩
      intro a ha b hb
      rw [List.mem_singleton] at hb
      subst hb
      obtain ⟨h1, h2, -⟩ := hd a ha
      refine ⟨h1, ?_⟩
      show a.index < s.admitted.length - (s.queue.items.drop (k + 1)).length - 1
      rw [hidx]
      omega
    · show ((s.dispatched ++ [_]).map _).Sublist _
      rw [List.map_append, htake, ← List.append_assoc]
      exact List.Sublist.append (hsub.trans (List.sublist_append_left _ _))
        (List.Sublist.refl _)
  · exact ⟨pre, hpre, hd, hpw, hsub⟩
  · intro i reply _
    refine ⟨pre, ?_, hd, hpw, hsub⟩
    show s.admitted = pre ++ (doItemUpdate reply s.queue).items
    rw [doItemUpdate_items]
    exact hpre

/-- C1 (FIFO dispatch).  After every sequence of admissions, worker pulls
(with arbitrary liveness outcomes) and completions on a queue that starts
empty: every dispatched item is the item at its recorded position of the
admission log and was taken by one of the pulls made; along the dispatch log
pull numbers and admission positions both grow strictly, so one pull takes
at most one item; of two dispatched items the one admitted first is taken by
the strictly earlier pull; and the items handed to workers, in dispatch
order, form a subsequence of the admission log. -/
theorem fifo_dispatch (codec : Codec F) (qmax : Int) (name : String)
    (evs : List (Event F)) :
    (∀ d ∈ (Sys.run codec qmax name Sys.init evs).dispatched,
        (Sys.run codec qmax name Sys.init evs).admitted[d.index]? = some d.item
        ∧ d.pull < (Sys.run codec qmax name Sys.init evs).pulls)
      ∧ (Sys.run codec qmax name Sys.init evs).dispatched.Pairwise
          (fun a b => a.pull < b.pull ∧ a.index < b.index)
      ∧ (∀ a ∈ (Sys.run codec qmax name Sys.init evs).dispatched,
          ∀ b ∈ (Sys.run codec qmax name Sys.init evs).dispatched,
            a.index < b.index → a.pull < b.pull)
      ∧ ((Sys.run codec qmax name Sys.init evs).dispatched.map (fun d => d.item)).Sublist
          (Sys.run codec qmax name Sys.init evs).admitted := by
  have hinit : Fifo (Sys.init : Sys F) :=
    ⟨[], by simp [Sys.init, emptyQueue], by simp [Sys.init], by simp [Sys.init],
      by simp [Sys.init]⟩
  obtain ⟨pre, hpre, hd, hpw, hsub⟩ := Sys.run_induction codec qmax name Fifo
    (fun s ev hs => fifo_step codec qmax name s ev hs) Sys.init hinit evs
  refine ⟨?_, hpw, ?_, ?_⟩
  · intro d hdm
    obtain ⟨h1, h2, h3⟩ := hd d hdm
    refine ⟨?_, h1⟩
    rw [hpre, List.getElem?_append_left h2]
    exact h3
  · intro a ha b hb hab
    have hsym : (Sys.run codec qmax name Sys.init evs).dispatched.Pairwise
        (fun a b => (a.pull < b.pull ∧ a.index < b.index)
          ∨ (b.pull < a.pull ∧ b.index < a.index)) :=
      hpw.imp (fun h => Or.inl h)
    by_cases hne : a = b
    · subst hne
      exact absurd hab (lt_irrefl _)
    · rcases hsym.forall (fun x y hxy => hxy.symm) ha hb hne with h | h
      · exact h.1
      · exact absurd hab (not_lt.mpr (le_of_lt h.2))
  · rw [hpre]
    exact hsub.trans (List.sublist_append_left _ _)

end FifoTheorems

section Capacity

variable {F : Type} [LinearOrder F] [Zero F] [Add F] [Sub F]

theorem full_capacity_message (name : String) (qmax : Int) :
    "'" ++ name ++ "' queue already at full capacity (" ++ toString qmax ++ ")"
      = ("'" ++ name ++ "' queue already at ") ++ "full capacity"
          ++ (" (" ++ toString qmax ++ ")") := by
  have hlit : ("' queue already at full capacity (" : String)
      = "' queue already at " ++ "full capacity" ++ " (" := by decide
  rw [hlit]
  simp only [String.append_assoc]

theorem Sys.step_length_le (codec : Codec F) (qmax : Int) (name : String) (hq : 0 < qmax)
    (s : Sys F) (ev : Event F) (h : (s.queue.items.length : Int) ≤ qmax) :
    ((Sys.step codec qmax name s ev).queue.items.length : Int) ≤ qmax := by
  apply Sys.step_cases codec qmax name
    (fun t => ((t.queue.items.length : Nat) : Int) ≤ qmax) s ev
  · intro _ _ _ _ _
    exact h
  · intro item hroom
    have : ¬ (s.queue.items.length : Int) ≥ qmax := fun hge => hroom ⟨hq, hge⟩
    simp only [List.length_append, List.length_singleton, Nat.cast_add, Nat.cast_one]
    omega
  · intro _ _
    simp only [List.length_nil, Nat.cast_zero]
    omega
  · intro worker k hk
    simp only [List.length_drop]
    omega
  · exact h
  · intro i reply _
    simp only [doItemUpdate_items]
    exact h

/-- C5 (bounded admission).  A validated request is answered with an error
reply (non-empty `Error` containing the words full capacity, `Retcode` 1, the
connection then closed) exactly when `qmax > 0` and `len(items) >= qmax`; in
that case the queue record is unchanged; otherwise the new record is the old
one with the new item appended to `items`, and nothing is sent.  Hence, for
`qmax > 0`, a queue holding at most `qmax` items holds at most `qmax` items
after every sequence of admissions, pulls and completions. -/
theorem bounded_admission (codec : Codec F) (qmax : Int) (name : String) :
    (∀ (conn : Conn) (req : clientReq F) (now : F) (queue : queueT F),
        ((∃ pre post : String,
            (enqueue codec qmax name conn req now queue).2
              = [Action.write conn (codec.marshalReply
                   { Pod := "", Node := "", Device := "",
                     Error := pre ++ "full capacity" ++ post,
                     Timeout := 0, Runtime := 0, Waittime := 0, Retcode := 1 }),
                 Action.close conn])
          ↔ (qmax > 0 ∧ (queue.items.length : Int) ≥ qmax))
        ∧ ((qmax > 0 ∧ (queue.items.length : Int) ≥ qmax) →
            (enqueue codec qmax name conn req now queue).1 = queue)
        ∧ (¬ (qmax > 0 ∧ (queue.items.length : Int) ≥ qmax) →
            (enqueue codec qmax name conn req now queue).1
                = { queue with items := queue.items
                      ++ [{ client := conn, added := now, Args := req.Args,
                            Limit := req.Limit }] }
              ∧ (enqueue codec qmax name conn req now queue).2 = []))
      ∧ (0 < qmax → ∀ (s : Sys F) (evs : List (Event F)),
          (s.queue.items.length : Int) ≤ qmax →
          ((Sys.run codec qmax name s evs).queue.items.length : Int) ≤ qmax) := by
  refine ⟨?_, ?_⟩
  · intro conn req now queue
    by_cases hfull : qmax > 0 ∧ (queue.items.length : Int) ≥ qmax
    · rw [enqueue_full codec qmax name conn req now queue hfull]
      refine ⟨⟨fun _ => hfull, fun _ =>
        ⟨"'" ++ name ++ "' queue already at ", " (" ++ toString qmax ++ ")", ?_⟩⟩,
        fun _ => rfl, fun h => absurd hfull h⟩
      simp only [errorReplyClose, sendJSONClose, errorReply]
      rw [full_capacity_message]
    · rw [enqueue_room codec qmax name conn req now queue hfull]
      refine ⟨⟨?_, fun h => absurd h hfull⟩, fun h => absurd h hfull, fun _ => ⟨rfl, rfl⟩⟩
      rintro ⟨pre, post, h⟩
      exact absurd h (by simp)
  · intro hq s evs hs
    exact Sys.run_induction codec qmax name
      (fun t => ((t.queue.items.length : Nat) : Int) ≤ qmax)
      (fun t ev ht => Sys.step_length_le codec qmax name hq t ev ht) s hs evs

/-- Witness for C5: with `qmax = 2`, three admissions into the empty queue
leave at most two items queued. -/
theorem bounded_admission_witness :
    (0 : Int) < 2
      ∧ ((Sys.init : Sys Int).queue.items.length : Int) ≤ 2
      ∧ ((Sys.run sampleCodec 2 "sleep" Sys.init
            [.request 1 sampleReq 10, .request 2 sampleReq 11,
             .request 3 sampleReq 12]).queue.items.length : Int) ≤ 2 :=
  ⟨by decide, by decide,
    (bounded_admission sampleCodec 2 "sleep").2 (by decide) Sys.init _ (by decide)⟩

end Capacity

section Completion

variable {F : Type} [LinearOrder F] [Zero F] [Add F] [Sub F]

/-- C6 (completion statistics).  For every queue record and every reply, the
locked part of `doItem` lowers `running` by exactly one, raises `success` by
exactly one and leaves `failure` alone when `Retcode == 0`, raises `failure`
by exactly one and leaves `success` alone otherwise, and leaves `items` and
`disconnect` unchanged; `doItem` applies it to the reply that `processItem`
returned. -/
theorem completion_statistics (codec : Codec F) (out : WorkerOutcome) (now : F)
    (worker : Conn) (item : queueItem F) (queue : queueT F) :
    (∀ reply : replyT F,
        (doItemUpdate reply queue).running = queue.running - 1
        ∧ (reply.Retcode = 0 →
            (doItemUpdate reply queue).success = queue.success + 1
            ∧ (doItemUpdate reply queue).failure = queue.failure)
        ∧ (reply.Retcode ≠ 0 →
            (doItemUpdate reply queue).failure = queue.failure + 1
            ∧ (doItemUpdate reply queue).success = queue.success)
        ∧ (doItemUpdate reply queue).items = queue.items
        ∧ (doItemUpdate reply queue).disconnect = queue.disconnect)
      ∧ (doItem codec out now worker item queue).1
          = doItemUpdate (processItem codec out now worker item).1 queue
      ∧ (doItem codec out now worker item queue).2
          = (processItem codec out now worker item).2 := by
  refine ⟨?_, rfl, rfl⟩
  intro reply
  refine ⟨doItemUpdate_running reply queue, ?_, ?_, doItemUpdate_items reply queue,
    doItemUpdate_disconnect reply queue⟩
  · intro h
    rw [doItemUpdate_success, doItemUpdate_failure, if_pos h, if_pos h]
    exact ⟨rfl, rfl⟩
  · intro h
    rw [doItemUpdate_success, doItemUpdate_failure, if_neg h, if_neg h]
    exact ⟨rfl, rfl⟩

end Completion

section Watermarks

variable {F : Type} [LinearOrder F] [Add F]

theorem completeAll_cons (r : replyT F) (rs : List (replyT F)) (queue : queueT F) :
    completeAll (r :: rs) queue = completeAll rs (doItemUpdate r queue) := rfl

/-- A field of the queue record that each completion replaces by the larger of
itself and a value of the reply ends as the largest of its starting value and
those values. -/
theorem completeAll_greatest (g : queueT F → F) (f : replyT F → F)
    (hstep : ∀ r q, g (doItemUpdate r q) = max (g q) (f r))
    (replies : List (replyT F)) (queue : queueT F) :
    g (completeAll replies queue) ∈ g queue :: replies.map f
      ∧ ∀ x ∈ g queue :: replies.map f, x ≤ g (completeAll replies queue) := by
  induction replies generalizing queue with
  | nil =>
    refine ⟨by simp [completeAll], ?_⟩
    intro x hx
    simp only [List.map_nil, List.mem_singleton] at hx
    rw [hx]
    exact le_refl _
  | cons r rs ih =>
    obtain ⟨hmem, hub⟩ := ih (doItemUpdate r queue)
    rw [completeAll_cons]
    rw [hstep] at hmem hub
    constructor
    · rcases List.mem_cons.mp hmem with h | h
      · rw [h]
        rcases max_choice (g queue) (f r) with hc | hc
        · rw [hc]; exact List.mem_cons_self _ _
        · rw [hc]; simp
      · simp only [List.map_cons, List.mem_cons]
        exact Or.inr (Or.inr h)
    · intro x hx
      simp only [List.map_cons, List.mem_cons] at hx
      rcases hx with h | h | h
      · rw [h]
        exact le_trans (le_max_left _ _) (hub _ (List.mem_cons_self _ _))
      · rw [h]
        exact le_trans (le_max_right _ _) (hub _ (List.mem_cons_self _ _))
      · exact hub x (List.mem_cons_of_mem _ h)

variable [Zero F] [Sub F]

theorem Sys.step_watermarks (codec : Codec F) (qmax : Int) (name : String) (s : Sys F)
    (ev : Event F) :
    s.queue.maxwait ≤ (Sys.step codec qmax name s ev).queue.maxwait
      ∧ s.queue.maxrun ≤ (Sys.step codec qmax name s ev).queue.maxrun
      ∧ s.queue.maxtotal ≤ (Sys.step codec qmax name s ev).queue.maxtotal := by
  apply Sys.step_cases codec qmax name
    (fun t => s.queue.maxwait ≤ t.queue.maxwait ∧ s.queue.maxrun ≤ t.queue.maxrun
      ∧ s.queue.maxtotal ≤ t.queue.maxtotal) s ev
  · intro _ _ _ _ _
    exact ⟨le_refl _, le_refl _, le_refl _⟩
  · intro _ _
    exact ⟨le_refl _, le_refl _, le_refl _⟩
  · intro _ _
    exact ⟨le_refl _, le_refl _, le_refl _⟩
  · intro _ _ _
    exact ⟨le_refl _, le_refl _, le_refl _⟩
  · exact ⟨le_refl _, le_refl _, le_refl _⟩
  · intro i reply _
    simp only [doItemUpdate_maxwait, doItemUpdate_maxrun, doItemUpdate_maxtotal]
    exact ⟨le_max_left _ _, le_max_left _ _, le_max_left _ _⟩

/-- C7 (watermarks are running maxima).  Starting from a queue record whose
watermarks are zero (a reset), after the completions that returned `replies`:
`maxwait` is the greatest of 0 and the replies' wait times, `maxrun` the
greatest of 0 and their run times, `maxtotal` the greatest of 0 and the sums
`Waittime + Runtime` taken per completed item.  Consequently no atomic step
on the queue (admission, pull or completion) lowers a watermark. -/
theorem watermarks_running_maxima (replies : List (replyT F)) (queue : queueT F)
    (hwait : queue.maxwait = 0) (hrun : queue.maxrun = 0) (htotal : queue.maxtotal = 0) :
    ((completeAll replies queue).maxwait ∈ 0 :: replies.map (fun r => r.Waittime)
        ∧ ∀ x ∈ 0 :: replies.map (fun r => r.Waittime),
            x ≤ (completeAll replies queue).maxwait)
      ∧ ((completeAll replies queue).maxrun ∈ 0 :: replies.map (fun r => r.Runtime)
        ∧ ∀ x ∈ 0 :: replies.map (fun r => r.Runtime),
            x ≤ (completeAll replies queue).maxrun)
      ∧ ((completeAll replies queue).maxtotal
            ∈ 0 :: replies.map (fun r => r.Waittime + r.Runtime)
        ∧ ∀ x ∈ 0 :: replies.map (fun r => r.Waittime + r.Runtime),
            x ≤ (completeAll replies queue).maxtotal)
      ∧ (∀ (codec : Codec F) (qmax : Int) (name : String) (s : Sys F) (ev : Event F),
          s.queue.maxwait ≤ (Sys.step codec qmax name s ev).queue.maxwait
          ∧ s.queue.maxrun ≤ (Sys.step codec qmax name s ev).queue.maxrun
          ∧ s.queue.maxtotal ≤ (Sys.step codec qmax name s ev).queue.maxtotal) := by
  have h1 := completeAll_greatest (fun q => q.maxwait) (fun r => r.Waittime)
    doItemUpdate_maxwait replies queue
  have h2 := completeAll_greatest (fun q => q.maxrun) (fun r => r.Runtime)
    doItemUpdate_maxrun replies queue
  have h3 := completeAll_greatest (fun q => q.maxtotal) (fun r => r.Waittime + r.Runtime)
    doItemUpdate_maxtotal replies queue
  simp only [hwait] at h1
  simp only [hrun] at h2
  simp only [htotal] at h3
  exact ⟨h1, h2, h3, fun codec qmax name s ev => Sys.step_watermarks codec qmax name s ev⟩

/-- Witness for C7: after the two sample completions on a fresh queue the
watermarks are 4, 5 and 8. -/
theorem watermarks_running_maxima_witness :
    (emptyQueue : queueT Int).maxwait = 0 ∧ (emptyQueue : queueT Int).maxrun = 0
      ∧ (emptyQueue : queueT Int).maxtotal = 0
      ∧ (completeAll sampleReplies emptyQueue).maxwait = 4
      ∧ (completeAll sampleReplies emptyQueue).maxrun = 5
      ∧ (completeAll sampleReplies emptyQueue).maxtotal = 8
      ∧ ∀ x ∈ (0 : Int) :: sampleReplies.map (fun r => r.Waittime + r.Runtime),
          x ≤ (completeAll sampleReplies emptyQueue).maxtotal :=
  ⟨rfl, rfl, rfl, by decide, by decide, by decide,
    (watermarks_running_maxima sampleReplies emptyQueue rfl rfl rfl).2.2.1.2⟩

end Watermarks

section ProcessItem

variable {F : Type} [Zero F] [Sub F]

theorem processItem_write_failed (codec : Codec F) (out : WorkerOutcome) (now : F)
    (worker : Conn) (item : queueItem F)
    (h : out.writeErr ≠ none
      ∨ out.writeN ≠ ((codec.marshalWorkItem (workItemOf item)).length : Int)) :
    processItem codec out now worker item
      = (replyInit (now - item.added),
         Action.write worker (codec.marshalWorkItem (workItemOf item))
          :: (errorReplyClose codec item.client
                ("Worker write (" ++ toString out.writeN ++ "/"
                  ++ toString (codec.marshalWorkItem (workItemOf item)).length
                  ++ " bytes) failed: " ++ fmtV out.writeErr ++ "\n")
              ++ [Action.close worker])) := by
  unfold processItem
  simp only []
  rw [if_pos h]

theorem processItem_read_failed (codec : Codec F) (out : WorkerOutcome) (now : F)
    (worker : Conn) (item : queueItem F)
    (hw : ¬ (out.writeErr ≠ none
      ∨ out.writeN ≠ ((codec.marshalWorkItem (workItemOf item)).length : Int)))
    (h : out.read.n ≤ 0 ∨ out.read.err ≠ none) :
    processItem codec out now worker item
      = (replyInit (now - item.added),
         [Action.write worker (codec.marshalWorkItem (workItemOf item)),
          Action.read worker, Action.close worker]
          ++ errorReplyClose codec item.client
              ("No bytes (" ++ toString out.read.n ++ ") / error (" ++ fmtV out.read.err
                ++ ") from worker reply read")) := by
  unfold processItem
  simp only []
  rw [if_neg hw, if_pos h]

theorem processItem_decode_failed (codec : Codec F) (out : WorkerOutcome) (now : F)
    (worker : Conn) (item : queueItem F)
    (hw : ¬ (out.writeErr ≠ none
      ∨ out.writeN ≠ ((codec.marshalWorkItem (workItemOf item)).length : Int)))
    (hr : ¬ (out.read.n ≤ 0 ∨ out.read.err ≠ none)) (e : String)
    (hd : (codec.unmarshalReply out.read.data (replyInit (now - item.added))).2 = some e) :
    processItem codec out now worker item
      = ({ (codec.unmarshalReply out.read.data (replyInit (now - item.added))).1 with
            Waittime := now - item.added, Retcode := 1 },
         [Action.write worker (codec.marshalWorkItem (workItemOf item)),
          Action.read worker, Action.close worker]
          ++ errorReplyClose codec item.client
              ("Unmarshaling worker reply JSON failed: " ++ e)) := by
  unfold processItem
  simp only []
  rw [if_neg hw, if_neg hr]
  simp only [hd]

theorem processItem_decoded (codec : Codec F) (out : WorkerOutcome) (now : F)
    (worker : Conn) (item : queueItem F)
    (hw : ¬ (out.writeErr ≠ none
      ∨ out.writeN ≠ ((codec.marshalWorkItem (workItemOf item)).length : Int)))
    (hr : ¬ (out.read.n ≤ 0 ∨ out.read.err ≠ none))
    (hd : (codec.unmarshalReply out.read.data (replyInit (now - item.added))).2 = none) :
    processItem codec out now worker item
      = ({ (codec.unmarshalReply out.read.data (replyInit (now - item.added))).1 with
            Waittime := now - item.added },
         [Action.write worker (codec.marshalWorkItem (workItemOf item)),
          Action.read worker, Action.close worker]
          ++ sendJSONClose item.client (codec.marshalReply
              { (codec.unmarshalReply out.read.data (replyInit (now - item.added))).1 with
                Waittime := now - item.added })) := by
  unfold processItem
  simp only []
  rw [if_neg hw, if_neg hr]
  simp only [hd]

/-- C8 (authoritative wait time).  When the work item was written in full, the
worker's reply was read and it decodes without error, the reply that
`processItem` returns has `Waittime` equal to the time measured by the
frontend since the item was added, whatever the decoder put there, and every
other field as the decoder left it; the message sent to the client is the
encoding of that same reply, after which both connections have been closed. -/
theorem authoritative_waittime (codec : Codec F) (out : WorkerOutcome) (now : F)
    (worker : Conn) (item : queueItem F)
    (hwrite : out.writeErr = none
      ∧ out.writeN = ((codec.marshalWorkItem (workItemOf item)).length : Int))
    (hread : 0 < out.read.n ∧ out.read.err = none)
    (hdec : (codec.unmarshalReply out.read.data (replyInit (now - item.added))).2 = none) :
    (processItem codec out now worker item).1.Waittime = now - item.added
      ∧ (processItem codec out now worker item).1.Pod
          = (codec.unmarshalReply out.read.data (replyInit (now - item.added))).1.Pod
      ∧ (processItem codec out now worker item).1.Node
          = (codec.unmarshalReply out.read.data (replyInit (now - item.added))).1.Node
      ∧ (processItem codec out now worker item).1.Device
          = (codec.unmarshalReply out.read.data (replyInit (now - item.added))).1.Device
      ∧ (processItem codec out now worker item).1.Error
          = (codec.unmarshalReply out.read.data (replyInit (now - item.added))).1.Error
      ∧ (processItem codec out now worker item).1.Timeout
          = (codec.unmarshalReply out.read.data (replyInit (now - item.added))).1.Timeout
      ∧ (processItem codec out now worker item).1.Runtime
          = (codec.unmarshalReply out.read.data (replyInit (now - item.added))).1.Runtime
      ∧ (processItem codec out now worker item).1.Retcode
          = (codec.unmarshalReply out.read.data (replyInit (now - item.added))).1.Retcode
      ∧ (processItem codec out now worker item).2
          = [Action.write worker (codec.marshalWorkItem (workItemOf item)),
             Action.read worker, Action.close worker,
             Action.write item.client
               (codec.marshalReply (processItem codec out now worker item).1),
             Action.close item.client] := by
  have hw : ¬ (out.writeErr ≠ none
      ∨ out.writeN ≠ ((codec.marshalWorkItem (workItemOf item)).length : Int)) := by
    rintro (h | h)
    · exact h hwrite.1
    · exact h hwrite.2
  have hr : ¬ (out.read.n ≤ 0 ∨ out.read.err ≠ none) := by
    rintro (h | h)
    · exact absurd hread.1 (not_lt.mpr h)
    · exact h hread.2
  rw [processItem_decoded codec out now worker item hw hr hdec]
  exact ⟨rfl, rfl, rfl, rfl, rfl, rfl, rfl, rfl, rfl⟩

variable [LinearOrder F] [Add F]

/-- C9 (dispatch error paths count as failure).  If the write to the worker
fails or is short, or the read of the worker's reply fails or returns no
bytes, or the worker's reply does not decode, then `processItem` sends the
client the encoding of an error reply with a non-empty `Error` and `Retcode`
1 and closes the client and the worker connection, and the reply it returns
has `Retcode` 1 whatever the decoder left there; hence `doItem` raises
`failure` by one, lowers `running` by one and leaves `success` alone. -/
theorem dispatch_errors_fail (codec : Codec F) (out : WorkerOutcome) (now : F)
    (worker : Conn) (item : queueItem F)
    (h : (out.writeErr ≠ none
          ∨ out.writeN ≠ ((codec.marshalWorkItem (workItemOf item)).length : Int))
      ∨ (out.read.n ≤ 0 ∨ out.read.err ≠ none)
      ∨ (codec.unmarshalReply out.read.data (replyInit (now - item.added))).2 ≠ none) :
    (∃ msg : String, msg ≠ ""
        ∧ Action.write item.client (codec.marshalReply
            { Pod := "", Node := "", Device := "", Error := msg,
              Timeout := 0, Runtime := 0, Waittime := 0, Retcode := 1 })
          ∈ (processItem codec out now worker item).2)
      ∧ Action.close item.client ∈ (processItem codec out now worker item).2
      ∧ Action.close worker ∈ (processItem codec out now worker item).2
      ∧ (processItem codec out now worker item).1.Retcode = 1
      ∧ ∀ queue : queueT F,
          (doItem codec out now worker item queue).1.failure = queue.failure + 1
          ∧ (doItem codec out now worker item queue).1.running = queue.running - 1
          ∧ (doItem codec out now worker item queue).1.success = queue.success := by
  have key : (∃ msg : String, msg ≠ ""
        ∧ Action.write item.client (codec.marshalReply
            { Pod := "", Node := "", Device := "", Error := msg,
              Timeout := 0, Runtime := 0, Waittime := 0, Retcode := 1 })
          ∈ (processItem codec out now worker item).2)
      ∧ Action.close item.client ∈ (processItem codec out now worker item).2
      ∧ Action.close worker ∈ (processItem codec out now worker item).2
      ∧ (processItem codec out now worker item).1.Retcode = 1 := by
    by_cases hw : out.writeErr ≠ none
        ∨ out.writeN ≠ ((codec.marshalWorkItem (workItemOf item)).length : Int)
    · rw [processItem_write_failed codec out now worker item hw]
      refine ⟨⟨"Worker write (" ++ toString out.writeN ++ "/"
          ++ toString (codec.marshalWorkItem (workItemOf item)).length
          ++ " bytes) failed: " ++ fmtV out.writeErr ++ "\n",
        append_ne_empty_right _ "\n" (by decide), ?_⟩, ?_, ?_, rfl⟩
      · exact List.mem_cons_of_mem _
          (List.mem_append_left _ (errorReplyClose_sends codec item.client _).1)
      · exact List.mem_cons_of_mem _
          (List.mem_append_left _ (errorReplyClose_sends codec item.client _).2)
      · simp
    · by_cases hr : out.read.n ≤ 0 ∨ out.read.err ≠ none
      · rw [processItem_read_failed codec out now worker item hw hr]
        refine ⟨⟨"No bytes (" ++ toString out.read.n ++ ") / error (" ++ fmtV out.read.err
            ++ ") from worker reply read",
          append_ne_empty_right _ ") from worker reply read" (by decide), ?_⟩, ?_, ?_, rfl⟩
        · exact List.mem_append_right _ (errorReplyClose_sends codec item.client _).1
        · exact List.mem_append_right _ (errorReplyClose_sends codec item.client _).2
        · simp
      · have hd : (codec.unmarshalReply out.read.data
            (replyInit (now - item.added))).2 ≠ none := by
          rcases h with h | h | h
          · exact absurd h hw
          · exact absurd h hr
          · exact h
        obtain ⟨e, he⟩ := Option.ne_none_iff_exists'.mp hd
        rw [processItem_decode_failed codec out now worker item hw hr e he]
        refine ⟨⟨"Unmarshaling worker reply JSON failed: " ++ e,
          append_ne_empty_left "Unmarshaling worker reply JSON failed: " e (by decide),
          ?_⟩, ?_, ?_, rfl⟩
        · exact List.mem_append_right _ (errorReplyClose_sends codec item.client _).1
        · exact List.mem_append_right _ (errorReplyClose_sends codec item.client _).2
        · simp
  obtain ⟨k1, k2, k3, k4⟩ := key
  refine ⟨k1, k2, k3, k4, ?_⟩
  intro queue
  have hne : (processItem codec out now worker item).1.Retcode ≠ 0 := by
    rw [k4]; decide
  refine ⟨?_, ?_, ?_⟩
  · show (doItemUpdate (processItem codec out now worker item).1 queue).failure = _
    rw [doItemUpdate_failure, if_neg hne]
  · show (doItemUpdate (processItem codec out now worker item).1 queue).running = _
    rw [doItemUpdate_running]
  · show (doItemUpdate (processItem codec out now worker item).1 queue).success = _
    rw [doItemUpdate_success, if_neg hne]

end ProcessItem

section ProcessItemExamples

/-- Witness for C8: the sample worker's reply claims a wait of 999; the item
was added at time 3 and dispatched at time 10, and the reply returned (and
sent to the client) carries a wait of 7. -/
theorem authoritative_waittime_witness :
    (sampleCodec.unmarshalReply sampleWorkerOk.read.data
        (replyInit ((10 : Int) - sampleItem.added))).1.Waittime = 999
      ∧ (processItem sampleCodec sampleWorkerOk 10 20 sampleItem).1.Waittime = 7
      ∧ (processItem sampleCodec sampleWorkerOk 10 20 sampleItem).1.Waittime
          = 10 - sampleItem.added :=
  ⟨by decide, by decide,
    (authoritative_waittime sampleCodec sampleWorkerOk 10 20 sampleItem
      ⟨rfl, by decide⟩ ⟨by decide, rfl⟩ rfl).1⟩

/-- Witness for C9: the sample worker's connection breaks on the write; the
returned reply has `Retcode` 1 and the fresh queue record ends with one
failure. -/
theorem dispatch_errors_fail_witness :
    (processItem sampleCodec sampleWorkerBroken 10 20 sampleItem).1.Retcode = 1
      ∧ (doItem sampleCodec sampleWorkerBroken 10 20 sampleItem emptyQueue).1.failure = 1
      ∧ (doItem sampleCodec sampleWorkerBroken 10 20 sampleItem emptyQueue).1.failure
          = (emptyQueue : queueT Int).failure + 1 :=
  ⟨by decide, by decide,
    ((dispatch_errors_fail sampleCodec sampleWorkerBroken 10 20 sampleItem
      (Or.inl (Or.inl (by decide)))).2.2.2.2 emptyQueue).1⟩

end ProcessItemExamples

section Validation

variable {F : Type}

theorem getQueue_isSome_iff (maps : List (String × queueT F)) (name : String) :
    (∃ queue, getQueue maps name = some queue) ↔ name ∈ maps.map Prod.fst := by
  induction maps with
  | nil => simp [getQueue]
  | cons p rest ih =>
    obtain ⟨k, q⟩ := p
    by_cases hk : k = name
    · simp [getQueue, hk]
    · have hk2 : ¬ name = k := fun h => hk h.symm
      simp [getQueue, hk, hk2, ih]

theorem clientCheck_decoded (codec : Codec F) (maps : List (String × queueT F))
    (rd : ReadResult) (req : clientReq F)
    (h : 0 < rd.n ∧ rd.err = none ∧ codec.unmarshalClientReq rd.data = .ok req) :
    clientCheck codec maps rd
      = if req.Queue = "" then .error "invalid queue name ''"
        else match getQueue maps req.Queue with
          | none => .error ("Unknown '" ++ req.Queue ++ "' queue")
          | some queue => .ok (req, queue) := by
  obtain ⟨h1, h2, h3⟩ := h
  have hr : ¬ (rd.n ≤ 0 ∨ rd.err ≠ none) := by
    rintro (h | h)
    · exact absurd h1 (not_lt.mpr h)
    · exact h h2
  unfold clientCheck
  rw [if_neg hr, h3]

theorem workerCheck_decoded (codec : Codec F) (maps : List (String × queueT F))
    (rd : ReadResult) (req : workReq)
    (h : 0 < rd.n ∧ rd.err = none ∧ codec.unmarshalWorkReq rd.data = .ok req) :
    workerCheck codec maps rd
      = if req.Queue = "" then .error "invalid queue name ''"
        else match getQueue maps req.Queue with
          | none => .error ("Unknown '" ++ req.Queue ++ "' queue")
          | some queue => .ok (req.Queue, queue) := by
  obtain ⟨h1, h2, h3⟩ := h
  have hr : ¬ (rd.n ≤ 0 ∨ rd.err ≠ none) := by
    rintro (h | h)
    · exact absurd h1 (not_lt.mpr h)
    · exact h h2
  unfold workerCheck
  rw [if_neg hr, h3]

/-- The two ways the name check of a listener can go for a decoded name:
the name is non-empty and a key, and the queue is found; or it is not, and
there is a non-empty error message. -/
theorem name_check_cases (maps : List (String × queueT F)) (name : String) :
    (name ≠ "" ∧ name ∈ maps.map Prod.fst ∧ ∃ queue, getQueue maps name = some queue)
      ∨ (¬ (name ≠ "" ∧ name ∈ maps.map Prod.fst)
          ∧ (name = "" ∨ getQueue maps name = none)) := by
  by_cases hn : name = ""
  · exact Or.inr ⟨fun h => h.1 hn, Or.inl hn⟩
  · cases hq : getQueue maps name with
    | none =>
      refine Or.inr ⟨fun h => ?_, Or.inr rfl⟩
      obtain ⟨queue, hqueue⟩ := (getQueue_isSome_iff maps name).mpr h.2
      rw [hq] at hqueue
      exact absurd hqueue (by simp)
    | some queue =>
      exact Or.inl ⟨hn, (getQueue_isSome_iff maps name).mp ⟨queue, hq⟩, queue, rfl⟩

variable [Zero F]

theorem listenForClientsConn_ok (codec : Codec F) (qmax : Int) (queues : queuesT F)
    (conn : Conn) (rd : ReadResult) (now : F) (req : clientReq F) (queue : queueT F)
    (h : clientCheck codec queues.maps rd = .ok (req, queue)) :
    listenForClientsConn codec qmax queues conn rd now
      = ({ queues with
            clients := queues.clients + 1,
            maps := setQueue queues.maps req.Queue
              (enqueue codec qmax req.Queue conn req now queue).1 },
         Action.read conn :: (enqueue codec qmax req.Queue conn req now queue).2) := by
  simp only [listenForClientsConn, h]

theorem listenForClientsConn_error (codec : Codec F) (qmax : Int) (queues : queuesT F)
    (conn : Conn) (rd : ReadResult) (now : F) (msg : String)
    (h : clientCheck codec queues.maps rd = .error msg) :
    listenForClientsConn codec qmax queues conn rd now
      = ({ queues with clients := queues.clients + 1 },
         [Action.read conn,
          Action.write conn (codec.marshalReply
            { Pod := "", Node := "", Device := "", Error := msg,
              Timeout := 0, Runtime := 0, Waittime := 0, Retcode := 1 }),
          Action.close conn]) := by
  simp only [listenForClientsConn, h, errorReplyClose, sendJSONClose, errorReply]

theorem listenForWorkersConn_ok (codec : Codec F) (expired : Conn → Bool)
    (queues : queuesT F) (conn : Conn) (rd : ReadResult) (name : String) (queue : queueT F)
    (h : workerCheck codec queues.maps rd = .ok (name, queue)) :
    listenForWorkersConn codec expired queues conn rd
      = ({ queues with
            workers := queues.workers + 1,
            maps := setQueue queues.maps name (pull codec expired name conn queue).queue },
         Action.read conn :: (pull codec expired name conn queue).actions,
         (pull codec expired name conn queue).started.map (fun item => (name, item))) := by
  simp only [listenForWorkersConn, h]

theorem listenForWorkersConn_error (codec : Codec F) (expired : Conn → Bool)
    (queues : queuesT F) (conn : Conn) (rd : ReadResult) (msg : String)
    (h : workerCheck codec queues.maps rd = .error msg) :
    listenForWorkersConn codec expired queues conn rd
      = ({ queues with workers := queues.workers + 1 },
         [Action.read conn,
          Action.write conn (codec.marshalWorkItem
            { Error := msg, Args := [], Limit := 0, Empty := false }),
          Action.close conn],
         none) := by
  simp only [listenForWorkersConn, h, errorItemClose, sendJSONClose, errorItem]

/-- C10 (queue-name validation).  On both listeners a request that was read
and decoded passes the check in front of the queue processing exactly when
its queue name is non-empty and a key of the queue map.  When it passes, the
iteration is the queue processing (`enqueue` for a client, `pull` for a
worker) on the queue of that name.  When it does not, the queue map is left
as it was, no goroutine is started, and the peer is sent an error and
disconnected: a client gets a reply with a non-empty `Error` and `Retcode` 1,
a worker gets a work item with a non-empty `Error` and `Empty` false. -/
theorem queue_name_validation (codec : Codec F) (qmax : Int) (expired : Conn → Bool)
    (queues : queuesT F) (conn : Conn) (now : F)
    (rdc : ReadResult) (creq : clientReq F) (rdw : ReadResult) (wreq : workReq)
    (hc : 0 < rdc.n ∧ rdc.err = none ∧ codec.unmarshalClientReq rdc.data = .ok creq)
    (hw : 0 < rdw.n ∧ rdw.err = none ∧ codec.unmarshalWorkReq rdw.data = .ok wreq) :
    (((∃ queue, clientCheck codec queues.maps rdc = .ok (creq, queue))
          ↔ (creq.Queue ≠ "" ∧ creq.Queue ∈ queues.maps.map Prod.fst))
      ∧ ((creq.Queue ≠ "" ∧ creq.Queue ∈ queues.maps.map Prod.fst) →
          ∃ queue, getQueue queues.maps creq.Queue = some queue
            ∧ listenForClientsConn codec qmax queues conn rdc now
              = ({ queues with
                    clients := queues.clients + 1,
                    maps := setQueue queues.maps creq.Queue
                      (enqueue codec qmax creq.Queue conn creq now queue).1 },
                 Action.read conn :: (enqueue codec qmax creq.Queue conn creq now queue).2))
      ∧ (¬ (creq.Queue ≠ "" ∧ creq.Queue ∈ queues.maps.map Prod.fst) →
          (listenForClientsConn codec qmax queues conn rdc now).1.maps = queues.maps
          ∧ ∃ msg : String, msg ≠ ""
            ∧ listenForClientsConn codec qmax queues conn rdc now
              = ({ queues with clients := queues.clients + 1 },
                 [Action.read conn,
                  Action.write conn (codec.marshalReply
                    { Pod := "", Node := "", Device := "", Error := msg,
                      Timeout := 0, Runtime := 0, Waittime := 0, Retcode := 1 }),
                  Action.close conn])))
    ∧ (((∃ queue, workerCheck codec queues.maps rdw = .ok (wreq.Queue, queue))
          ↔ (wreq.Queue ≠ "" ∧ wreq.Queue ∈ queues.maps.map Prod.fst))
      ∧ ((wreq.Queue ≠ "" ∧ wreq.Queue ∈ queues.maps.map Prod.fst) →
          ∃ queue, getQueue queues.maps wreq.Queue = some queue
            ∧ listenForWorkersConn codec expired queues conn rdw
              = ({ queues with
                    workers := queues.workers + 1,
                    maps := setQueue queues.maps wreq.Queue
                      (pull codec expired wreq.Queue conn queue).queue },
                 Action.read conn :: (pull codec expired wreq.Queue conn queue).actions,
                 (pull codec expired wreq.Queue conn queue).started.map
                   (fun item => (wreq.Queue, item))))
      ∧ (¬ (wreq.Queue ≠ "" ∧ wreq.Queue ∈ queues.maps.map Prod.fst) →
          (listenForWorkersConn codec expired queues conn rdw).1.maps = queues.maps
          ∧ ∃ msg : String, msg ≠ ""
            ∧ listenForWorkersConn codec expired queues conn rdw
              = ({ queues with workers := queues.workers + 1 },
                 [Action.read conn,
                  Action.write conn (codec.marshalWorkItem
                    { Error := msg, Args := [], Limit := 0, Empty := false }),
                  Action.close conn],
                 none))) := by
  have hcc := clientCheck_decoded codec queues.maps rdc creq hc
  have hwc := workerCheck_decoded codec queues.maps rdw wreq hw
  constructor
  · rcases name_check_cases queues.maps creq.Queue with
      ⟨hne, hkey, queue, hq⟩ | ⟨hbad, hwhy⟩
    · have hok : clientCheck codec queues.maps rdc = .ok (creq, queue) := by
        rw [hcc, if_neg hne, hq]
      refine ⟨⟨fun _ => ⟨hne, hkey⟩, fun _ => ⟨queue, hok⟩⟩, fun _ => ⟨queue, hq, ?_⟩,
        fun h => absurd ⟨hne, hkey⟩ h⟩
      exact listenForClientsConn_ok codec qmax queues conn rdc now creq queue hok
    · have herr : ∃ msg : String, msg ≠ ""
          ∧ clientCheck codec queues.maps rdc = .error msg := by
        rcases hwhy with hn | hq
        · exact ⟨"invalid queue name ''", by decide, by rw [hcc, if_pos hn]⟩
        · by_cases hn : creq.Queue = ""
          · exact ⟨"invalid queue name ''", by decide, by rw [hcc, if_pos hn]⟩
          · exact ⟨"Unknown '" ++ creq.Queue ++ "' queue",
              append_ne_empty_right _ "' queue" (by decide), by rw [hcc, if_neg hn, hq]⟩
      obtain ⟨msg, hmsg, hcheck⟩ := herr
      have hres := listenForClientsConn_error codec qmax queues conn rdc now msg hcheck
      refine ⟨⟨?_, fun h => absurd h hbad⟩, fun h => absurd h hbad,
        fun _ => ⟨by rw [hres], msg, hmsg, hres⟩⟩
      rintro ⟨queue, hok⟩
      rw [hcheck] at hok
      exact absurd hok (by simp)
  · rcases name_check_cases queues.maps wreq.Queue with
      ⟨hne, hkey, queue, hq⟩ | ⟨hbad, hwhy⟩
    · have hok : workerCheck codec queues.maps rdw = .ok (wreq.Queue, queue) := by
        rw [hwc, if_neg hne, hq]
      refine ⟨⟨fun _ => ⟨hne, hkey⟩, fun _ => ⟨queue, hok⟩⟩, fun _ => ⟨queue, hq, ?_⟩,
        fun h => absurd ⟨hne, hkey⟩ h⟩
      exact listenForWorkersConn_ok codec expired queues conn rdw wreq.Queue queue hok
    · have herr : ∃ msg : String, msg ≠ ""
          ∧ workerCheck codec queues.maps rdw = .error msg := by
        rcases hwhy with hn | hq
        · exact ⟨"invalid queue name ''", by decide, by rw [hwc, if_pos hn]⟩
        · by_cases hn : wreq.Queue = ""
          · exact ⟨"invalid queue name ''", by decide, by rw [hwc, if_pos hn]⟩
          · exact ⟨"Unknown '" ++ wreq.Queue ++ "' queue",
              append_ne_empty_right _ "' queue" (by decide), by rw [hwc, if_neg hn, hq]⟩
      obtain ⟨msg, hmsg, hcheck⟩ := herr
      have hres := listenForWorkersConn_error codec expired queues conn rdw msg hcheck
      refine ⟨⟨?_, fun h => absurd h hbad⟩, fun h => absurd h hbad,
        fun _ => ⟨by rw [hres], msg, hmsg, hres⟩⟩
      rintro ⟨queue, hok⟩
      rw [hcheck] at hok
      exact absurd hok (by simp)

end Validation

section ValidationExamples

/-- Witness for C10: a decoded client request and a decoded worker request
for the queue `sleep` of the sample queue set both pass the check. -/
theorem queue_name_validation_witness :
    ((0 : Int) < sampleRead.n ∧ sampleRead.err = none
        ∧ sampleCodec.unmarshalClientReq sampleRead.data = .ok sampleReq)
      ∧ ((0 : Int) < sampleRead.n ∧ sampleRead.err = none
        ∧ sampleCodec.unmarshalWorkReq sampleRead.data = .ok { Queue := "sleep" })
      ∧ (∃ queue, clientCheck sampleCodec sampleQueues.maps sampleRead
          = .ok (sampleReq, queue))
      ∧ (∃ queue, workerCheck sampleCodec sampleQueues.maps sampleRead
          = .ok ("sleep", queue)) :=
  ⟨⟨by decide, rfl, rfl⟩, ⟨by decide, rfl, rfl⟩,
    (queue_name_validation sampleCodec 2 (fun _ => true) sampleQueues 1 10
      sampleRead sampleReq sampleRead { Queue := "sleep" }
      ⟨by decide, rfl, rfl⟩ ⟨by decide, rfl, rfl⟩).1.1.mpr ⟨by decide, by decide⟩,
    (queue_name_validation sampleCodec 2 (fun _ => true) sampleQueues 1 10
      sampleRead sampleReq sampleRead { Queue := "sleep" }
      ⟨by decide, rfl, rfl⟩ ⟨by decide, rfl, rfl⟩).2.1.mpr ⟨by decide, by decide⟩⟩

end ValidationExamples

section Exporter

variable {F : Type} [Zero F]

theorem exporter_rejected (fmtG : F → String) (queues : queuesT F) (r : httpRequest)
    (h : requestCheck r ≠ 200) :
    exporter fmtG queues r = (queues, { status := some (requestCheck r), body := [] }) := by
  unfold exporter
  rw [if_pos h]

theorem exporter_accepted (fmtG : F → String) (queues : queuesT F) (r : httpRequest)
    (h : requestCheck r = 200) :
    exporter fmtG queues r
      = ({ queues with
            metrics := queues.metrics + 1,
            maps := queues.maps.map
              (fun p => (p.1, (exportQueue fmtG queues.interval p.1 p.2).1)) },
         { status := none,
           body := ["# Device Scalability Tester for Kubernetes - frontend v0.1\n",
                    "hpa_client_connections_total " ++ toString queues.clients ++ "\n",
                    "hpa_worker_connections_total " ++ toString queues.workers ++ "\n"]
             ++ (queues.maps.map
                  (fun p => (exportQueue fmtG queues.interval p.1 p.2).2)).flatten }) := by
  unfold exporter
  rw [if_neg (by rw [h]; exact fun h => h rfl)]

/-- C11 (metrics endpoint status codes).  `requestCheck` answers 405 when the
method is not GET; otherwise 404 when the path is not `/metrics`; otherwise
400 when the body is not `http.NoBody`; otherwise 200.  When the answer is
not 200 the exporter writes that status and nothing else, and the queue set
(every queue record, the connection counters and the metrics-query counter)
is what it was. -/
theorem metrics_status_codes (fmtG : F → String) (queues : queuesT F) (r : httpRequest) :
    (r.Method ≠ "GET" → requestCheck r = 405)
      ∧ (r.Method = "GET" → r.Path ≠ "/metrics" → requestCheck r = 404)
      ∧ (r.Method = "GET" → r.Path = "/metrics" → r.noBody = false → requestCheck r = 400)
      ∧ (r.Method = "GET" → r.Path = "/metrics" → r.noBody = true → requestCheck r = 200)
      ∧ (requestCheck r ≠ 200 →
          (exporter fmtG queues r).1 = queues
          ∧ (exporter fmtG queues r).2 = { status := some (requestCheck r), body := [] }) := by
  refine ⟨?_, ?_, ?_, ?_, ?_⟩
  · intro h
    simp [requestCheck, h]
  · intro h1 h2
    simp [requestCheck, h1, h2]
  · intro h1 h2 h3
    simp [requestCheck, h1, h2, h3]
  · intro h1 h2 h3
    simp [requestCheck, h1, h2, h3]
  · intro h
    rw [exporter_rejected fmtG queues r h]
    exact ⟨rfl, rfl⟩

/-- C12 (exporter reset policy).  For an accepted scrape: the metrics-query
counter grows by one and the connection counters stay; every queue record is
replaced by what `exportQueue` leaves and every line `exportQueue` writes is
in the response.  For every queue, `exportQueue` writes `hpa_queue_all` with
`len(items) + running`, keeps `items`, `running`, `success`, `failure` and
`disconnect`, and writes the three watermarks with the values held before:
when `interval <= 0` under the label `name` alone, and the watermarks are
then zero; when `interval > 0` under the labels `name` and `interval="<N>s"`,
and the watermarks are then unchanged. -/
theorem exporter_reset_policy (fmtG : F → String) (queues : queuesT F) (r : httpRequest)
    (h : requestCheck r = 200) :
    (exporter fmtG queues r).1.metrics = queues.metrics + 1
      ∧ (exporter fmtG queues r).1.clients = queues.clients
      ∧ (exporter fmtG queues r).1.workers = queues.workers
      ∧ (exporter fmtG queues r).1.interval = queues.interval
      ∧ (exporter fmtG queues r).1.maps
          = queues.maps.map (fun p => (p.1, (exportQueue fmtG queues.interval p.1 p.2).1))
      ∧ (exporter fmtG queues r).2.status = none
      ∧ (∀ p ∈ queues.maps, ∀ line ∈ (exportQueue fmtG queues.interval p.1 p.2).2,
          line ∈ (exporter fmtG queues r).2.body)
      ∧ ∀ (name : String) (q : queueT F),
          (exportQueue fmtG queues.interval name q).1.items = q.items
          ∧ (exportQueue fmtG queues.interval name q).1.running = q.running
          ∧ (exportQueue fmtG queues.interval name q).1.success = q.success
          ∧ (exportQueue fmtG queues.interval name q).1.failure = q.failure
          ∧ (exportQueue fmtG queues.interval name q).1.disconnect = q.disconnect
          ∧ ("hpa_queue_all\x7bname=\"" ++ name ++ "\"\x7d "
                ++ toString ((q.items.length : Int) + q.running) ++ "\n")
              ∈ (exportQueue fmtG queues.interval name q).2
          ∧ (queues.interval ≤ 0 →
              (exportQueue fmtG queues.interval name q).1.maxrun = 0
              ∧ (exportQueue fmtG queues.interval name q).1.maxwait = 0
              ∧ (exportQueue fmtG queues.interval name q).1.maxtotal = 0
              ∧ ("hpa_queue_maxrun_seconds\x7bname=\"" ++ name ++ "\"\x7d "
                    ++ fmtG q.maxrun ++ "\n")
                  ∈ (exportQueue fmtG queues.interval name q).2
              ∧ ("hpa_queue_maxwait_seconds\x7bname=\"" ++ name ++ "\"\x7d "
                    ++ fmtG q.maxwait ++ "\n")
                  ∈ (exportQueue fmtG queues.interval name q).2
              ∧ ("hpa_queue_maxtotal_seconds\x7bname=\"" ++ name ++ "\"\x7d "
                    ++ fmtG q.maxtotal ++ "\n")
                  ∈ (exportQueue fmtG queues.interval name q).2)
          ∧ (queues.interval > 0 →
              (exportQueue fmtG queues.interval name q).1.maxrun = q.maxrun
              ∧ (exportQueue fmtG queues.interval name q).1.maxwait = q.maxwait
              ∧ (exportQueue fmtG queues.interval name q).1.maxtotal = q.maxtotal
              ∧ ("hpa_queue_maxrun_seconds\x7b"
                    ++ ("name=\"" ++ name ++ "\",interval=\""
                          ++ toString queues.interval ++ "s\"")
                    ++ "\x7d " ++ fmtG q.maxrun ++ "\n")
                  ∈ (exportQueue fmtG queues.interval name q).2
              ∧ ("hpa_queue_maxwait_seconds\x7b"
                    ++ ("name=\"" ++ name ++ "\",interval=\""
                          ++ toString queues.interval ++ "s\"")
                    ++ "\x7d " ++ fmtG q.maxwait ++ "\n")
                  ∈ (exportQueue fmtG queues.interval name q).2
              ∧ ("hpa_queue_maxtotal_seconds\x7b"
                    ++ ("name=\"" ++ name ++ "\",interval=\""
                          ++ toString queues.interval ++ "s\"")
                    ++ "\x7d " ++ fmtG q.maxtotal ++ "\n")
                  ∈ (exportQueue fmtG queues.interval name q).2) := by
  rw [exporter_accepted fmtG queues r h]
  refine ⟨rfl, rfl, rfl, rfl, rfl, rfl, ?_, ?_⟩
  · intro p hp line hline
    apply List.mem_append_right
    rw [List.mem_flatten]
    exact ⟨_, List.mem_map.mpr ⟨p, hp, rfl⟩, hline⟩
  · intro name q
    by_cases hi : queues.interval > 0
    · have hn : ¬ queues.interval ≤ 0 := not_le.mpr hi
      simp [exportQueue, hi, hn]
    · have hn : queues.interval ≤ 0 := not_lt.mp hi
      simp [exportQueue, hi, hn]

end Exporter

section ExporterExamples

/-- Witness for C12: a scrape of the sample queue set, which has no logging
interval, is accepted and counted. -/
theorem exporter_reset_policy_witness :
    requestCheck sampleScrape = 200
      ∧ (exporter sampleFmt sampleQueues sampleScrape).1.metrics = sampleQueues.metrics + 1
      ∧ (exporter sampleFmt sampleQueues sampleScrape).1.metrics = 1 :=
  ⟨by decide,
    (exporter_reset_policy sampleFmt sampleQueues sampleScrape (by decide)).1,
    by decide⟩

end ExporterExamples

section FirstAction

variable {F : Type} [Zero F] [Sub F]

theorem processItem_first_action (codec : Codec F) (out : WorkerOutcome) (now : F)
    (worker : Conn) (item : queueItem F) :
    (processItem codec out now worker item).2.head?
      = some (Action.write worker (codec.marshalWorkItem (workItemOf item))) := by
  by_cases hw : out.writeErr ≠ none
      ∨ out.writeN ≠ ((codec.marshalWorkItem (workItemOf item)).length : Int)
  · rw [processItem_write_failed codec out now worker item hw]
    rfl
  · by_cases hr : out.read.n ≤ 0 ∨ out.read.err ≠ none
    · rw [processItem_read_failed codec out now worker item hw hr]
      rfl
    · cases hd : (codec.unmarshalReply out.read.data (replyInit (now - item.added))).2 with
      | none =>
        rw [processItem_decoded codec out now worker item hw hr hd]
        rfl
      | some e =>
        rw [processItem_decode_failed codec out now worker item hw hr e hd]
        rfl

end FirstAction

section PassThrough

variable {F : Type} [LinearOrder F] [Zero F] [Add F] [Sub F]

theorem fifo_invariant (codec : Codec F) (qmax : Int) (name : String)
    (evs : List (Event F)) : Fifo (Sys.run codec qmax name Sys.init evs) :=
  Sys.run_induction codec qmax name Fifo
    (fun s ev hs => fifo_step codec qmax name s ev hs) Sys.init
    ⟨[], by simp [Sys.init, emptyQueue], by simp [Sys.init], by simp [Sys.init],
      by simp [Sys.init]⟩ evs

theorem dispatched_mem_admitted (codec : Codec F) (qmax : Int) (name : String)
    (evs : List (Event F)) :
    ∀ d ∈ (Sys.run codec qmax name Sys.init evs).dispatched,
      d.item ∈ (Sys.run codec qmax name Sys.init evs).admitted := by
  obtain ⟨pre, hpre, hd, -, -⟩ := fifo_invariant codec qmax name evs
  intro d hdm
  obtain ⟨-, -, h3⟩ := hd d hdm
  rw [hpre]
  exact List.mem_append_left _ (List.getElem?_mem h3)

/-- Every item in the admission log was built by `enqueue` from a request of
the run: its connection, the clock at admission, and the request's `Args`
and `Limit`. -/
theorem admitted_from_requests (codec : Codec F) (qmax : Int) (name : String)
    (evs : List (Event F)) :
    ∀ it ∈ (Sys.run codec qmax name Sys.init evs).admitted,
      ∃ (conn : Conn) (req : clientReq F) (now : F),
        Event.request conn req now ∈ evs
        ∧ it = { client := conn, added := now, Args := req.Args, Limit := req.Limit } := by
  induction evs using List.reverseRecOn with
  | nil =>
    intro it hit
    simp [Sys.run, Sys.init] at hit
  | append_singleton evs ev ih =>
    rw [Sys.run_append]
    have lift : ∀ it : queueItem F, (∃ (conn : Conn) (req : clientReq F) (now : F),
          Event.request conn req now ∈ evs
          ∧ it = { client := conn, added := now, Args := req.Args, Limit := req.Limit }) →
        ∃ (conn : Conn) (req : clientReq F) (now : F),
          Event.request conn req now ∈ evs ++ [ev]
          ∧ it = { client := conn, added := now, Args := req.Args, Limit := req.Limit } := by
      rintro it ⟨conn, req, now, hmem, hit⟩
      exact ⟨conn, req, now, List.mem_append_left _ hmem, hit⟩
    cases ev with
    | request conn req now =>
      by_cases hfull : qmax > 0
          ∧ ((Sys.run codec qmax name Sys.init evs).queue.items.length : Int) ≥ qmax
      · rw [Sys.step_request_full codec qmax name _ conn req now hfull]
        exact fun it hit => lift it (ih it hit)
      · rw [Sys.step_request_room codec qmax name _ conn req now hfull]
        intro it hit
        rcases List.mem_append.mp hit with hold | hnew
        · exact lift it (ih it hold)
        · rw [List.mem_singleton] at hnew
          exact ⟨conn, req, now, by simp, hnew⟩
    | pull worker expired =>
      by_cases h : (countObsolete expired (Sys.run codec qmax name Sys.init evs).queue).1
          = (Sys.run codec qmax name Sys.init evs).queue.items.length
      · rw [Sys.step_pull_empty codec qmax name _ worker expired h]
        exact fun it hit => lift it (ih it hit)
      · have hlt : (countObsolete expired (Sys.run codec qmax name Sys.init evs).queue).1
            < (Sys.run codec qmax name Sys.init evs).queue.items.length := by
          have := countObsolete_le expired (Sys.run codec qmax name Sys.init evs).queue
          omega
        rw [Sys.step_pull_dispatch codec qmax name _ worker expired hlt]
        exact fun it hit => lift it (ih it hit)
    | complete i out now =>
      cases h : (Sys.run codec qmax name Sys.init evs).inflight.get? i with
      | none =>
        rw [Sys.step_complete_none codec qmax name _ i out now h]
        exact fun it hit => lift it (ih it hit)
      | some p =>
        obtain ⟨worker, item⟩ := p
        rw [Sys.step_complete_some codec qmax name _ i out now worker item h]
        exact fun it hit => lift it (ih it hit)

/-- C19 (request pass-through).  `enqueue`, when it accepts a request with
args `A` and limit `L`, appends an item carrying `A` and `L`; and in every
run from the empty queue, every item handed to a worker was built from a
request of the run, and the first thing `processItem` does with it is to
write to the worker the encoding of the work item with `Args` equal to that
request's args, `Limit` equal to its limit, an empty `Error` and `Empty`
false. -/
theorem request_pass_through (codec : Codec F) (qmax : Int) (name : String) :
    (∀ (conn : Conn) (req : clientReq F) (now : F) (queue : queueT F),
        ¬ (qmax > 0 ∧ (queue.items.length : Int) ≥ qmax) →
        (enqueue codec qmax name conn req now queue).1.items
          = queue.items
            ++ [{ client := conn, added := now, Args := req.Args, Limit := req.Limit }])
      ∧ ∀ (evs : List (Event F)),
          ∀ d ∈ (Sys.run codec qmax name Sys.init evs).dispatched,
            ∃ (conn : Conn) (req : clientReq F) (now : F),
              Event.request conn req now ∈ evs
              ∧ d.item = { client := conn, added := now, Args := req.Args,
                           Limit := req.Limit }
              ∧ ∀ (out : WorkerOutcome) (later : F) (worker : Conn),
                  (processItem codec out later worker d.item).2.head?
                    = some (Action.write worker (codec.marshalWorkItem
                        { Error := "", Args := req.Args, Limit := req.Limit,
                          Empty := false })) := by
  refine ⟨?_, ?_⟩
  · intro conn req now queue hroom
    rw [enqueue_room codec qmax name conn req now queue hroom]
  · intro evs d hd
    obtain ⟨conn, req, now, hmem, hit⟩ := admitted_from_requests codec qmax name evs d.item
      (dispatched_mem_admitted codec qmax name evs d hd)
    refine ⟨conn, req, now, hmem, hit, ?_⟩
    intro out later worker
    rw [processItem_first_action, hit]
    rfl

end PassThrough

end Frontend

namespace Client

section Times

/-- C20 (time aggregates), the code at samples 3 and 5 applied to a zeroed
`timeStatT`: `max` is 5 and `total` is 8, but `min` is still 0, not the
smallest sample 3, because `updateTime` lowers `min` only for a sample below
the zero it starts with. -/
theorem time_aggregates_min_stuck :
    (updateTimes (timeStatT.zero : timeStatT Int) [3, 5]).max = 5
      ∧ (updateTimes (timeStatT.zero : timeStatT Int) [3, 5]).total = 8
      ∧ (updateTimes (timeStatT.zero : timeStatT Int) [3, 5]).min = 0
      ∧ (updateTimes (timeStatT.zero : timeStatT Int) [3, 5]).min ≠ 3 := by
  decide

end Times

section Pending

variable {F : Type}

theorem statsStart_counts (t : F) (stats : statsT F) :
    (statsStart t stats).pending = incr64 stats.pending
      ∧ (statsStart t stats).reply = stats.reply := by
  unfold statsStart
  simp only []
  split_ifs <;> exact ⟨rfl, rfl⟩

theorem statsFailure_counts (reply : replyT F) (stats : statsT F) :
    (statsFailure reply stats).pending = decr64 stats.pending
      ∧ (statsFailure reply stats).reply.success = stats.reply.success
      ∧ (statsFailure reply stats).reply.failure = stats.reply.failure + 1 := by
  unfold statsFailure
  simp only []
  split_ifs <;> exact ⟨rfl, rfl, rfl⟩

theorem decr64_pos (x : Nat) (h : x ≠ 0) : decr64 x = x - 1 := by
  unfold decr64
  rw [if_neg h]

variable [LinearOrder F] [Add F]

theorem statsSuccess_counts (reply : replyT F) (commtime : F) (stats : statsT F) :
    (statsSuccess reply commtime stats).pending = decr64 stats.pending
      ∧ (statsSuccess reply commtime stats).reply.success = stats.reply.success + 1
      ∧ (statsSuccess reply commtime stats).reply.failure = stats.reply.failure :=
  ⟨rfl, rfl, rfl⟩

theorem incr64_congruent (p : Nat) (x : Int) (h : (p : Int) = x % 2 ^ 64) :
    incr64 p < 2 ^ 64 ∧ (incr64 p : Int) = (x + 1) % 2 ^ 64 := by
  unfold incr64
  constructor
  · exact Nat.mod_lt _ (by norm_num)
  · push_cast
    omega

theorem decr64_congruent (p : Nat) (x : Int) (hp : p < 2 ^ 64) (h : (p : Int) = x % 2 ^ 64) :
    decr64 p < 2 ^ 64 ∧ (decr64 p : Int) = (x - 1) % 2 ^ 64 := by
  unfold decr64
  split_ifs with h0
  · subst h0
    constructor
    · norm_num
    · push_cast at h ⊢
      omega
  · constructor
    · omega
    · push_cast [Nat.cast_sub (Nat.one_le_iff_ne_zero.mpr h0)]
      omega

variable [Zero F]

theorem tally_step_congruent (s : Tally F) (c : Call F) (h : Tally.Congruent s) :
    Tally.Congruent (Tally.step s c) := by
  obtain ⟨h1, h2⟩ := h
  have hsucc : ∀ (reply : replyT F) (commtime : F) (t : Tally F),
      t.stats = statsSuccess reply commtime s.stats → t.started = s.started →
        Tally.Congruent t := by
    intro reply commtime t ht hs
    obtain ⟨p1, p2, p3⟩ := statsSuccess_counts reply commtime s.stats
    obtain ⟨d1, d2⟩ := decr64_congruent _ _ h1 h2
    unfold Tally.Congruent
    rw [ht, hs, p1, p2, p3]
    refine ⟨d1, ?_⟩
    rw [d2]
    push_cast
    congr 1
    omega
  have hfail : ∀ (reply : replyT F) (t : Tally F),
      t.stats = statsFailure reply s.stats → t.started = s.started →
        Tally.Congruent t := by
    intro reply t ht hs
    obtain ⟨p1, p2, p3⟩ := statsFailure_counts reply s.stats
    obtain ⟨d1, d2⟩ := decr64_congruent _ _ h1 h2
    unfold Tally.Congruent
    rw [ht, hs, p1, p2, p3]
    refine ⟨d1, ?_⟩
    rw [d2]
    push_cast
    congr 1
    omega
  cases c with
  | start t =>
    obtain ⟨p1, p2⟩ := statsStart_counts t s.stats
    obtain ⟨d1, d2⟩ := incr64_congruent _ _ h2
    refine ⟨?_, ?_⟩
    · show (statsStart t s.stats).pending < 2 ^ 64
      rw [p1]
      exact d1
    · show ((statsStart t s.stats).pending : Int)
        = (((s.started + 1 : Nat) : Int) - (statsStart t s.stats).reply.success
          - (statsStart t s.stats).reply.failure) % 2 ^ 64
      rw [p1, p2, d2]
      push_cast
      congr 1
      omega
  | success old reply commtime =>
    simp only [Tally.step]
    split_ifs
    · exact ⟨h1, h2⟩
    · exact hsucc reply commtime _ rfl rfl
    · exact ⟨h1, h2⟩
    · exact hsucc reply commtime _ rfl rfl
  | failure old reply =>
    simp only [Tally.step]
    split_ifs
    · exact ⟨h1, h2⟩
    · exact hfail reply _ rfl rfl
    · exact ⟨h1, h2⟩
    · exact hfail reply _ rfl rfl
  | reset now =>
    refine ⟨?_, ?_⟩
    · show (0 : Nat) < 2 ^ 64
      norm_num
    · show ((0 : Nat) : Int) = (((0 : Nat) : Int) - ((0 : Nat) : Int) - ((0 : Nat) : Int)) % 2 ^ 64
      norm_num

theorem tally_run_congruent (calls : List (Call F)) (s : Tally F) (h : Tally.Congruent s) :
    Tally.Congruent (Tally.run s calls) := by
  induction calls generalizing s with
  | nil => exact h
  | cons c rest ih => exact ih (Tally.step s c) (tally_step_congruent s c h)

omit [LinearOrder F] [Add F] in
theorem tally_init_congruent (now : F) : Tally.Congruent (Tally.init now) := by
  refine ⟨?_, ?_⟩
  · show (0 : Nat) < 2 ^ 64
    norm_num
  · show ((0 : Nat) : Int) = (((0 : Nat) : Int) - ((0 : Nat) : Int) - ((0 : Nat) : Int)) % 2 ^ 64
    norm_num

end Pending

section PendingExamples

/-- C15 (client pending counter), the code at a request in flight across a
reset.  A request is started, the statistics are reset and the request is
then recorded as a success: no request is in flight and none has been
started since the reset, one success is counted, and `pending`, decremented
at zero, is `2^64 - 1`, which is not `admitted - success - failure`.  After
any calls `pending` is `admitted - success - failure` modulo `2^64`, the
counts being those since the last reset: the two differ exactly when more
successes and failures than starts have been counted since then. -/
theorem pending_underflow :
    (Tally.run (Tally.init (0 : Int))
        [.start 1, .reset 2, .success true sampleReply 0]).stats.pending = 2 ^ 64 - 1
      ∧ (Tally.run (Tally.init (0 : Int))
        [.start 1, .reset 2, .success true sampleReply 0]).started = 0
      ∧ (Tally.run (Tally.init (0 : Int))
        [.start 1, .reset 2, .success true sampleReply 0]).stats.reply.success = 1
      ∧ (Tally.run (Tally.init (0 : Int))
        [.start 1, .reset 2, .success true sampleReply 0]).stats.reply.failure = 0
      ∧ (Tally.run (Tally.init (0 : Int))
        [.start 1, .reset 2, .success true sampleReply 0]).fresh = 0
      ∧ (Tally.run (Tally.init (0 : Int))
        [.start 1, .reset 2, .success true sampleReply 0]).stale = 0
      ∧ ¬ (((Tally.run (Tally.init (0 : Int))
            [.start 1, .reset 2, .success true sampleReply 0]).stats.pending : Int)
          = ((Tally.run (Tally.init (0 : Int))
              [.start 1, .reset 2, .success true sampleReply 0]).started : Int)
            - (Tally.run (Tally.init (0 : Int))
                [.start 1, .reset 2, .success true sampleReply 0]).stats.reply.success
            - (Tally.run (Tally.init (0 : Int))
                [.start 1, .reset 2, .success true sampleReply 0]).stats.reply.failure)
      ∧ ∀ (now : Int) (calls : List (Call Int)),
          ((Tally.run (Tally.init now) calls).stats.pending : Int)
            = (((Tally.run (Tally.init now) calls).started : Int)
                - (Tally.run (Tally.init now) calls).stats.reply.success
                - (Tally.run (Tally.init now) calls).stats.reply.failure) % 2 ^ 64 := by
  refine ⟨by decide, by decide, by decide, by decide, by decide, by decide, by decide, ?_⟩
  intro now calls
  exact (tally_run_congruent calls (Tally.init now) (tally_init_congruent now)).2

end PendingExamples

section Endpoint

variable {F : Type} [Zero F]

theorem handlers_known (parseInt : String → Option Int) (now : F)
    (r : Frontend.httpRequest) (path : String) :
    (∃ handler, handlers parseInt now r path = some handler)
      ↔ path ∈ ["/fails", "/nodes", "/parallel", "/pods", "/reqs-per-sec", "/reset",
                "/stats"] := by
  unfold handlers
  constructor
  · intro h
    split_ifs at h with h1 h2 h3 h4 h5 h6 h7
    · simp [h1]
    · simp [h2]
    · simp [h3]
    · simp [h4]
    · simp [h5]
    · simp [h6]
    · simp [h7]
    · obtain ⟨handler, hh⟩ := h
      exact absurd hh (by simp)
  · intro h
    split_ifs with h1 h2 h3 h4 h5 h6 h7
    · exact ⟨_, rfl⟩
    · exact ⟨_, rfl⟩
    · exact ⟨_, rfl⟩
    · exact ⟨_, rfl⟩
    · exact ⟨_, rfl⟩
    · exact ⟨_, rfl⟩
    · exact ⟨_, rfl⟩
    · simp only [List.mem_cons, List.mem_singleton, List.not_mem_nil, or_false] at h
      rcases h with h | h | h | h | h | h | h
      · exact absurd h h1
      · exact absurd h h2
      · exact absurd h h3
      · exact absurd h h4
      · exact absurd h h5
      · exact absurd h h6
      · exact absurd h h7

/-- Every handler of the table leaves `completed` and `rejected` alone, and
reports failure only for `/parallel` with a value that does not parse. -/
theorem handlers_effect (parseInt : String → Option Int) (now : F)
    (r : Frontend.httpRequest) (path : String) (handler : statsT F → Handled F)
    (h : handlers parseInt now r path = some handler) (stats : statsT F) :
    (handler stats).stats.completed = stats.completed
      ∧ (handler stats).stats.rejected = stats.rejected
      ∧ ((handler stats).ok = false
          ↔ (path = "/parallel" ∧ parseInt (r.form "value") = none)) := by
  unfold handlers at h
  split_ifs at h with h1 h2 h3 h4 h5 h6 h7
  · cases h
    have : path ≠ "/parallel" := by rw [h1]; decide
    simp [this]
  · cases h
    have : path ≠ "/parallel" := by rw [h2]; decide
    simp [this]
  · cases h
    unfold parallelization
    cases hp : parseInt (r.form "value") with
    | none => simp [h3]
    | some v => simp
  · cases h
    simp [h3]
  · cases h
    simp [h3]
  · cases h
    simp [h3, statsReset]
  · cases h
    simp [h3]

/-- C16 (control endpoint accounting).  For every request, `myHandler` raises
exactly one of `completed` and `rejected` by one and leaves the other alone.
It is `rejected` exactly when the method is not GET (status 405), or the
body is not `http.NoBody` (status 400), or the path is not one of the seven
known paths (status 404), or the path is `/parallel` and its value does not
parse; it is `completed` otherwise. -/
theorem endpoint_accounting (parseInt : String → Option Int) (now : F) (stats : statsT F)
    (r : Frontend.httpRequest) :
    (((myHandler parseInt now stats r).1.rejected = stats.rejected + 1
          ∧ (myHandler parseInt now stats r).1.completed = stats.completed)
        ∨ ((myHandler parseInt now stats r).1.completed = stats.completed + 1
          ∧ (myHandler parseInt now stats r).1.rejected = stats.rejected))
      ∧ ((myHandler parseInt now stats r).1.rejected = stats.rejected + 1
          ↔ (r.Method ≠ "GET" ∨ r.noBody = false
              ∨ r.Path ∉ ["/fails", "/nodes", "/parallel", "/pods", "/reqs-per-sec", "/reset",
                          "/stats"]
              ∨ (r.Path = "/parallel" ∧ parseInt (r.form "value") = none)))
      ∧ (r.Method ≠ "GET" → (myHandler parseInt now stats r).2.1 = some 405)
      ∧ (r.Method = "GET" → r.noBody = false →
          (myHandler parseInt now stats r).2.1 = some 400)
      ∧ (r.Method = "GET" → r.noBody = true →
          r.Path ∉ ["/fails", "/nodes", "/parallel", "/pods", "/reqs-per-sec", "/reset",
                    "/stats"] →
          (myHandler parseInt now stats r).2.1 = some 404) := by
  by_cases hm : r.Method = "GET"
  · by_cases hb : r.noBody = true
    · have hcheck : requestCheck r = 200 := by simp [requestCheck, hm, hb]
      have hnb : ¬ r.noBody = false := by rw [hb]; decide
      cases hh : handlers parseInt now r r.Path with
      | none =>
        have hpath : r.Path ∉ ["/fails", "/nodes", "/parallel", "/pods", "/reqs-per-sec",
            "/reset", "/stats"] := by
          intro hin
          obtain ⟨handler, hhandler⟩ := (handlers_known parseInt now r r.Path).mpr hin
          rw [hh] at hhandler
          exact absurd hhandler (by simp)
        have hres : myHandler parseInt now stats r
            = (increaseRejected stats, some 404, none) := by
          unfold myHandler
          rw [if_neg (by rw [hcheck]; exact fun h => h rfl), hh]
        rw [hres]
        refine ⟨Or.inl ⟨rfl, rfl⟩, ⟨fun _ => Or.inr (Or.inr (Or.inl hpath)), fun _ => rfl⟩,
          fun h => absurd hm h, fun _ h => absurd h hnb, fun _ _ _ => rfl⟩
      | some handler =>
        have hpath : r.Path ∈ ["/fails", "/nodes", "/parallel", "/pods", "/reqs-per-sec",
            "/reset", "/stats"] :=
          (handlers_known parseInt now r r.Path).mp ⟨handler, hh⟩
        obtain ⟨e1, e2, e3⟩ := handlers_effect parseInt now r r.Path handler hh stats
        by_cases hok : (handler stats).ok = true
        · have hres : myHandler parseInt now stats r
              = (increaseCompleted (handler stats).stats, none, (handler stats).sent) := by
            unfold myHandler
            rw [if_neg (by rw [hcheck]; exact fun h => h rfl), hh]
            simp only [hok, if_true]
          have hnot : ¬ (r.Path = "/parallel" ∧ parseInt (r.form "value") = none) := by
            intro hp
            rw [e3.mpr hp] at hok
            exact absurd hok (by decide)
          rw [hres]
          refine ⟨Or.inr ⟨by simp [increaseCompleted, e1], by simp [increaseCompleted, e2]⟩,
            ⟨?_, ?_⟩, fun h => absurd hm h, fun _ h => absurd h hnb,
            fun _ _ h => absurd hpath h⟩
          · intro hrej
            simp only [increaseCompleted] at hrej
            omega
          · rintro (h | h | h | h)
            · exact absurd hm h
            · exact absurd h hnb
            · exact absurd hpath h
            · exact absurd h hnot
        · have hok2 : (handler stats).ok = false := by simpa using hok
          have hres : myHandler parseInt now stats r
              = (increaseRejected (handler stats).stats, none, (handler stats).sent) := by
            unfold myHandler
            rw [if_neg (by rw [hcheck]; exact fun h => h rfl), hh]
            simp only [hok2, Bool.false_eq_true, if_false]
          rw [hres]
          refine ⟨Or.inl ⟨by simp [increaseRejected, e2], by simp [increaseRejected, e1]⟩,
            ⟨fun _ => Or.inr (Or.inr (Or.inr (e3.mp hok2))),
              fun _ => by simp [increaseRejected, e2]⟩,
            fun h => absurd hm h, fun _ h => absurd h hnb, fun _ _ h => absurd hpath h⟩
    · have hb2 : r.noBody = false := by simpa using hb
      have hcheck : requestCheck r = 400 := by simp [requestCheck, hm, hb2]
      have hres : myHandler parseInt now stats r
          = (increaseRejected stats, some 400, none) := by
        unfold myHandler
        rw [if_pos (by rw [hcheck]; decide), hcheck]
      rw [hres]
      refine ⟨Or.inl ⟨rfl, rfl⟩, ⟨fun _ => Or.inr (Or.inl hb2), fun _ => rfl⟩,
        fun h => absurd hm h, fun _ _ => rfl, fun _ h => absurd h hb⟩
  · have hcheck : requestCheck r = 405 := by simp [requestCheck, hm]
    have hres : myHandler parseInt now stats r
        = (increaseRejected stats, some 405, none) := by
      unfold myHandler
      rw [if_pos (by rw [hcheck]; decide), hcheck]
    rw [hres]
    refine ⟨Or.inl ⟨rfl, rfl⟩, ⟨fun _ => Or.inl hm, fun _ => rfl⟩,
      fun _ => rfl, fun h => absurd h hm, fun h => absurd h hm⟩

/-- Examples for `myHandler`: `/parallel` with the value `three` is rejected
without a status being written, the same query with the value `3` is
completed and puts 3 on the `parallel` channel, and a POST is answered with
405 and rejected. -/
theorem endpoint_examples :
    (myHandler sampleParse (0 : Int) (statsInit 0) sampleQuery).1.rejected = 1
      ∧ (myHandler sampleParse (0 : Int) (statsInit 0) sampleQuery).1.completed = 0
      ∧ (myHandler sampleParse (0 : Int) (statsInit 0) sampleQuery).2.1 = none
      ∧ (myHandler sampleParse (0 : Int) (statsInit 0)
          { sampleQuery with form := fun _ => "3" }).1.completed = 1
      ∧ (myHandler sampleParse (0 : Int) (statsInit 0)
          { sampleQuery with form := fun _ => "3" }).2.2 = some 3
      ∧ (myHandler sampleParse (0 : Int) (statsInit 0)
          { sampleQuery with Method := "POST" }).2.1 = some 405
      ∧ (myHandler sampleParse (0 : Int) (statsInit 0)
          { sampleQuery with Method := "POST" }).1.rejected = 1 := by
  decide

end Endpoint

section Controller

theorem clampTarget_eq (value reqmax : Int) (h : 0 ≤ reqmax) :
    clampTarget value reqmax = min (max value 0) reqmax := by
  unfold clampTarget
  split_ifs with h1 h2
  · rw [min_eq_right (le_trans (le_of_lt h1) (le_max_left _ _))]
  · rw [max_eq_right (le_of_lt h2), min_eq_left h]
  · rw [max_eq_left (not_lt.mp h2), min_eq_left (not_lt.mp h1)]

theorem mem_promotions (reqnow target i : Int) :
    i ∈ promotions reqnow target ↔ reqnow ≤ i ∧ i < target := by
  unfold promotions
  simp only [List.mem_map, List.mem_range]
  constructor
  · rintro ⟨k, hk, rfl⟩
    omega
  · rintro ⟨h1, h2⟩
    exact ⟨(i - reqnow).toNat, by omega, by omega⟩

theorem nodup_promotions (reqnow target : Int) : (promotions reqnow target).Nodup := by
  unfold promotions
  apply List.Nodup.map _ (List.nodup_range _)
  intro a b hab
  simpa using hab

theorem count_promotions (reqnow target i : Int) :
    (promotions reqnow target).count i = if reqnow ≤ i ∧ i < target then 1 else 0 := by
  split_ifs with h
  · exact List.count_eq_one_of_mem (nodup_promotions reqnow target)
      ((mem_promotions reqnow target i).mpr h)
  · exact List.count_eq_zero_of_not_mem (fun hm => h ((mem_promotions reqnow target i).mp hm))

theorem foldl_sendGo (sends : List Int) (proceed : Int → Nat) (i : Int) :
    (sends.foldl sendGo proceed) i = proceed i + sends.count i := by
  induction sends generalizing proceed with
  | nil => simp
  | cons a rest ih =>
    rw [List.foldl_cons, ih, List.count_cons]
    unfold sendGo
    by_cases h : i = a
    · subst h
      simp
      omega
    · have h2 : ¬ a = i := fun e => h e.symm
      simp [h, h2]

theorem pool_step_reqnow (reqmax : Int) (s : Pool) (m : Move)
    (h : 0 ≤ s.reqnow ∧ s.reqnow ≤ reqmax) :
    0 ≤ (Pool.step reqmax s m).reqnow ∧ (Pool.step reqmax s m).reqnow ≤ reqmax := by
  have hmax : 0 ≤ reqmax := le_trans h.1 h.2
  cases m with
  | change value =>
    show 0 ≤ clampTarget value reqmax ∧ clampTarget value reqmax ≤ reqmax
    rw [clampTarget_eq value reqmax hmax]
    exact ⟨le_min (le_max_right _ _) hmax, min_le_right _ _⟩
  | done =>
    simp only [Pool.step]
    split <;> exact h
  | begin i =>
    simp only [Pool.step]
    split_ifs <;> exact h
  | finish i =>
    simp only [Pool.step]
    split_ifs <;> exact h

theorem pool_run_reqnow (reqmax : Int) (moves : List Move) (s : Pool)
    (h : 0 ≤ s.reqnow ∧ s.reqnow ≤ reqmax) :
    0 ≤ (Pool.run reqmax s moves).reqnow ∧ (Pool.run reqmax s moves).reqnow ≤ reqmax := by
  induction moves generalizing s with
  | nil => exact h
  | cons m rest ih => exact ih (Pool.step reqmax s m) (pool_step_reqnow reqmax s m h)

/-- C13 (parallelism target change).  For every value and every `reqnow` with
`0 <= reqnow <= reqmax`, the target-change step sends back on `parallel` the
target `min(max(value, 0), reqmax)`, makes it the new `reqnow`, and sends
exactly one go-ahead to each slot `i` with `reqnow <= i < target` and none to
any other slot, so that the number of go-aheads queued for a slot grows by
one for those slots and is unchanged for the others.  The new `reqnow` is
again between 0 and `reqmax`, and so is `reqnow` in every state the
controller and the requesters reach from startup. -/
theorem target_change (reqmax value reqnow : Int) (h : 0 ≤ reqnow ∧ reqnow ≤ reqmax) :
    (targetChange reqmax value reqnow).reply = min (max value 0) reqmax
      ∧ (targetChange reqmax value reqnow).reqnow = min (max value 0) reqmax
      ∧ (∀ i : Int, (targetChange reqmax value reqnow).sends.count i
          = if reqnow ≤ i ∧ i < min (max value 0) reqmax then 1 else 0)
      ∧ (0 ≤ (targetChange reqmax value reqnow).reqnow
          ∧ (targetChange reqmax value reqnow).reqnow ≤ reqmax)
      ∧ (∀ s : Pool, s.reqnow = reqnow →
          (Pool.step reqmax s (.change value)).reqnow = min (max value 0) reqmax
          ∧ ∀ i : Int, (Pool.step reqmax s (.change value)).proceed i
              = s.proceed i + if reqnow ≤ i ∧ i < min (max value 0) reqmax then 1 else 0)
      ∧ (∀ moves : List Move,
          0 ≤ (Pool.run reqmax (Pool.init reqnow) moves).reqnow
          ∧ (Pool.run reqmax (Pool.init reqnow) moves).reqnow ≤ reqmax) := by
  have hmax : 0 ≤ reqmax := le_trans h.1 h.2
  have hclamp := clampTarget_eq value reqmax hmax
  refine ⟨hclamp, hclamp, ?_, ?_, ?_, ?_⟩
  · intro i
    show (promotions reqnow (clampTarget value reqmax)).count i = _
    rw [count_promotions, hclamp]
  · show 0 ≤ clampTarget value reqmax ∧ clampTarget value reqmax ≤ reqmax
    rw [hclamp]
    exact ⟨le_min (le_max_right _ _) hmax, min_le_right _ _⟩
  · intro s hs
    refine ⟨hclamp, ?_⟩
    intro i
    show ((promotions s.reqnow (clampTarget value reqmax)).foldl sendGo s.proceed) i = _
    rw [foldl_sendGo, count_promotions, hclamp, hs]
  · intro moves
    exact pool_run_reqnow reqmax moves (Pool.init reqnow) h

/-- Witness for C13: with `reqmax = 4` and `reqnow = 1`, the value 999 is
answered with 4 and the value 3 with 3, and go-aheads go to slots 1, 2, 3 and
to slots 1, 2. -/
theorem target_change_witness :
    ((0 : Int) ≤ 1 ∧ (1 : Int) ≤ 4)
      ∧ (targetChange 4 999 1).reply = 4
      ∧ (targetChange 4 3 1).reply = 3
      ∧ (targetChange 4 999 1).sends = [1, 2, 3]
      ∧ (targetChange 4 3 1).sends = [1, 2]
      ∧ (targetChange 4 999 1).reply = min (max 999 0) 4 :=
  ⟨by decide, by decide, by decide, by decide, by decide,
    (target_change 4 999 1 (by decide)).1⟩

end Controller

section Bound

theorem filter_range_length_le (b : Nat → Bool) (p : Nat) (hb : ∀ n, b n = true → n < p)
    (m : Nat) : ((List.range m).filter b).length ≤ min p m := by
  induction m with
  | zero => simp
  | succ m ih =>
    rw [List.range_succ, List.filter_append, List.length_append]
    by_cases hm : b m = true
    · have hlt := hb m hm
      have hone : (List.filter b [m]).length = 1 := by simp [hm]
      have : min p m = m := min_eq_right (le_of_lt hlt)
      have h2 : min p (m + 1) = m + 1 := min_eq_right hlt
      omega
    · have hnone : (List.filter b [m]).length = 0 := by simp [hm]
      have : min p m ≤ min p (m + 1) := min_le_min_left p (Nat.le_succ m)
      omega

theorem granted_init (reqmax reqnow : Int) (h : 0 ≤ reqnow ∧ reqnow ≤ reqmax) :
    Pool.Granted reqmax (Pool.init reqnow) := by
  refine ⟨h.1, le_refl _, h.2, ?_, fun _ => rfl⟩
  intro i hi
  simp only [Pool.init, Bool.false_eq_true, List.not_mem_nil, or_false, false_or] at hi
  by_contra hcon
  change ¬ (0 ≤ i ∧ i < reqnow) at hcon
  rw [if_neg hcon] at hi
  exact absurd hi (lt_irrefl 0)

theorem granted_step (reqmax : Int) (s : Pool) (m : Move) (h : Pool.Granted reqmax s) :
    Pool.Granted reqmax (Pool.step reqmax s m) := by
  obtain ⟨h0, h1, h2, h3, h4⟩ := h
  have hmax : 0 ≤ reqmax := le_trans h0 (le_trans h1 h2)
  cases m with
  | change value =>
    have hc := clampTarget_eq value reqmax hmax
    have hT0 : 0 ≤ clampTarget value reqmax := by
      rw [hc]; exact le_min (le_max_right _ _) hmax
    have hT1 : clampTarget value reqmax ≤ reqmax := by
      rw [hc]; exact min_le_right _ _
    refine ⟨hT0, le_max_right _ _, max_le h2 hT1, ?_, ?_⟩
    · intro i hi
      show 0 ≤ i ∧ i < max s.peak (clampTarget value reqmax)
      have hi2 : s.busy i = true
          ∨ 0 < ((promotions s.reqnow (clampTarget value reqmax)).foldl sendGo s.proceed) i
          ∨ i ∈ s.finished := hi
      rw [foldl_sendGo, count_promotions] at hi2
      by_cases hp : s.reqnow ≤ i ∧ i < clampTarget value reqmax
      · exact ⟨le_trans h0 hp.1, lt_of_lt_of_le hp.2 (le_max_right _ _)⟩
      · rw [if_neg hp, Nat.add_zero] at hi2
        obtain ⟨a, b⟩ := h3 i hi2
        exact ⟨a, lt_of_lt_of_le b (le_max_left _ _)⟩
    · intro hl
      show max s.peak (clampTarget value reqmax) = clampTarget value reqmax
      have hl2 : (s.lowered || decide (clampTarget value reqmax < s.reqnow)) = false := hl
      rw [Bool.or_eq_false_iff] at hl2
      have hge : s.reqnow ≤ clampTarget value reqmax := by
        have := hl2.2
        simp only [decide_eq_false_iff_not, not_lt] at this
        exact this
      rw [h4 hl2.1]
      exact max_eq_right hge
  | done =>
    simp only [Pool.step]
    cases hf : s.finished with
    | nil => exact ⟨h0, h1, h2, h3, h4⟩
    | cons i rest =>
      refine ⟨h0, h1, h2, ?_, h4⟩
      intro j hj
      have hi : 0 ≤ i ∧ i < s.peak := h3 i (Or.inr (Or.inr (by rw [hf]; simp)))
      simp only at hj
      rcases hj with hj | hj | hj
      · exact h3 j (Or.inl hj)
      · by_cases hji : j = i
        · rw [hji]; exact hi
        · apply h3 j
          right; left
          split_ifs at hj
          · simpa [sendGo, hji] using hj
          · exact hj
      · exact h3 j (Or.inr (Or.inr (by rw [hf]; exact List.mem_cons_of_mem _ hj)))
  | begin i =>
    simp only [Pool.step]
    split_ifs with hc
    · refine ⟨h0, h1, h2, ?_, h4⟩
      intro j hj
      simp only at hj
      by_cases hji : j = i
      · rw [hji]
        exact h3 i (Or.inr (Or.inl hc.2.2.2))
      · simp only [hji, if_false] at hj
        exact h3 j hj
    · exact ⟨h0, h1, h2, h3, h4⟩
  | finish i =>
    simp only [Pool.step]
    split_ifs with hc
    · refine ⟨h0, h1, h2, ?_, h4⟩
      intro j hj
      simp only at hj
      by_cases hji : j = i
      · rw [hji]
        exact h3 i (Or.inl hc)
      · simp only [hji, if_false, List.mem_append, List.mem_singleton, or_false] at hj
        exact h3 j hj
    · exact ⟨h0, h1, h2, h3, h4⟩

theorem granted_run (reqmax : Int) (moves : List Move) (s : Pool)
    (h : Pool.Granted reqmax s) : Pool.Granted reqmax (Pool.run reqmax s moves) := by
  induction moves generalizing s with
  | nil => exact h
  | cons m rest ih => exact ih (Pool.step reqmax s m) (granted_step reqmax s m h)

theorem inflight_le_peak (reqmax : Int) (s : Pool) (h : Pool.Granted reqmax s) :
    (Pool.inflight reqmax s : Int) ≤ min s.peak reqmax := by
  obtain ⟨h0, h1, h2, h3, -⟩ := h
  have hp : 0 ≤ s.peak := le_trans h0 h1
  have hmax : 0 ≤ reqmax := le_trans hp h2
  have hb : ∀ n : Nat, s.busy (n : Int) = true → n < s.peak.toNat := by
    intro n hn
    have := (h3 (n : Int) (Or.inl hn)).2
    omega
  have hlen := filter_range_length_le (fun (n : Nat) => s.busy (n : Int)) s.peak.toNat hb
    reqmax.toNat
  unfold Pool.inflight
  have hmin : ((min s.peak.toNat reqmax.toNat : Nat) : Int) = min s.peak reqmax := by
    rw [min_eq_left h2, min_eq_left (by omega)]
    omega
  rw [← hmin]
  exact_mod_cast hlen

end Bound

section NodeErrors

/-- C22 (error strings are escaped only on HTML output), the code at the
error map with the one description `<b>`: called with `htmlOutput`, as the
`/nodes` endpoint does, `printNodeErrors` writes the description verbatim,
not escaped as `&lt;b&gt;`.  The constants `plainOutput` and `htmlOutput` are
both `outputType(0)`, so the test `output == plainOutput` always holds and
the two calls write the same text for every map. -/
theorem node_errors_not_escaped :
    htmlOutput = plainOutput
      ∧ printNodeErrors [("<b>", 1)] htmlOutput
        = ["\nNode errors (count / description):\n", "- 1: <b>\n"]
      ∧ escapeString "<b>" = "&lt;b&gt;"
      ∧ printNodeErrors [("<b>", 1)] htmlOutput
        ≠ ["\nNode errors (count / description):\n", "- 1: &lt;b&gt;\n"]
      ∧ ∀ mapping : List (String × Nat),
          printNodeErrors mapping htmlOutput = printNodeErrors mapping plainOutput := by
  refine ⟨rfl, by decide, by decide, by decide, fun _ => rfl⟩

end NodeErrors

section NodeTotals

variable {F : Type}

theorem mapGet_mem {α : Type} (m : List (String × α)) (k : String) (v : α)
    (h : mapGet m k = some v) : ∃ k2, (k2, v) ∈ m := by
  induction m with
  | nil => simp [mapGet] at h
  | cons p rest ih =>
    obtain ⟨k2, v2⟩ := p
    unfold mapGet at h
    by_cases hk : k2 = k
    · rw [if_pos hk] at h
      cases h
      exact ⟨k2, List.mem_cons_self _ _⟩
    · rw [if_neg hk] at h
      obtain ⟨k3, h3⟩ := ih h
      exact ⟨k3, List.mem_cons_of_mem _ h3⟩

theorem mem_mapSet {α : Type} (m : List (String × α)) (k : String) (v : α)
    (p : String × α) (h : p ∈ mapSet m k v) : p ∈ m ∨ p.2 = v := by
  induction m with
  | nil =>
    simp only [mapSet, List.mem_singleton] at h
    exact Or.inr (by rw [h])
  | cons q rest ih =>
    obtain ⟨k2, v2⟩ := q
    unfold mapSet at h
    by_cases hk : k2 = k
    · rw [if_pos hk] at h
      rcases List.mem_cons.mp h with h1 | h1
      · exact Or.inr (by rw [h1])
      · exact Or.inl (List.mem_cons_of_mem _ h1)
    · rw [if_neg hk] at h
      rcases List.mem_cons.mp h with h1 | h1
      · exact Or.inl (by rw [h1]; exact List.mem_cons_self _ _)
      · rcases ih h1 with h2 | h2
        · exact Or.inl (List.mem_cons_of_mem _ h2)
        · exact Or.inr h2

/-- Writing `v` under `k` changes the sum of a quantity over the map by that
quantity of `v` minus that of the value found under `k` before, if any. -/
theorem sum_mapSet {α : Type} (f : α → Nat) (m : List (String × α)) (k : String) (v : α) :
    ((mapSet m k v).map (fun p => f p.2)).sum + ((mapGet m k).map f).getD 0
      = (m.map (fun p => f p.2)).sum + f v := by
  induction m with
  | nil => simp [mapSet, mapGet]
  | cons q rest ih =>
    obtain ⟨k2, v2⟩ := q
    unfold mapSet mapGet
    by_cases hk : k2 = k
    · simp only [if_pos hk, List.map_cons, List.sum_cons, Option.map_some', Option.getD_some]
      omega
    · simp only [if_neg hk, List.map_cons, List.sum_cons]
      omega

theorem sumCounts_mapIncr (m : List (String × Nat)) (k : String) :
    sumCounts (mapIncr m k) = sumCounts m + 1 := by
  have h : ((mapSet m k ((mapGet m k).getD 0 + 1)).map Prod.snd).sum
        + ((mapGet m k).map (fun n : Nat => n)).getD 0
      = (m.map Prod.snd).sum + ((mapGet m k).getD 0 + 1) :=
    sum_mapSet (fun n : Nat => n) m k ((mapGet m k).getD 0 + 1)
  unfold sumCounts mapIncr
  cases hg : mapGet m k with
  | none =>
    rw [hg] at h
    simp only [Option.getD_none, Option.map_none'] at h ⊢
    omega
  | some old =>
    rw [hg] at h
    simp only [Option.getD_some, Option.map_some'] at h ⊢
    omega

theorem getStatsNode_consistent (nodes : List (String × nodeStatT F)) (name : String)
    (h : ∀ p ∈ nodes, nodeConsistent p.2) : nodeConsistent (getStatsNode nodes name) := by
  unfold getStatsNode
  cases hg : mapGet nodes name with
  | none => exact ⟨rfl, rfl, rfl, rfl⟩
  | some node =>
    obtain ⟨k2, hk2⟩ := mapGet_mem nodes name node hg
    exact h (k2, node) hk2

theorem statsStart_node (t : F) (stats : statsT F) :
    (statsStart t stats).node = stats.node ∧ (statsStart t stats).reply = stats.reply := by
  unfold statsStart
  simp only []
  split_ifs <;> exact ⟨rfl, rfl⟩

theorem statsStart_consistent (t : F) (stats : statsT F) (h : statsConsistent stats) :
    statsConsistent (statsStart t stats) := by
  obtain ⟨e1, e2⟩ := statsStart_node t stats
  unfold statsConsistent
  rw [e1, e2]
  exact h

theorem statsReset_consistent [Zero F] (now : F) (stats : statsT F) :
    statsConsistent (statsReset now stats) := by
  refine ⟨rfl, ?_, ?_⟩
  · intro p hp
    simp [statsReset] at hp
  · simp [statsReset]

theorem statsFailure_consistent (reply : replyT F) (stats : statsT F)
    (h : statsConsistent stats) : statsConsistent (statsFailure reply stats) := by
  obtain ⟨h1, h2, h3⟩ := h
  unfold statsFailure
  simp only []
  by_cases hn : reply.Node ≠ ""
  · rw [if_pos hn]
    have hnode := getStatsNode_consistent stats.node (escapeString reply.Node) h2
    have hsum := sum_mapSet (fun n : nodeStatT F => n.reply.failure) stats.node
      (escapeString reply.Node)
      { getStatsNode stats.node (escapeString reply.Node) with
          error := mapIncr (getStatsNode stats.node (escapeString reply.Node)).error
            reply.Error,
          reply := { (getStatsNode stats.node (escapeString reply.Node)).reply with
            failure := (getStatsNode stats.node (escapeString reply.Node)).reply.failure + 1 } }
    have hsum2 := sum_mapSet (fun n : nodeStatT F => n.reply.success) stats.node
      (escapeString reply.Node)
      { getStatsNode stats.node (escapeString reply.Node) with
          error := mapIncr (getStatsNode stats.node (escapeString reply.Node)).error
            reply.Error,
          reply := { (getStatsNode stats.node (escapeString reply.Node)).reply with
            failure := (getStatsNode stats.node (escapeString reply.Node)).reply.failure + 1 } }
    refine ⟨?_, ?_, ?_⟩
    · simp only
      unfold getStatsNode at hsum2 ⊢
      cases hg : mapGet stats.node (escapeString reply.Node) with
      | none =>
        rw [hg] at hsum2
        simp only [Option.getD_none, Option.map_none', newNode] at hsum2 ⊢
        omega
      | some old =>
        rw [hg] at hsum2
        simp only [Option.getD_some, Option.map_some'] at hsum2 ⊢
        omega
    · intro p hp
      rcases mem_mapSet _ _ _ p hp with hold | hnew
      · exact h2 p hold
      · rw [hnew]
        obtain ⟨c1, c2, c3, c4⟩ := hnode
        refine ⟨c1, c2, c3, ?_⟩
        simp only [sumCounts_mapIncr]
        rw [c4]
    · simp only
      unfold getStatsNode at hsum ⊢
      cases hg : mapGet stats.node (escapeString reply.Node) with
      | none =>
        rw [hg] at hsum
        simp only [Option.getD_none, Option.map_none', newNode] at hsum ⊢
        omega
      | some old =>
        rw [hg] at hsum
        simp only [Option.getD_some, Option.map_some'] at hsum ⊢
        omega
  · rw [if_neg hn]
    exact ⟨h1, h2, Nat.le_succ_of_le h3⟩

theorem statsSuccess_consistent [LinearOrder F] [Add F] (reply : replyT F) (commtime : F)
    (stats : statsT F) (h : statsConsistent stats) :
    statsConsistent (statsSuccess reply commtime stats) := by
  obtain ⟨h1, h2, h3⟩ := h
  have hnode := getStatsNode_consistent stats.node (escapeString reply.Node) h2
  obtain ⟨c1, c2, c3, c4⟩ := hnode
  unfold statsSuccess
  simp only []
  have hsum := sum_mapSet (fun n : nodeStatT F => n.reply.success) stats.node
    (escapeString reply.Node)
    { getStatsNode stats.node (escapeString reply.Node) with
        reply := { (getStatsNode stats.node (escapeString reply.Node)).reply with
          success := (getStatsNode stats.node (escapeString reply.Node)).reply.success + 1 },
        runtime := (getStatsNode stats.node (escapeString reply.Node)).runtime
          ++ [reply.Runtime],
        device := mapIncr (getStatsNode stats.node (escapeString reply.Node)).device
          (escapeString reply.Device),
        pod := mapIncr (getStatsNode stats.node (escapeString reply.Node)).pod
          (escapeString reply.Pod) }
  have hsum2 := sum_mapSet (fun n : nodeStatT F => n.reply.failure) stats.node
    (escapeString reply.Node)
    { getStatsNode stats.node (escapeString reply.Node) with
        reply := { (getStatsNode stats.node (escapeString reply.Node)).reply with
          success := (getStatsNode stats.node (escapeString reply.Node)).reply.success + 1 },
        runtime := (getStatsNode stats.node (escapeString reply.Node)).runtime
          ++ [reply.Runtime],
        device := mapIncr (getStatsNode stats.node (escapeString reply.Node)).device
          (escapeString reply.Device),
        pod := mapIncr (getStatsNode stats.node (escapeString reply.Node)).pod
          (escapeString reply.Pod) }
  refine ⟨?_, ?_, ?_⟩
  · simp only
    unfold getStatsNode at hsum ⊢
    cases hg : mapGet stats.node (escapeString reply.Node) with
    | none =>
      rw [hg] at hsum
      simp only [Option.getD_none, Option.map_none', newNode] at hsum ⊢
      omega
    | some old =>
      rw [hg] at hsum
      simp only [Option.getD_some, Option.map_some'] at hsum ⊢
      omega
  · intro p hp
    rcases mem_mapSet _ _ _ p hp with hold | hnew
    · exact h2 p hold
    · rw [hnew]
      refine ⟨?_, ?_, ?_, c4⟩
      · simp only [sumCounts_mapIncr]
        rw [c1]
      · simp only [sumCounts_mapIncr]
        rw [c2]
      · simp only [List.length_append, List.length_singleton]
        rw [c3]
  · simp only
    unfold getStatsNode at hsum2 ⊢
    cases hg : mapGet stats.node (escapeString reply.Node) with
    | none =>
      rw [hg] at hsum2
      simp only [Option.getD_none, Option.map_none', newNode] at hsum2 ⊢
      omega
    | some old =>
      rw [hg] at hsum2
      simp only [Option.getD_some, Option.map_some'] at hsum2 ⊢
      omega

theorem statsInit_consistent [Zero F] (now : F) : statsConsistent (statsInit now) := by
  refine ⟨rfl, ?_, ?_⟩
  · intro p hp
    simp [statsInit] at hp
  · simp [statsInit]

theorem statsApply_consistent [LinearOrder F] [Zero F] [Add F] (stats : statsT F)
    (c : Call F) (h : statsConsistent stats) : statsConsistent (statsApply stats c) := by
  cases c with
  | start t => exact statsStart_consistent t stats h
  | success old reply commtime => exact statsSuccess_consistent reply commtime stats h
  | failure old reply => exact statsFailure_consistent reply stats h
  | reset now => exact statsReset_consistent now stats

theorem foldl_statsApply_consistent [LinearOrder F] [Zero F] [Add F] (calls : List (Call F))
    (stats : statsT F) (h : statsConsistent stats) :
    statsConsistent (calls.foldl statsApply stats) := by
  induction calls generalizing stats with
  | nil => exact h
  | cons c rest ih => exact ih _ (statsApply_consistent stats c h)

theorem tally_step_consistent [LinearOrder F] [Zero F] [Add F] (s : Tally F) (c : Call F)
    (h : statsConsistent s.stats) : statsConsistent (s.step c).stats := by
  cases c with
  | start t => exact statsStart_consistent t s.stats h
  | success old reply commtime =>
    simp only [Tally.step]
    split_ifs
    · exact h
    · exact statsSuccess_consistent reply commtime s.stats h
    · exact h
    · exact statsSuccess_consistent reply commtime s.stats h
  | failure old reply =>
    simp only [Tally.step]
    split_ifs
    · exact h
    · exact statsFailure_consistent reply s.stats h
    · exact h
    · exact statsFailure_consistent reply s.stats h
  | reset now => exact statsReset_consistent now s.stats

theorem tally_run_consistent [LinearOrder F] [Zero F] [Add F] (calls : List (Call F))
    (s : Tally F) (h : statsConsistent s.stats) :
    statsConsistent (s.run calls).stats := by
  unfold Tally.run
  induction calls generalizing s with
  | nil => exact h
  | cons c rest ih => exact ih _ (tally_step_consistent s c h)

/-- C25 (per-node statistics are consistent with the totals): after any
sequence of `statsStart`, `statsSuccess`, `statsFailure` and `statsReset`
calls on the statistics `main` sets up, with any arguments and in any order,
the global success count is the sum of the per-node success counts; every
node's success count is the sum of its per-device counts, the sum of its
per-pod counts and the length of its runtime list, and its failure count is
the sum of its per-error counts; and the per-node failure counts sum to at
most the global failure count.  The same holds of the statistics of the
model with requests in flight.  The counters are natural numbers: the uint64
wrap at 2^64 replies is left out. -/
theorem node_totals_consistent [LinearOrder F] [Zero F] [Add F] (now : F)
    (calls : List (Call F)) :
    ((calls.foldl statsApply (statsInit now)).reply.success
        = ((calls.foldl statsApply (statsInit now)).node.map
            (fun p => p.2.reply.success)).sum
      ∧ (∀ p ∈ (calls.foldl statsApply (statsInit now)).node,
          p.2.reply.success = sumCounts p.2.device
            ∧ p.2.reply.success = sumCounts p.2.pod
            ∧ p.2.reply.success = p.2.runtime.length
            ∧ p.2.reply.failure = sumCounts p.2.error)
      ∧ ((calls.foldl statsApply (statsInit now)).node.map
            (fun p => p.2.reply.failure)).sum
          ≤ (calls.foldl statsApply (statsInit now)).reply.failure)
      ∧ statsConsistent ((Tally.init now).run calls).stats :=
  ⟨foldl_statsApply_consistent calls (statsInit now) (statsInit_consistent now),
    tally_run_consistent calls (Tally.init now) (statsInit_consistent now)⟩

end NodeTotals

section Watching

theorem activity_change (reqmax value : Int) (s : Pool) (i : Int) :
    (Pool.step reqmax s (.change value)).activity i
      = s.activity i
        + (if s.reqnow ≤ i ∧ i < clampTarget value reqmax then 1 else 0) := by
  simp only [Pool.step, Pool.activity, targetChange, foldl_sendGo, count_promotions]
  omega

theorem activity_done_cons (reqmax : Int) (s : Pool) (i : Int) (rest : List Int)
    (hf : s.finished = i :: rest) (j : Int) :
    (Pool.step reqmax s .done).activity j + (if j = i ∧ ¬ s.reqnow > i then 1 else 0)
      = s.activity j := by
  simp only [Pool.step, Pool.activity, hf, List.count_cons]
  by_cases hj : j = i
  · subst hj
    by_cases hr : s.reqnow > j
    · simp [hr, sendGo]
      omega
    · simp [hr]
      omega
  · have hj2 : ¬ i = j := fun h => hj h.symm
    by_cases hr : s.reqnow > i
    · simp [hr, sendGo, hj, hj2]
    · simp [hr, hj, hj2]

theorem activity_begin (reqmax : Int) (s : Pool) (i j : Int) :
    (Pool.step reqmax s (.begin i)).activity j = s.activity j := by
  simp only [Pool.step]
  split_ifs with h
  · obtain ⟨_, _, hb, hp⟩ := h
    simp only [Pool.activity]
    by_cases hj : j = i
    · subst hj
      simp [hb]
      omega
    · simp [hj]
  · rfl

theorem activity_finish (reqmax : Int) (s : Pool) (i j : Int) :
    (Pool.step reqmax s (.finish i)).activity j = s.activity j := by
  simp only [Pool.step]
  split_ifs with h
  · simp only [Pool.activity, List.count_append, List.count_singleton]
    by_cases hj : j = i
    · subst hj
      simp [h]
      omega
    · have hj2 : ¬ i = j := fun h => hj h.symm
      simp [hj, hj2]
  · rfl

theorem proceed_le_activity (s : Pool) (i : Int) : s.proceed i ≤ s.activity i := by
  unfold Pool.activity
  omega

theorem watch_bounded_init (reqnow : Int) : (Watch.init reqnow).Bounded := by
  constructor
  · intro i
    simp only [Watch.init, Pool.init, Pool.activity, List.count_nil, Bool.false_eq_true,
      if_false, Nat.add_zero, Nat.zero_add]
    by_cases hi : i < reqnow
    · rw [if_pos hi]
      split_ifs <;> omega
    · rw [if_neg hi, if_neg (fun hc : 0 ≤ i ∧ i < reqnow => hi hc.2)]
  · intro e he
    simp only [Watch.init, List.mem_map] at he
    obtain ⟨i, _, rfl⟩ := he
    exact Nat.le_refl _

theorem watch_bounded_step (reqmax : Int) (w : Watch) (m : Move) (h : w.Bounded) :
    (w.step reqmax m).Bounded := by
  obtain ⟨h1, h2⟩ := h
  cases m with
  | change value =>
    constructor
    · intro i
      have hi := h1 i
      have ha := activity_change reqmax value w.pool i
      simp only [Watch.step, Pool.lowers, targetChange] at ha ⊢
      rw [ha]
      simp only [Pool.step, targetChange, decide_eq_true_eq]
      split_ifs at hi ⊢ <;> omega
    · intro e he
      simp only [Watch.step, Pool.lowers, Pool.sendsOf, targetChange, List.mem_append,
        List.mem_map, decide_eq_true_eq] at he ⊢
      rcases he with he | ⟨i, hi, rfl⟩
      · have := h2 e he
        split_ifs <;> omega
      · have hm := (mem_promotions _ _ i).mp hi
        have hi1 := h1 i
        have hp := proceed_le_activity w.pool i
        rw [if_neg (show ¬ i < w.pool.reqnow from not_lt.mpr hm.1)] at hi1
        simp only
        split_ifs <;> omega
  | done =>
    cases hf : w.pool.finished with
    | nil =>
      constructor
      · intro i
        simp only [Watch.step, Pool.step, Pool.lowers, hf]
        exact h1 i
      · intro e he
        simp only [Watch.step, Pool.sendsOf, Pool.lowers, hf, List.append_nil] at he ⊢
        exact h2 e he
    | cons i rest =>
      constructor
      · intro j
        have ha := activity_done_cons reqmax w.pool i rest hf j
        have hj := h1 j
        have hr : (Pool.step reqmax w.pool .done).reqnow = w.pool.reqnow := by
          simp only [Pool.step, hf]
        simp only [Watch.step, Pool.lowers, hr, Bool.false_eq_true, if_false]
        by_cases hc : j = i ∧ ¬ w.pool.reqnow > i
        · rw [if_pos hc] at ha
          omega
        · rw [if_neg hc] at ha
          omega
      · intro e he
        simp only [Watch.step, Pool.sendsOf, Pool.lowers, hf, List.mem_append] at he ⊢
        rcases he with he | he
        · exact h2 e he
        · by_cases hr : w.pool.reqnow > i
          · rw [if_pos hr, List.mem_singleton] at he
            subst he
            have hi := h1 i
            have hc : 1 ≤ w.pool.finished.count i := by
              rw [hf, List.count_cons_self]
              omega
            unfold Pool.activity at hi
            rw [if_pos (show i < w.pool.reqnow from hr)] at hi
            simp only [Bool.false_eq_true, if_false]
            omega
          · rw [if_neg hr] at he
            simp at he
  | begin i =>
    constructor
    · intro j
      have hr : (Pool.step reqmax w.pool (.begin i)).reqnow = w.pool.reqnow := by
        simp only [Pool.step]
        split_ifs <;> rfl
      simp only [Watch.step, Pool.lowers, activity_begin, hr, Bool.false_eq_true, if_false]
      exact h1 j
    · intro e he
      simp only [Watch.step, Pool.sendsOf, Pool.lowers, List.append_nil] at he ⊢
      exact h2 e he
  | finish i =>
    constructor
    · intro j
      have hr : (Pool.step reqmax w.pool (.finish i)).reqnow = w.pool.reqnow := by
        simp only [Pool.step]
        split_ifs <;> rfl
      simp only [Watch.step, Pool.lowers, activity_finish, hr, Bool.false_eq_true, if_false]
      exact h1 j
    · intro e he
      simp only [Watch.step, Pool.sendsOf, Pool.lowers, List.append_nil] at he ⊢
      exact h2 e he

theorem watch_bounded_run (reqmax : Int) (moves : List Move) (w : Watch) (h : w.Bounded) :
    (w.run reqmax moves).Bounded := by
  unfold Watch.run
  induction moves generalizing w with
  | nil => exact h
  | cons m rest ih => exact ih _ (watch_bounded_step reqmax w m h)

/-- C24 (go-ahead channels never fill), the code with one slot, `reqmax = 1`
and `reqnow = 1`: the requester of slot 0 takes its go-ahead and starts a
request, and while that request runs the target is set to 0 and back to 1
three times.  The three promotions send to `proceed[0]` with 0, 1 and 2
go-aheads queued: the third finds the channel of capacity 2 full while the
requester is still in flight. -/
theorem proceed_fills_counterexample :
    (Watch.run 1 (Watch.init 1)
        [.begin 0, .change 0, .change 1, .change 0, .change 1, .change 0, .change 1]).sends
      = [(0, 0), (0, 0), (0, 1), (0, 2)]
    ∧ (Watch.run 1 (Watch.init 1)
        [.begin 0, .change 0, .change 1, .change 0, .change 1, .change 0,
          .change 1]).pool.busy 0 = true
    ∧ (Watch.run 1 (Watch.init 1)
        [.begin 0, .change 0, .change 1, .change 0, .change 1, .change 0,
          .change 1]).lowerings = 3
    ∧ ¬ (∀ e ∈ (Watch.run 1 (Watch.init 1)
        [.begin 0, .change 0, .change 1, .change 0, .change 1, .change 0,
          .change 1]).sends, e.2 < 2) := by
  decide

/-- C24 (go-ahead channels never fill), as the code has it: after any
sequence of atomic steps of the controller and the requesters, from any
initial `reqnow` and for any `reqmax`, every send to a `proceed[i]` so far
(at seeding, re-arm or promotion) found at most as many go-aheads queued as
there have been target changes that made `reqnow` smaller; so while the
target has been lowered at most once, every send found fewer than 2. -/
theorem proceed_sends_bounded (reqmax reqnow : Int) (moves : List Move) (e : Int × Nat)
    (he : e ∈ (Watch.run reqmax (Watch.init reqnow) moves).sends) :
    e.2 ≤ (Watch.run reqmax (Watch.init reqnow) moves).lowerings
      ∧ ((Watch.run reqmax (Watch.init reqnow) moves).lowerings ≤ 1 → e.2 < 2) := by
  have h := (watch_bounded_run reqmax moves (Watch.init reqnow)
    (watch_bounded_init reqnow)).2 e he
  exact ⟨h, fun hl => by omega⟩

/-- The bound at one slot whose request is running while the target is
lowered once and raised again: the promotion finds nothing queued. -/
theorem proceed_sends_bounded_witness :
    ((0 : Int), 0) ∈ (Watch.run 1 (Watch.init 1) [.begin 0, .change 0, .change 1]).sends
      ∧ (Watch.run 1 (Watch.init 1) [.begin 0, .change 0, .change 1]).sends
          = [(0, 0), (0, 0)]
      ∧ (Watch.run 1 (Watch.init 1) [.begin 0, .change 0, .change 1]).lowerings = 1
      ∧ (((0 : Int), 0) : Int × Nat).2
          ≤ (Watch.run 1 (Watch.init 1) [.begin 0, .change 0, .change 1]).lowerings
      ∧ ((Watch.run 1 (Watch.init 1) [.begin 0, .change 0, .change 1]).lowerings ≤ 1
          → (((0 : Int), 0) : Int × Nat).2 < 2) :=
  ⟨by decide, by decide, by decide,
    proceed_sends_bounded 1 1 [.begin 0, .change 0, .change 1] (0, 0) (by decide)⟩

end Watching

section Stepwise

theorem sum_map_range_single (f g : Nat → Nat) (k d m : Nat) (hk : k < m)
    (hne : ∀ n, n ≠ k → g n = f n) (hkd : g k + d = f k) :
    ((List.range m).map g).sum + d = ((List.range m).map f).sum := by
  induction m with
  | zero => omega
  | succ m ih =>
    rw [List.range_succ, List.map_append, List.map_append, List.sum_append, List.sum_append]
    simp only [List.map_cons, List.map_nil, List.sum_cons, List.sum_nil, Nat.add_zero]
    by_cases hkm : k = m
    · subst hkm
      have hsame : (List.range k).map g = (List.range k).map f := by
        apply List.map_congr_left
        intro n hn
        exact hne n (Nat.ne_of_lt (List.mem_range.mp hn))
      rw [hsame]
      omega
    · have h1 := ih (by omega)
      have h2 := hne m (fun e => hkm e.symm)
      omega

theorem length_filter_range (b : Nat → Bool) (m : Nat) :
    ((List.range m).filter b).length
      = ((List.range m).map (fun n => if b n = true then 1 else 0)).sum := by
  induction m with
  | zero => rfl
  | succ m ih =>
    rw [List.range_succ, List.filter_append, List.length_append, List.map_append,
      List.sum_append, ih]
    by_cases hb : b m = true <;> simp [hb]

theorem held_le (s t : Pool) (lo lo2 hi : Int)
    (h : ∀ n : Nat, (n : Int) < hi → lo2 ≤ (n : Int) →
      lo ≤ (n : Int) ∧ t.activity (n : Int) ≤ s.activity (n : Int)) :
    t.held lo2 hi ≤ s.held lo hi := by
  unfold Pool.held
  apply List.sum_le_sum
  intro n hn
  have hn2 : (n : Int) < hi := by
    have := List.mem_range.mp hn
    omega
  by_cases h2 : lo2 ≤ (n : Int)
  · obtain ⟨h3, h4⟩ := h n hn2 h2
    rw [if_pos h2, if_pos h3]
    exact h4
  · rw [if_neg h2]
    exact Nat.zero_le _

theorem held_eq (s t : Pool) (lo hi : Int)
    (h : ∀ i : Int, t.activity i = s.activity i) : t.held lo hi = s.held lo hi :=
  le_antisymm (held_le s t lo lo hi (fun _ _ h2 => ⟨h2, le_of_eq (h _)⟩))
    (held_le t s lo lo hi (fun _ _ h2 => ⟨h2, le_of_eq (h _).symm⟩))

/-- What the slots from `lo` on hold is what those from `lo` up to `mid` hold
and what those from `mid` on hold. -/
theorem held_split (s : Pool) (lo mid hi : Int) (h1 : lo ≤ mid) (h2 : mid ≤ hi)
    (h0 : 0 ≤ mid) : s.held lo hi = s.held lo mid + s.held mid hi := by
  obtain ⟨d, hd⟩ : ∃ d : Nat, hi = mid + d := ⟨(hi - mid).toNat, by omega⟩
  subst hd
  induction d with
  | zero =>
    have hz : s.held mid (mid + ((0 : Nat) : Int)) = 0 := by
      unfold Pool.held
      apply List.sum_eq_zero
      intro x hx
      obtain ⟨n, hn, rfl⟩ := List.mem_map.mp hx
      have := List.mem_range.mp hn
      rw [if_neg (by omega)]
    rw [hz]
    simp
  | succ d ih =>
    have hnat : (mid + ((d + 1 : Nat) : Int)).toNat = (mid + (d : Int)).toNat + 1 := by omega
    have ih2 := ih (by omega)
    unfold Pool.held at ih2 ⊢
    rw [hnat, List.range_succ, List.map_append, List.sum_append, List.map_append,
      List.sum_append, ih2]
    simp only [List.map_cons, List.map_nil, List.sum_cons, List.sum_nil, Nat.add_zero]
    rw [if_pos (by omega), if_pos (by omega)]
    omega

theorem activity_send (s : Pool) (i j : Int) :
    ({ s with proceed := sendGo s.proceed i } : Pool).activity j
      = s.activity j + (if j = i then 1 else 0) := by
  simp only [Pool.activity, sendGo]
  split_ifs <;> omega

theorem pool_done_reqnow (reqmax : Int) (s : Pool) :
    (Pool.step reqmax s .done).reqnow = s.reqnow
      ∧ (Pool.step reqmax s .done).lowered = s.lowered := by
  simp only [Pool.step]
  split <;> exact ⟨rfl, rfl⟩

theorem pool_begin_reqnow (reqmax : Int) (s : Pool) (i : Int) :
    (Pool.step reqmax s (.begin i)).reqnow = s.reqnow
      ∧ (Pool.step reqmax s (.begin i)).lowered = s.lowered := by
  simp only [Pool.step]
  split_ifs <;> exact ⟨rfl, rfl⟩

theorem pool_finish_reqnow (reqmax : Int) (s : Pool) (i : Int) :
    (Pool.step reqmax s (.finish i)).reqnow = s.reqnow
      ∧ (Pool.step reqmax s (.finish i)).lowered = s.lowered := by
  simp only [Pool.step]
  split_ifs <;> exact ⟨rfl, rfl⟩

theorem activity_done_le (reqmax : Int) (s : Pool) (j : Int) :
    (Pool.step reqmax s .done).activity j ≤ s.activity j := by
  cases hf : s.finished with
  | nil =>
    have : Pool.step reqmax s .done = s := by simp only [Pool.step, hf]
    rw [this]
  | cons i rest =>
    have := activity_done_cons reqmax s i rest hf j
    omega

theorem activity_done_pos (reqmax : Int) (s : Pool) (j : Int)
    (h : 0 < (Pool.step reqmax s .done).activity j) : 0 < s.activity j :=
  lt_of_lt_of_le h (activity_done_le reqmax s j)

theorem sound_init (reqmax reqnow : Int) (h : 0 ≤ reqnow ∧ reqnow ≤ reqmax) :
    (Crew.init reqnow).Sound reqmax := by
  have hact : ∀ i, 0 < (Pool.init reqnow).activity i → 0 ≤ i ∧ i < reqnow := by
    intro i hi
    simp only [Pool.init, Pool.activity, List.count_nil, Bool.false_eq_true, if_false,
      Nat.add_zero] at hi
    by_contra hc
    rw [if_neg hc] at hi
    exact absurd hi (lt_irrefl 0)
  refine ⟨h.1, h.2, trivial, ?_, ?_⟩
  · intro i hi
    obtain ⟨a, b⟩ := hact i hi
    exact ⟨a, lt_of_lt_of_le b h.2⟩
  · intro _ i hi
    exact (hact i hi).2

theorem armed_nonneg (reqmax : Int) (c : Crew) (h : c.Sound reqmax) : 0 ≤ c.armed := by
  obtain ⟨h0, _, h2, _, _⟩ := h
  unfold Crew.armed
  cases hp : c.phase with
  | idle => exact h0
  | promoting target i =>
    rw [hp] at h2
    exact le_trans h0 h2.2.2.1
  | settling target => exact le_trans h0 (le_max_left _ _)

theorem sound_step (reqmax : Int) (c : Crew) (a : Act) (h : c.Sound reqmax) :
    (c.step reqmax a).Sound reqmax := by
  obtain ⟨h0, h1, h2, h3, h4⟩ := h
  have hmax : 0 ≤ reqmax := le_trans h0 h1
  cases a with
  | recv value =>
    cases hp : c.phase with
    | idle =>
      have hs : c.step reqmax (.recv value)
          = { c with phase := .promoting (clampTarget value reqmax) c.pool.reqnow } := by
        simp only [Crew.step, hp]
      rw [hs]
      have hc := clampTarget_eq value reqmax hmax
      refine ⟨h0, h1, ⟨?_, ?_, le_refl _, le_max_left _ _⟩, h3, ?_⟩
      · rw [hc]
        exact le_min (le_max_right _ _) hmax
      · rw [hc]
        exact min_le_right _ _
      · intro hl i hi
        have := h4 hl i hi
        simp only [Crew.armed, hp] at this
        exact this
    | promoting target i =>
      have hs : c.step reqmax (.recv value) = c := by simp only [Crew.step, hp]
      rw [hs]
      exact ⟨h0, h1, h2, h3, h4⟩
    | settling target =>
      have hs : c.step reqmax (.recv value) = c := by simp only [Crew.step, hp]
      rw [hs]
      exact ⟨h0, h1, h2, h3, h4⟩
  | send =>
    cases hp : c.phase with
    | idle =>
      have hs : c.step reqmax .send = c := by simp only [Crew.step, hp]
      rw [hs]
      exact ⟨h0, h1, h2, h3, h4⟩
    | settling target =>
      have hs : c.step reqmax .send = c := by simp only [Crew.step, hp]
      rw [hs]
      exact ⟨h0, h1, h2, h3, h4⟩
    | promoting target i =>
      rw [hp] at h2
      obtain ⟨t0, t1, i0, i1⟩ := h2
      by_cases hit : i < target
      · have hs : c.step reqmax .send
            = { pool := { c.pool with proceed := sendGo c.pool.proceed i },
                phase := .promoting target (i + 1) } := by
          simp only [Crew.step, hp, if_pos hit]
        rw [hs]
        refine ⟨h0, h1, ⟨t0, t1, le_trans i0 (le_of_lt (lt_add_one i)), ?_⟩, ?_, ?_⟩
        · show i + 1 ≤ max c.pool.reqnow target
          have : target ≤ max c.pool.reqnow target := le_max_right _ _
          omega
        · intro j hj
          rw [activity_send] at hj
          by_cases hji : j = i
          · rw [hji]
            omega
          · rw [if_neg hji, Nat.add_zero] at hj
            exact h3 j hj
        · intro hl j hj
          rw [activity_send] at hj
          show j < i + 1
          by_cases hji : j = i
          · omega
          · rw [if_neg hji, Nat.add_zero] at hj
            have := h4 hl j hj
            simp only [Crew.armed, hp] at this
            omega
      · have hs : c.step reqmax .send = { c with phase := .settling target } := by
          simp only [Crew.step, hp, if_neg hit]
        rw [hs]
        refine ⟨h0, h1, ⟨t0, t1⟩, h3, ?_⟩
        intro hl j hj
        have := h4 hl j hj
        simp only [Crew.armed, hp] at this
        show j < max c.pool.reqnow target
        exact lt_of_lt_of_le this i1
  | settle =>
    cases hp : c.phase with
    | idle =>
      have hs : c.step reqmax .settle = c := by simp only [Crew.step, hp]
      rw [hs]
      exact ⟨h0, h1, h2, h3, h4⟩
    | promoting target i =>
      have hs : c.step reqmax .settle = c := by simp only [Crew.step, hp]
      rw [hs]
      exact ⟨h0, h1, h2, h3, h4⟩
    | settling target =>
      rw [hp] at h2
      have hs : c.step reqmax .settle
          = { pool := { c.pool with
                          reqnow := target,
                          peak := max c.pool.peak target,
                          lowered := c.pool.lowered || decide (target < c.pool.reqnow) },
              phase := .idle } := by
        simp only [Crew.step, hp]
      rw [hs]
      refine ⟨h2.1, h2.2, trivial, h3, ?_⟩
      intro hl j hj
      have hl2 : (c.pool.lowered || decide (target < c.pool.reqnow)) = false := hl
      rw [Bool.or_eq_false_iff] at hl2
      have hge : c.pool.reqnow ≤ target := by
        have := hl2.2
        simp only [decide_eq_false_iff_not, not_lt] at this
        exact this
      have := h4 hl2.1 j hj
      simp only [Crew.armed, hp] at this
      show j < target
      rw [max_eq_right hge] at this
      exact this
  | done =>
    cases hp : c.phase with
    | promoting target i =>
      have hs : c.step reqmax .done = c := by simp only [Crew.step, hp]
      rw [hs]
      exact ⟨h0, h1, h2, h3, h4⟩
    | settling target =>
      have hs : c.step reqmax .done = c := by simp only [Crew.step, hp]
      rw [hs]
      exact ⟨h0, h1, h2, h3, h4⟩
    | idle =>
      have hs : c.step reqmax .done = { c with pool := Pool.step reqmax c.pool .done } := by
        simp only [Crew.step, hp]
      rw [hs]
      obtain ⟨r1, r2⟩ := pool_done_reqnow reqmax c.pool
      refine ⟨by rw [r1]; exact h0, by rw [r1]; exact h1, by rw [hp]; trivial, ?_, ?_⟩
      · intro j hj
        exact h3 j (activity_done_pos reqmax c.pool j hj)
      · intro hl j hj
        have := h4 (by rw [← r2]; exact hl) j (activity_done_pos reqmax c.pool j hj)
        simp only [Crew.armed, hp] at this ⊢
        rw [r1]
        exact this
  | begin i =>
    have hs : c.step reqmax (.begin i)
        = { c with pool := Pool.step reqmax c.pool (.begin i) } := rfl
    rw [hs]
    obtain ⟨r1, r2⟩ := pool_begin_reqnow reqmax c.pool i
    refine ⟨by rw [r1]; exact h0, by rw [r1]; exact h1, ?_, ?_, ?_⟩
    · simp only [r1]
      exact h2
    · intro j hj
      rw [activity_begin] at hj
      exact h3 j hj
    · intro hl j hj
      rw [activity_begin] at hj
      have := h4 (by rw [← r2]; exact hl) j hj
      simp only [Crew.armed, r1] at this ⊢
      exact this
  | finish i =>
    have hs : c.step reqmax (.finish i)
        = { c with pool := Pool.step reqmax c.pool (.finish i) } := rfl
    rw [hs]
    obtain ⟨r1, r2⟩ := pool_finish_reqnow reqmax c.pool i
    refine ⟨by rw [r1]; exact h0, by rw [r1]; exact h1, ?_, ?_, ?_⟩
    · simp only [r1]
      exact h2
    · intro j hj
      rw [activity_finish] at hj
      exact h3 j hj
    · intro hl j hj
      rw [activity_finish] at hj
      have := h4 (by rw [← r2]; exact hl) j hj
      simp only [Crew.armed, r1] at this ⊢
      exact this

theorem sound_run (reqmax : Int) (acts : List Act) (c : Crew) (h : c.Sound reqmax) :
    (c.run reqmax acts).Sound reqmax := by
  unfold Crew.run
  induction acts generalizing c with
  | nil => exact h
  | cons a rest ih => exact ih _ (sound_step reqmax c a h)

end Stepwise

section StepwiseBound

theorem busy_le_activity (s : Pool) (i : Int) :
    (if s.busy i = true then 1 else 0) ≤ s.activity i := by
  unfold Pool.activity
  omega

theorem inflight_le_armed (reqmax : Int) (c : Crew) (h : c.Sound reqmax) :
    (Pool.inflight reqmax c.pool : Int) ≤ min c.armed reqmax + c.excess reqmax := by
  have ha := armed_nonneg reqmax c h
  have hmax : 0 ≤ reqmax := le_trans h.1 h.2.1
  have hbelow := filter_range_length_le (fun (n : Nat) => decide ((n : Int) < c.armed))
    c.armed.toNat (fun n hn => by
      have : (n : Int) < c.armed := of_decide_eq_true hn
      omega) reqmax.toNat
  have hsum : Pool.inflight reqmax c.pool
      ≤ ((List.range reqmax.toNat).filter
            (fun (n : Nat) => decide ((n : Int) < c.armed))).length
        + c.excess reqmax := by
    unfold Pool.inflight Crew.excess Pool.held
    rw [length_filter_range, length_filter_range, ← List.sum_map_add]
    apply List.sum_le_sum
    intro n _
    by_cases hn : (n : Int) < c.armed
    · have hd : decide ((n : Int) < c.armed) = true := decide_eq_true hn
      simp only [hd, if_true]
      split_ifs <;> omega
    · have hd : ¬ decide ((n : Int) < c.armed) = true := fun hc => hn (of_decide_eq_true hc)
      rw [if_neg hd, if_pos (not_lt.mp hn), Nat.zero_add]
      exact busy_le_activity c.pool n
  have hmin : ((min c.armed.toNat reqmax.toNat : Nat) : Int) = min c.armed reqmax := by
    rcases le_total c.armed reqmax with hle | hle
    · rw [min_eq_left hle, min_eq_left (by omega)]
      omega
    · rw [min_eq_right hle, min_eq_right (by omega)]
      omega
  rw [← hmin]
  have : Pool.inflight reqmax c.pool ≤ min c.armed.toNat reqmax.toNat + c.excess reqmax :=
    le_trans hsum (Nat.add_le_add_right hbelow _)
  exact_mod_cast this

theorem excess_zero (reqmax : Int) (c : Crew) (h : c.Sound reqmax)
    (hl : c.pool.lowered = false) : c.excess reqmax = 0 := by
  unfold Crew.excess Pool.held
  apply List.sum_eq_zero
  intro x hx
  obtain ⟨n, _, rfl⟩ := List.mem_map.mp hx
  by_cases hn : c.armed ≤ (n : Int)
  · rw [if_pos hn]
    by_contra hne
    have := h.2.2.2.2 hl (n : Int) (Nat.pos_of_ne_zero hne)
    omega
  · rw [if_neg hn]

/-- A step other than the assignment of a smaller `reqnow` does not add to
what the slots that are not granted hold. -/
theorem excess_step_le (reqmax : Int) (c : Crew) (a : Act) (h : c.Sound reqmax)
    (hl : c.lowers a = false) : (c.step reqmax a).excess reqmax ≤ c.excess reqmax := by
  obtain ⟨h0, h1, h2, h3, h4⟩ := h
  cases a with
  | recv value =>
    cases hp : c.phase with
    | idle =>
      have hs : c.step reqmax (.recv value)
          = { c with phase := .promoting (clampTarget value reqmax) c.pool.reqnow } := by
        simp only [Crew.step, hp]
      rw [hs]
      simp only [Crew.excess, Crew.armed, hp]
      exact le_refl _
    | promoting target i =>
      have hs : c.step reqmax (.recv value) = c := by simp only [Crew.step, hp]
      rw [hs]
    | settling target =>
      have hs : c.step reqmax (.recv value) = c := by simp only [Crew.step, hp]
      rw [hs]
  | send =>
    cases hp : c.phase with
    | idle =>
      have hs : c.step reqmax .send = c := by simp only [Crew.step, hp]
      rw [hs]
    | settling target =>
      have hs : c.step reqmax .send = c := by simp only [Crew.step, hp]
      rw [hs]
    | promoting target i =>
      rw [hp] at h2
      obtain ⟨t0, t1, i0, i1⟩ := h2
      by_cases hit : i < target
      · have hs : c.step reqmax .send
            = { pool := { c.pool with proceed := sendGo c.pool.proceed i },
                phase := .promoting target (i + 1) } := by
          simp only [Crew.step, hp, if_pos hit]
        rw [hs]
        simp only [Crew.excess, Crew.armed, hp]
        apply held_le
        intro n _ hn
        refine ⟨by omega, ?_⟩
        rw [activity_send, if_neg (by omega), Nat.add_zero]
      · have hs : c.step reqmax .send = { c with phase := .settling target } := by
          simp only [Crew.step, hp, if_neg hit]
        rw [hs]
        simp only [Crew.excess, Crew.armed, hp]
        apply held_le
        intro n _ hn
        exact ⟨le_trans i1 hn, le_refl _⟩
  | settle =>
    cases hp : c.phase with
    | idle =>
      have hs : c.step reqmax .settle = c := by simp only [Crew.step, hp]
      rw [hs]
    | promoting target i =>
      have hs : c.step reqmax .settle = c := by simp only [Crew.step, hp]
      rw [hs]
    | settling target =>
      have hge : c.pool.reqnow ≤ target := by
        simp only [Crew.lowers, hp, decide_eq_false_iff_not, not_lt] at hl
        exact hl
      have hs : c.step reqmax .settle
          = { pool := { c.pool with
                          reqnow := target,
                          peak := max c.pool.peak target,
                          lowered := c.pool.lowered || decide (target < c.pool.reqnow) },
              phase := .idle } := by
        simp only [Crew.step, hp]
      rw [hs]
      simp only [Crew.excess, Crew.armed, hp]
      rw [max_eq_right hge]
      apply held_le
      intro n _ hn
      exact ⟨hn, le_refl _⟩
  | done =>
    cases hp : c.phase with
    | promoting target i =>
      have hs : c.step reqmax .done = c := by simp only [Crew.step, hp]
      rw [hs]
    | settling target =>
      have hs : c.step reqmax .done = c := by simp only [Crew.step, hp]
      rw [hs]
    | idle =>
      have hs : c.step reqmax .done = { c with pool := Pool.step reqmax c.pool .done } := by
        simp only [Crew.step, hp]
      rw [hs]
      simp only [Crew.excess, Crew.armed, hp]
      rw [(pool_done_reqnow reqmax c.pool).1]
      apply held_le
      intro n _ hn
      exact ⟨hn, activity_done_le reqmax c.pool n⟩
  | begin i =>
    have hs : c.step reqmax (.begin i)
        = { c with pool := Pool.step reqmax c.pool (.begin i) } := rfl
    rw [hs]
    have harm : ({ c with pool := Pool.step reqmax c.pool (.begin i) } : Crew).armed
        = c.armed := by
      simp only [Crew.armed, (pool_begin_reqnow reqmax c.pool i).1]
    simp only [Crew.excess, harm]
    exact le_of_eq (held_eq _ _ _ _ (fun j => activity_begin reqmax c.pool i j))
  | finish i =>
    have hs : c.step reqmax (.finish i)
        = { c with pool := Pool.step reqmax c.pool (.finish i) } := rfl
    rw [hs]
    have harm : ({ c with pool := Pool.step reqmax c.pool (.finish i) } : Crew).armed
        = c.armed := by
      simp only [Crew.armed, (pool_finish_reqnow reqmax c.pool i).1]
    simp only [Crew.excess, harm]
    exact le_of_eq (held_eq _ _ _ _ (fun j => activity_finish reqmax c.pool i j))

/-- The controller at the `select` takes the report of a slot at or above
`reqnow`: the slot gets no go-ahead, and what the slots that are not granted
hold is one less. -/
theorem excess_done_drop (reqmax : Int) (c : Crew) (h : c.Sound reqmax) (i : Int)
    (rest : List Int) (hp : c.phase = .idle) (hf : c.pool.finished = i :: rest)
    (hi : c.pool.reqnow ≤ i) :
    (c.step reqmax .done).excess reqmax + 1 = c.excess reqmax
      ∧ (c.step reqmax .done).pool.proceed i = c.pool.proceed i
      ∧ (c.step reqmax .done).pool.finished = rest := by
  obtain ⟨h0, h1, h2, h3, h4⟩ := h
  have hs : c.step reqmax .done = { c with pool := Pool.step reqmax c.pool .done } := by
    simp only [Crew.step, hp]
  have hnot : ¬ c.pool.reqnow > i := not_lt.mpr hi
  have hpool : Pool.step reqmax c.pool .done = { c.pool with finished := rest } := by
    simp only [Pool.step, hf, if_neg hnot]
  have hpos : 0 < c.pool.activity i := by
    unfold Pool.activity
    rw [hf, List.count_cons_self]
    omega
  obtain ⟨i0, i1⟩ := h3 i hpos
  rw [hs]
  refine ⟨?_, by rw [hpool], by rw [hpool]⟩
  simp only [Crew.excess, Crew.armed, hp]
  rw [(pool_done_reqnow reqmax c.pool).1]
  unfold Pool.held
  apply sum_map_range_single _ _ i.toNat 1 reqmax.toNat (by omega)
  · intro n hn
    have hne : ¬ ((n : Int) = i ∧ ¬ c.pool.reqnow > i) := fun hc => hn (by omega)
    have := activity_done_cons reqmax c.pool i rest hf (n : Int)
    rw [if_neg hne, Nat.add_zero] at this
    rw [this]
  · have hcast : ((i.toNat : Nat) : Int) = i := by omega
    have := activity_done_cons reqmax c.pool i rest hf i
    rw [if_pos ⟨rfl, hnot⟩] at this
    rw [hcast, if_pos hi, if_pos hi]
    exact this

/-- The controller at the `select` takes the report of a slot below `reqnow`:
the slot gets a go-ahead. -/
theorem done_rearm (reqmax : Int) (c : Crew) (i : Int) (rest : List Int)
    (hp : c.phase = .idle) (hf : c.pool.finished = i :: rest) (hi : i < c.pool.reqnow) :
    (c.step reqmax .done).pool.proceed i = c.pool.proceed i + 1
      ∧ (c.step reqmax .done).pool.finished = rest := by
  have hs : c.step reqmax .done = { c with pool := Pool.step reqmax c.pool .done } := by
    simp only [Crew.step, hp]
  have hgt : c.pool.reqnow > i := hi
  have hpool : Pool.step reqmax c.pool .done
      = { c.pool with finished := rest, proceed := sendGo c.pool.proceed i } := by
    simp only [Pool.step, hf, if_pos hgt]
  rw [hs, hpool]
  exact ⟨by simp [sendGo], rfl⟩

/-- The assignment of a smaller `reqnow` adds what the slots from the new
`reqnow` up to the old one hold. -/
theorem excess_lowering (reqmax : Int) (c : Crew) (h : c.Sound reqmax) (target : Int)
    (hp : c.phase = .settling target) (hlt : target < c.pool.reqnow) :
    (c.step reqmax .settle).excess reqmax
      = c.excess reqmax + c.pool.held target c.pool.reqnow := by
  obtain ⟨h0, h1, h2, h3, h4⟩ := h
  have hs : c.step reqmax .settle
      = { pool := { c.pool with
                      reqnow := target,
                      peak := max c.pool.peak target,
                      lowered := c.pool.lowered || decide (target < c.pool.reqnow) },
          phase := .idle } := by
    simp only [Crew.step, hp]
  rw [hs]
  simp only [Crew.excess, Crew.armed, hp]
  rw [max_eq_left (le_of_lt hlt)]
  have hsame : ({ c.pool with
                    reqnow := target,
                    peak := max c.pool.peak target,
                    lowered := c.pool.lowered || decide (target < c.pool.reqnow) }
                  : Pool).held target reqmax = c.pool.held target reqmax :=
    held_eq _ _ _ _ (fun _ => rfl)
  rw [hsame, held_split c.pool target c.pool.reqnow reqmax (le_of_lt hlt) h1 h0]
  omega

end StepwiseBound

section StepwiseClaim

/-- C14 (parallelism bound) as stated fails.  With `reqmax = 4` and three
slots allowed at startup, the three slots start their requests and the
target is changed to 0: the controller is back at the `select` with
`reqnow = 0` and three requests are in flight.  And with no slot allowed at
startup and a target of 3 received, the controller sends the three
promotions and the three slots start their requests before `reqnow = target`
is reached: three requests are in flight while `reqnow` is still 0. -/
theorem parallelism_bound_counterexample :
    Pool.inflight 4 (Crew.run 4 (Crew.init 3)
        [.begin 0, .begin 1, .begin 2, .recv 0, .send, .settle]).pool = 3
      ∧ (Crew.run 4 (Crew.init 3)
          [.begin 0, .begin 1, .begin 2, .recv 0, .send, .settle]).pool.reqnow = 0
      ∧ (Crew.run 4 (Crew.init 3)
          [.begin 0, .begin 1, .begin 2, .recv 0, .send, .settle]).phase = .idle
      ∧ ¬ ((Pool.inflight 4 (Crew.run 4 (Crew.init 3)
              [.begin 0, .begin 1, .begin 2, .recv 0, .send, .settle]).pool : Int)
            ≤ min (Crew.run 4 (Crew.init 3)
                    [.begin 0, .begin 1, .begin 2, .recv 0, .send, .settle]).pool.reqnow 4)
      ∧ Pool.inflight 4 (Crew.run 4 (Crew.init 0)
          [.recv 3, .send, .send, .send, .begin 0, .begin 1, .begin 2]).pool = 3
      ∧ (Crew.run 4 (Crew.init 0)
          [.recv 3, .send, .send, .send, .begin 0, .begin 1, .begin 2]).pool.reqnow = 0
      ∧ (Crew.run 4 (Crew.init 0)
          [.recv 3, .send, .send, .send, .begin 0, .begin 1, .begin 2]).phase
        = .promoting 3 3 := by
  decide

/-- C14 (parallelism bound) as the code has it.  In every state `c` the
controller and the requesters reach from a startup with
`0 <= reqnow <= reqmax`, the target change taken one statement at a time:
the number of slots with a request in flight is at most
`min(A, reqmax) + E`, where `A` is the number of slots granted (`reqnow` when
the controller is at the `select`; in a target change the slots already sent
a promotion count as granted) and `E` is what the slots from `A` on have in
hand (go-aheads queued, requests running, reports not yet handled).  `E` is
0 as long as no assignment has lowered `reqnow`.  No step adds to `E` except
the assignment of a smaller `reqnow`, which adds what the slots from the new
`reqnow` up to the old one have in hand.  When the controller handles the
report of slot `i`, then with `reqnow <= i` the slot gets no go-ahead and `E`
is one less, and with `i < reqnow` the slot gets a go-ahead. -/
theorem parallelism_bound (reqmax reqnow : Int) (h : 0 ≤ reqnow ∧ reqnow ≤ reqmax)
    (acts : List Act) (c : Crew) (hc : c = Crew.run reqmax (Crew.init reqnow) acts) :
    (Pool.inflight reqmax c.pool : Int) ≤ min c.armed reqmax + c.excess reqmax
      ∧ (c.phase = .idle → c.armed = c.pool.reqnow)
      ∧ (c.pool.lowered = false → c.excess reqmax = 0)
      ∧ (c.pool.lowered = false → c.phase = .idle →
          (Pool.inflight reqmax c.pool : Int) ≤ min c.pool.reqnow reqmax)
      ∧ (∀ a : Act, c.lowers a = false →
          (c.step reqmax a).excess reqmax ≤ c.excess reqmax)
      ∧ (∀ target : Int, c.phase = .settling target → target < c.pool.reqnow →
          (c.step reqmax .settle).excess reqmax
            = c.excess reqmax + c.pool.held target c.pool.reqnow)
      ∧ (∀ (i : Int) (rest : List Int), c.phase = .idle → c.pool.finished = i :: rest →
          c.pool.reqnow ≤ i →
            (c.step reqmax .done).excess reqmax + 1 = c.excess reqmax
              ∧ (c.step reqmax .done).pool.proceed i = c.pool.proceed i
              ∧ (c.step reqmax .done).pool.finished = rest)
      ∧ (∀ (i : Int) (rest : List Int), c.phase = .idle → c.pool.finished = i :: rest →
          i < c.pool.reqnow →
            (c.step reqmax .done).pool.proceed i = c.pool.proceed i + 1
              ∧ (c.step reqmax .done).pool.finished = rest) := by
  have hs : c.Sound reqmax := by
    rw [hc]
    exact sound_run reqmax acts (Crew.init reqnow) (sound_init reqmax reqnow h)
  have hb := inflight_le_armed reqmax c hs
  have harm : c.phase = .idle → c.armed = c.pool.reqnow := by
    intro hp
    simp only [Crew.armed, hp]
  refine ⟨hb, harm, excess_zero reqmax c hs, ?_, ?_, ?_, ?_, ?_⟩
  · intro hl hp
    rw [excess_zero reqmax c hs hl, harm hp] at hb
    simpa using hb
  · intro a ha
    exact excess_step_le reqmax c a hs ha
  · intro target hp hlt
    exact excess_lowering reqmax c hs target hp hlt
  · intro i rest hp hf hi
    exact excess_done_drop reqmax c hs i rest hp hf hi
  · intro i rest hp hf hi
    exact done_rearm reqmax c i rest hp hf hi

/-- Witness for C14: with `reqmax = 4` and three slots allowed at startup,
the three slots start their requests, the target is changed to 1 and slot 2
ends its request.  Two slots are not granted and hold three things, two
requests in flight with them; the report of slot 2 is handled without a
go-ahead, after which they hold two. -/
theorem parallelism_bound_witness :
    ((0 : Int) ≤ 3 ∧ (3 : Int) ≤ 4)
      ∧ Pool.inflight 4 (Crew.run 4 (Crew.init 3)
          [.begin 0, .begin 1, .begin 2, .recv 1, .send, .settle, .finish 2]).pool = 2
      ∧ (Crew.run 4 (Crew.init 3)
          [.begin 0, .begin 1, .begin 2, .recv 1, .send, .settle, .finish 2]).armed = 1
      ∧ (Crew.run 4 (Crew.init 3)
          [.begin 0, .begin 1, .begin 2, .recv 1, .send, .settle, .finish 2]).excess 4 = 2
      ∧ ((Crew.run 4 (Crew.init 3)
          [.begin 0, .begin 1, .begin 2, .recv 1, .send, .settle, .finish 2]).step 4
            .done).excess 4 = 1
      ∧ (Pool.inflight 4 (Crew.run 4 (Crew.init 3)
            [.begin 0, .begin 1, .begin 2, .recv 1, .send, .settle, .finish 2]).pool : Int)
          ≤ min (Crew.run 4 (Crew.init 3)
                  [.begin 0, .begin 1, .begin 2, .recv 1, .send, .settle, .finish 2]).armed 4
            + (Crew.run 4 (Crew.init 3)
                [.begin 0, .begin 1, .begin 2, .recv 1, .send, .settle, .finish 2]).excess 4 :=
  ⟨by decide, by decide, by decide, by decide, by decide,
    (parallelism_bound 4 3 (by decide)
      [.begin 0, .begin 1, .begin 2, .recv 1, .send, .settle, .finish 2] _ rfl).1⟩

end StepwiseClaim

end Client

namespace Backend

section MapArgs

theorem startsWith_iff (pat s : List Char) : startsWith pat s = true ↔ pat <+: s := by
  induction pat generalizing s with
  | nil => simp [startsWith]
  | cons p ps ih =>
    cases s with
    | nil => simp [startsWith]
    | cons c cs =>
      simp only [startsWith, Bool.and_eq_true, decide_eq_true_eq, ih, List.cons_prefix_cons]

theorem containsSub_iff (pat s : List Char) : containsSub pat s = true ↔ pat <:+: s := by
  induction s with
  | nil =>
    simp only [containsSub, startsWith_iff, List.prefix_nil, List.infix_nil]
  | cons c cs ih =>
    simp only [containsSub, Bool.or_eq_true, startsWith_iff, ih, List.infix_cons_iff]

theorem mapArgsLoop_named (name : String) (h : name ≠ "") (args : List String) :
    mapArgsLoop name args
      = some (args.map (fun a =>
          if stringsContains a mapster = true then stringsReplaceAll a mapster name else a)) := by
  induction args with
  | nil => rfl
  | cons arg rest ih =>
    unfold mapArgsLoop
    by_cases hc : stringsContains arg mapster = true
    · have hc2 : ¬ stringsContains arg mapster = false := by rw [hc]; decide
      rw [if_neg hc2, if_neg h, ih]
      simp [hc]
    · have hc2 : stringsContains arg mapster = false := by simpa using hc
      rw [if_pos hc2, ih]
      simp [hc2]

theorem replace_whole (name : String) : stringsReplaceAll mapster mapster name = name := by
  simp [stringsReplaceAll, mapster, replaceFrom, startsWith]

/-- C18 as stated fails: the argument `--device=FILENAME` is not equal to the
literal `FILENAME`, yet `mapArgs` does not return it unchanged. -/
theorem map_args_counterexample :
    mapArgs ["--device=FILENAME"] "card0" = (["--device=card0"], "")
      ∧ ("--device=FILENAME" : String) ≠ "FILENAME"
      ∧ (mapArgs ["--device=FILENAME"] "card0").1 ≠ ["--device=FILENAME"] := by
  decide

/-- C18 as amended.  For every argument list and every non-empty file name,
`mapArgs` returns, with an empty error string, a list of the same length in
which every argument that contains `FILENAME` has its occurrences of
`FILENAME` replaced by the file name (so an argument equal to `FILENAME`
becomes the file name) and every argument that does not contain `FILENAME`
is unchanged; an argument contains `FILENAME` when `FILENAME` is a block of
consecutive characters of it. -/
theorem map_args (args : List String) (name : String) (h : name ≠ "") :
    mapArgs args name
        = (args.map (fun a =>
            if stringsContains a mapster = true then stringsReplaceAll a mapster name
            else a), "")
      ∧ (mapArgs args name).1.length = args.length
      ∧ (mapArgs args name).2 = ""
      ∧ stringsReplaceAll mapster mapster name = name
      ∧ (∀ i : Nat, ∀ a : String, args[i]? = some a →
          (a = mapster → (mapArgs args name).1[i]? = some name)
          ∧ (stringsContains a mapster = false → (mapArgs args name).1[i]? = some a)
          ∧ (stringsContains a mapster = true →
              (mapArgs args name).1[i]? = some (stringsReplaceAll a mapster name)))
      ∧ (∀ a : String, stringsContains a mapster = true ↔ mapster.data <:+: a.data) := by
  have hres : mapArgs args name
      = (args.map (fun a =>
          if stringsContains a mapster = true then stringsReplaceAll a mapster name
          else a), "") := by
    unfold mapArgs
    rw [mapArgsLoop_named name h args]
  have hself : stringsContains mapster mapster = true := by decide
  refine ⟨hres, ?_, ?_, replace_whole name, ?_, ?_⟩
  · rw [hres]
    simp
  · rw [hres]
  · intro i a ha
    rw [hres]
    simp only [List.getElem?_map, ha, Option.map_some']
    refine ⟨?_, ?_, ?_⟩
    · intro hm
      rw [hm, if_pos hself, replace_whole]
    · intro hc
      rw [if_neg (by rw [hc]; decide)]
    · intro hc
      rw [if_pos hc]
  · intro a
    exact containsSub_iff mapster.data a.data

/-- Witness for C18 as amended: with the file name `card0`, the arguments
`FILENAME`, `--device=FILENAME` and `-v` become `card0`, `--device=card0`
and `-v`. -/
theorem map_args_witness :
    ("card0" : String) ≠ ""
      ∧ mapArgs ["FILENAME", "--device=FILENAME", "-v"] "card0"
        = (["card0", "--device=card0", "-v"], "")
      ∧ (mapArgs ["FILENAME", "--device=FILENAME", "-v"] "card0").1.length = 3 :=
  ⟨by decide, by decide,
    (map_args ["FILENAME", "--device=FILENAME", "-v"] "card0" (by decide)).2.1⟩

end MapArgs

section Float64

set_option exponentiation.threshold 2200

theorem expCoarse_low (n : Nat) (fuel e : Nat) (h : e = 0 ∨ 2 ^ (52 + e) ≤ n) :
    float64.expCoarse n fuel e = 0 ∨ 2 ^ (52 + float64.expCoarse n fuel e) ≤ n := by
  induction fuel generalizing e with
  | zero => exact h
  | succ f ih =>
    have hstep : float64.expCoarse n (f + 1) e
        = if n < 2 ^ (53 + e + 64) then e else float64.expCoarse n f (e + 64) := rfl
    rw [hstep]
    by_cases hlt : n < 2 ^ (53 + e + 64)
    · rw [if_pos hlt]
      exact h
    · rw [if_neg hlt]
      apply ih
      right
      have h1 : 2 ^ (52 + (e + 64)) ≤ 2 ^ (53 + e + 64) :=
        Nat.pow_le_pow_right (by norm_num) (by omega)
      exact le_trans h1 (not_lt.mp hlt)

theorem expFrom_low (n : Nat) (fuel e : Nat) (h : e = 0 ∨ 2 ^ (52 + e) ≤ n) :
    float64.expFrom n fuel e = 0 ∨ 2 ^ (52 + float64.expFrom n fuel e) ≤ n := by
  induction fuel generalizing e with
  | zero => exact h
  | succ f ih =>
    have hstep : float64.expFrom n (f + 1) e
        = if n < 2 ^ (53 + e) then e else float64.expFrom n f (e + 1) := rfl
    rw [hstep]
    by_cases hlt : n < 2 ^ (53 + e)
    · rw [if_pos hlt]
      exact h
    · rw [if_neg hlt]
      apply ih
      right
      have h1 : 52 + (e + 1) = 53 + e := by omega
      rw [h1]
      exact not_lt.mp hlt

theorem expFrom_high (n : Nat) (fuel e : Nat) (h : n < 2 ^ (53 + e + fuel)) :
    n < 2 ^ (53 + float64.expFrom n fuel e) := by
  induction fuel generalizing e with
  | zero => exact h
  | succ f ih =>
    have hstep : float64.expFrom n (f + 1) e
        = if n < 2 ^ (53 + e) then e else float64.expFrom n f (e + 1) := rfl
    rw [hstep]
    by_cases hlt : n < 2 ^ (53 + e)
    · rw [if_pos hlt]
      exact hlt
    · rw [if_neg hlt]
      apply ih
      have h1 : 53 + (e + 1) + f = 53 + e + (f + 1) := by omega
      rw [h1]
      exact h

theorem exponent_spec (n : Nat) :
    n < 2 ^ (53 + float64.exponent n)
      ∧ (float64.exponent n = 0 ∨ 2 ^ (52 + float64.exponent n) ≤ n) := by
  unfold float64.exponent
  constructor
  · apply expFrom_high
    calc n < 2 ^ n := Nat.lt_two_pow n
      _ ≤ 2 ^ (53 + float64.expCoarse n n 0 + n) :=
        Nat.pow_le_pow_right (by norm_num) (by omega)
  · exact expFrom_low n n _ (expCoarse_low n n 0 (Or.inl rfl))

/-- Rounding never goes below the multiple of the unit in the last place
under the number. -/
theorem round_ge_floor (n : Nat) :
    n / 2 ^ float64.exponent n * 2 ^ float64.exponent n ≤ float64.round n := by
  unfold float64.round
  simp only []
  split_ifs
  · exact Nat.mul_le_mul_right _ (Nat.le_succ _)
  · exact Nat.le_refl _

theorem le_round (m e n : Nat) (hm : m < 2 ^ 53) (h : m * 2 ^ e ≤ n) :
    m * 2 ^ e ≤ float64.round n := by
  refine le_trans ?_ (round_ge_floor n)
  obtain ⟨_, hlow⟩ := exponent_spec n
  by_cases hle : float64.exponent n ≤ e
  · -- a multiple of the unit in the last place
    obtain ⟨d, hd⟩ := Nat.exists_eq_add_of_le hle
    have hx : m * 2 ^ e = (m * 2 ^ d) * 2 ^ float64.exponent n := by
      rw [hd, pow_add, Nat.mul_assoc, Nat.mul_comm (2 ^ float64.exponent n) (2 ^ d)]
    rw [hx] at h ⊢
    apply Nat.mul_le_mul_right
    exact (Nat.le_div_iff_mul_le (Nat.two_pow_pos _)).mpr h
  · have hlt : e < float64.exponent n := not_le.mp hle
    rcases hlow with h0 | hbig
    · omega
    · have h1 : m * 2 ^ e < 2 ^ 53 * 2 ^ e :=
        Nat.mul_lt_mul_of_pos_right hm (Nat.two_pow_pos _)
      have h2 : 2 ^ 53 * 2 ^ e ≤ 2 ^ (52 + float64.exponent n) := by
        rw [← pow_add]
        exact Nat.pow_le_pow_right (by norm_num) (by omega)
      have h3 : 2 ^ (52 + float64.exponent n)
          = 2 ^ 52 * 2 ^ float64.exponent n := pow_add _ _ _
      have h4 : 2 ^ 52 ≤ n / 2 ^ float64.exponent n := by
        apply (Nat.le_div_iff_mul_le (Nat.two_pow_pos _)).mpr
        rw [← h3]
        exact hbig
      calc m * 2 ^ e ≤ 2 ^ (52 + float64.exponent n) := le_of_lt (lt_of_lt_of_le h1 h2)
        _ = 2 ^ 52 * 2 ^ float64.exponent n := h3
        _ ≤ n / 2 ^ float64.exponent n * 2 ^ float64.exponent n :=
          Nat.mul_le_mul_right _ h4

theorem rep_round (n : Nat) : ∃ m e : Nat, m < 2 ^ 53 ∧ float64.round n = m * 2 ^ e := by
  obtain ⟨hhigh, _⟩ := exponent_spec n
  have hq : n / 2 ^ float64.exponent n < 2 ^ 53 := by
    apply (Nat.div_lt_iff_lt_mul (Nat.two_pow_pos _)).mpr
    rw [← pow_add]
    exact hhigh
  unfold float64.round
  simp only []
  split_ifs
  · by_cases hq2 : n / 2 ^ float64.exponent n + 1 < 2 ^ 53
    · exact ⟨_, _, hq2, rfl⟩
    · have heq : n / 2 ^ float64.exponent n + 1 = 2 ^ 53 := by omega
      refine ⟨2 ^ 52, float64.exponent n + 1, by norm_num, ?_⟩
      rw [heq, pow_succ]
      ring
  · exact ⟨_, _, hq, rfl⟩

theorem round_of_rep (m e : Nat) (hm : m < 2 ^ 53) : float64.round (m * 2 ^ e) = m * 2 ^ e := by
  obtain ⟨_, hlow⟩ := exponent_spec (m * 2 ^ e)
  have hle : float64.exponent (m * 2 ^ e) ≤ e := by
    by_contra hc
    have hlt : e < float64.exponent (m * 2 ^ e) := not_le.mp hc
    rcases hlow with h0 | hbig
    · omega
    · have h1 : m * 2 ^ e < 2 ^ 53 * 2 ^ e :=
        Nat.mul_lt_mul_of_pos_right hm (Nat.two_pow_pos _)
      have h2 : 2 ^ 53 * 2 ^ e ≤ 2 ^ (52 + float64.exponent (m * 2 ^ e)) := by
        rw [← pow_add]
        exact Nat.pow_le_pow_right (by norm_num) (by omega)
      exact absurd (lt_of_lt_of_le h1 (le_trans h2 hbig)) (lt_irrefl _)
  have hdvd : 2 ^ float64.exponent (m * 2 ^ e) ∣ m * 2 ^ e :=
    Dvd.dvd.mul_left (pow_dvd_pow 2 hle) m
  have hr : m * 2 ^ e % 2 ^ float64.exponent (m * 2 ^ e) = 0 := Nat.mod_eq_zero_of_dvd hdvd
  have hq : m * 2 ^ e / 2 ^ float64.exponent (m * 2 ^ e)
      * 2 ^ float64.exponent (m * 2 ^ e) = m * 2 ^ e :=
    Nat.div_mul_cancel hdvd
  have hpos : 0 < 2 ^ float64.exponent (m * 2 ^ e) := Nat.two_pow_pos _
  unfold float64.round
  simp only []
  rw [hr]
  have hno : ¬ (2 * 0 > 2 ^ float64.exponent (m * 2 ^ e)
      ∨ (2 * 0 = 2 ^ float64.exponent (m * 2 ^ e)
        ∧ m * 2 ^ e / 2 ^ float64.exponent (m * 2 ^ e) % 2 = 1)) := by
    rintro (h | ⟨h, _⟩)
    · exact absurd h (by simp)
    · rw [Nat.mul_zero] at h
      exact absurd h.symm (Nat.pos_iff_ne_zero.mp hpos)
  rw [if_neg hno]
  exact hq

theorem float64_le_iff (x y : float64) : x ≤ y ↔ x.units ≤ y.units := Iff.rfl

theorem float64_add_units (x y : float64) :
    (x + y).units = float64.round (x.units + y.units) := rfl

theorem rep_add (x y : float64) : (x + y).Rep := rep_round _

theorem rep_ofNat (n : Nat) : (float64.ofNat n).Rep := by
  show ∃ m e : Nat, m < 2 ^ 53 ∧ float64.round (n * 2 ^ 1074) = m * 2 ^ e
  exact rep_round _

theorem float64_ext (x y : float64) (h : x.units = y.units) : x = y := by
  cases x
  cases y
  cases h
  rfl

theorem ofNat_units (n : Nat) : (float64.ofNat n).units = float64.round (n * 2 ^ 1074) := rfl

theorem rep_zero : (0 : float64).Rep := ⟨0, 0, by norm_num, rfl⟩

theorem rep_tenth : float64.tenth.Rep := ⟨7205759403792794, 1018, by norm_num, rfl⟩

/-- Adding to a value of the type never gives less than the value. -/
theorem le_add_of_rep (x y : float64) (hx : x.Rep) : x ≤ x + y := by
  obtain ⟨m, e, hm, hxe⟩ := hx
  rw [float64_le_iff, float64_add_units, hxe]
  exact le_round m e _ hm (by rw [← hxe]; exact Nat.le_add_right _ _)

/-- Whole numbers are added without rounding as long as the sum is below
`2^53`. -/
theorem ofNat_add (a b : Nat) (h : a + b < 2 ^ 53) :
    float64.ofNat a + float64.ofNat b = float64.ofNat (a + b) := by
  have ha : float64.round (a * 2 ^ 1074) = a * 2 ^ 1074 := round_of_rep a 1074 (by omega)
  have hb : float64.round (b * 2 ^ 1074) = b * 2 ^ 1074 := round_of_rep b 1074 (by omega)
  apply float64_ext
  rw [float64_add_units, ofNat_units, ofNat_units, ofNat_units, ha, hb, Nat.add_mul]

end Float64

section Backoff

set_option exponentiation.threshold 2200

variable {F : Type} [LinearOrder F] [Zero F] [Add F]

omit [Zero F] [Add F] in
theorem ite_gt_eq_min (a b : F) : (if a > b then b else a) = min a b := by
  by_cases h : a > b
  · rw [if_pos h, min_eq_right (le_of_lt h)]
  · rw [if_neg h, min_eq_left (not_lt.mp h)]

theorem emptyPoll_sleep (opts : workOptions F) (total : F) :
    (emptyPoll opts total).1 = min total (sleepCap opts) := by
  unfold emptyPoll sleepCap
  simp only [ite_gt_eq_min]
  by_cases hl : opts.limit > 0
  · rw [if_pos hl]
    by_cases hc : min total opts.max > opts.limit
    · rw [if_pos ⟨hl, hc⟩, ← min_assoc, min_eq_right (le_of_lt hc)]
    · rw [if_neg (fun h => hc h.2), ← min_assoc, min_eq_left (not_lt.mp hc)]
  · rw [if_neg hl, if_neg (fun h => hl h.1)]

theorem emptyPoll_total (opts : workOptions F) (total : F) :
    (emptyPoll opts total).2 = (emptyPoll opts total).1 + opts.inc := rfl

omit [Zero F] in
/-- Two totals that are capped to the same time are still capped to the same
time after the increment, when adding the increment never gives less. -/
theorem min_step (P : F → Prop) (inc cap x y : F) (hP : ∀ z, P z → z ≤ z + inc)
    (hx : P x) (hy : P y) (h : min x cap = min y cap) :
    min (x + inc) cap = min (y + inc) cap := by
  by_cases h1 : x ≤ cap
  · by_cases h2 : y ≤ cap
    · rw [min_eq_left h1, min_eq_left h2] at h
      rw [h]
    · have h2b : cap ≤ y := le_of_lt (not_le.mp h2)
      rw [min_eq_left h1, min_eq_right h2b] at h
      rw [min_eq_right (le_trans h2b (hP y hy)),
        min_eq_right (by rw [← h]; exact hP x hx)]
  · have h1b : cap ≤ x := le_of_lt (not_le.mp h1)
    by_cases h2 : y ≤ cap
    · rw [min_eq_right h1b, min_eq_left h2] at h
      rw [min_eq_right (le_trans h1b (hP x hx)),
        min_eq_right (by rw [h]; exact hP y hy)]
    · have h2b : cap ≤ y := le_of_lt (not_le.mp h2)
      rw [min_eq_right (le_trans h1b (hP x hx)), min_eq_right (le_trans h2b (hP y hy))]

variable [Millis F]

theorem run_empties (P : F → Prop) (opts : workOptions F)
    (hP : ∀ z, P z → z ≤ z + opts.inc ∧ P (z + opts.inc)) (hcap : P (sleepCap opts))
    (k : Nat) (s : Loop F) (a : Nat → F) (hs : P s.total) (ha : ∀ j, P (a j))
    (hstep : ∀ j, a (j + 1) = a j + opts.inc)
    (h0 : min s.total (sleepCap opts) = min (a 0) (sleepCap opts)) :
    (Loop.run opts s (List.replicate k Poll.empty)).sleeps
      = s.sleeps ++ (List.range k).map (fun (j : Nat) =>
          (min (a j) (sleepCap opts), sleepMillis (min (a j) (sleepCap opts)))) := by
  induction k generalizing s a with
  | zero => simp [Loop.run]
  | succ k ih =>
    have hrun : Loop.run opts s (List.replicate (k + 1) Poll.empty)
        = Loop.run opts (Loop.step opts s Poll.empty) (List.replicate k Poll.empty) := rfl
    have hstep_sleeps : (Loop.step opts s Poll.empty).sleeps
        = s.sleeps ++ [((emptyPoll opts s.total).1, sleepMillis (emptyPoll opts s.total).1)] :=
      rfl
    have hstep_total : (Loop.step opts s Poll.empty).total
        = min s.total (sleepCap opts) + opts.inc := by
      show (emptyPoll opts s.total).2 = _
      rw [emptyPoll_total, emptyPoll_sleep]
    have hmin : P (min s.total (sleepCap opts)) := by
      rcases le_total s.total (sleepCap opts) with hle | hle
      · rw [min_eq_left hle]
        exact hs
      · rw [min_eq_right hle]
        exact hcap
    have hnext : min (min s.total (sleepCap opts) + opts.inc) (sleepCap opts)
        = min (a 1) (sleepCap opts) := by
      rw [hstep 0]
      apply min_step P opts.inc (sleepCap opts) _ _ (fun z hz => (hP z hz).1) hmin (ha 0)
      rw [min_assoc, min_self]
      exact h0
    rw [hrun, ih (Loop.step opts s Poll.empty) (fun j => a (j + 1))
      (by rw [hstep_total]; exact (hP _ hmin).2) (fun j => ha (j + 1))
      (fun j => hstep (j + 1)) (by rw [hstep_total]; exact hnext)]
    rw [hstep_sleeps, emptyPoll_sleep, List.append_assoc, List.singleton_append,
      List.range_succ_eq_map, List.map_cons, List.map_map, h0]
    rfl

theorem run_after_work (opts : workOptions F) (s : Loop F) (polls : List Poll) :
    (Loop.run opts s (polls ++ [Poll.work])).total = opts.inc := by
  simp [Loop.run, List.foldl_append, Loop.step]

omit [LinearOrder F] [Zero F] [Millis F] in
theorem accumulate_succ (inc : F) (j : Nat) :
    accumulate inc (j + 1) = accumulate inc j + inc := rfl

theorem rep_accumulate (inc : float64) (hinc : inc.Rep) (j : Nat) :
    (accumulate inc j).Rep := by
  cases j with
  | zero => exact hinc
  | succ j => exact rep_add _ _

theorem rep_sleepCap (opts : workOptions float64) (hmax : opts.max.Rep)
    (hlimit : opts.limit.Rep) : (sleepCap opts).Rep := by
  unfold sleepCap
  split_ifs
  · rcases le_total opts.max opts.limit with h | h
    · rw [min_eq_left h]
      exact hmax
    · rw [min_eq_right h]
      exact hlimit
  · exact hmax

/-- Whole numbers of seconds are accumulated without rounding as long as the
sum is below `2^53`. -/
theorem accumulate_ofNat (n j : Nat) (h : (j + 1) * n < 2 ^ 53) :
    accumulate (float64.ofNat n) j = float64.ofNat ((j + 1) * n) := by
  induction j with
  | zero => simp [accumulate]
  | succ j ih =>
    have h1 : (j + 1) * n + n = (j + 1 + 1) * n := by ring
    have h2 : (j + 1) * n < 2 ^ 53 := by omega
    rw [accumulate_succ, ih h2, ofNat_add _ _ (by omega), h1]

/-- C17 (empty-queue backoff schedule), as the code has it on `float64`.  For
an increment, a cap `max` and a limit that are finite `float64` values and
not negative, with `inc <= max`: after the start of the loop, and after any
iteration that received a work item, the sleep computed for the `k`-th
consecutive empty poll is `min(s_k, cap)` seconds, for `k = 1, 2, ...`,
where `s_k` is `inc` with `inc` added `k - 1` times, one rounded `float64`
addition after the other, and `cap` is `max` when `limit <= 0` and
`min(max, limit)` when `limit > 0`; `time.Sleep` is called with that time in
whole milliseconds, `uint64(1000*t)`.  Without a limit the first of these
sleeps is `inc`.  When `inc` is a whole number `n` and `k*n < 2^53`, `s_k` is
`k*n`. -/
theorem backoff_schedule (opts : workOptions float64) (hinc : opts.inc.Rep)
    (hmax : opts.max.Rep) (hlimit : opts.limit.Rep) (hle : opts.inc ≤ opts.max)
    (polls : List Poll) (k : Nat) :
    (Loop.run opts (Loop.run opts (Loop.init opts) (polls ++ [Poll.work]))
          (List.replicate k Poll.empty)).sleeps
        = (Loop.run opts (Loop.init opts) (polls ++ [Poll.work])).sleeps
          ++ (List.range k).map (fun (j : Nat) =>
              (min (accumulate opts.inc j) (sleepCap opts),
               sleepMillis (min (accumulate opts.inc j) (sleepCap opts))))
      ∧ (Loop.run opts (Loop.init opts) (List.replicate k Poll.empty)).sleeps
        = (List.range k).map (fun (j : Nat) =>
              (min (accumulate opts.inc j) (sleepCap opts),
               sleepMillis (min (accumulate opts.inc j) (sleepCap opts))))
      ∧ (opts.limit ≤ 0 → sleepCap opts = opts.max)
      ∧ (0 < opts.limit → sleepCap opts = min opts.max opts.limit)
      ∧ (opts.limit ≤ 0 → min (accumulate opts.inc 0) (sleepCap opts) = opts.inc)
      ∧ (∀ n j : Nat, opts.inc = float64.ofNat n → (j + 1) * n < 2 ^ 53 →
          accumulate opts.inc j = float64.ofNat ((j + 1) * n)) := by
  have hcap0 : opts.limit ≤ 0 → sleepCap opts = opts.max := by
    intro h
    unfold sleepCap
    rw [if_neg (not_lt.mpr h)]
  have hP : ∀ z : float64, z.Rep → z ≤ z + opts.inc ∧ (z + opts.inc).Rep :=
    fun z hz => ⟨le_add_of_rep z opts.inc hz, rep_add z opts.inc⟩
  have hcap := rep_sleepCap opts hmax hlimit
  refine ⟨?_, ?_, hcap0, ?_, ?_, ?_⟩
  · exact run_empties float64.Rep opts hP hcap k _ (accumulate opts.inc)
      (by rw [run_after_work]; exact hinc) (rep_accumulate opts.inc hinc)
      (accumulate_succ opts.inc) (by rw [run_after_work]; rfl)
  · have h := run_empties float64.Rep opts hP hcap k (Loop.init opts) (accumulate opts.inc)
      hinc (rep_accumulate opts.inc hinc) (accumulate_succ opts.inc) rfl
    rw [h]
    rfl
  · intro h
    unfold sleepCap
    rw [if_pos h]
  · intro h
    rw [hcap0 h]
    exact min_eq_left hle
  · intro n j hn hj
    rw [hn]
    exact accumulate_ofNat n j hj

end Backoff

section BackoffExamples

set_option exponentiation.threshold 2200
set_option maxRecDepth 100000

/-- C17 (empty-queue backoff schedule) as stated fails on `float64`: with the
increment `0.1`, the cap 5 and no limit, the sleeps of eight consecutive
empty polls are passed to `time.Sleep` as 100, 200, 300, 400, 500, 600, 700
and 799 milliseconds.  The eighth is `0.7999999999999999` seconds, the sum
of eight rounded additions, and not `min(8 * 0.1, 5)`, which is `0.8`
seconds and 800 milliseconds: eight times the `float64` for `0.1` is the
`float64` for `0.8` without rounding. -/
theorem backoff_schedule_counterexample :
    (Loop.run tenthBackoff (Loop.init tenthBackoff)
        (List.replicate 8 Poll.empty)).sleeps.map Prod.snd
      = [100, 200, 300, 400, 500, 600, 700, 799]
    ∧ ((Loop.run tenthBackoff (Loop.init tenthBackoff)
        (List.replicate 8 Poll.empty)).sleeps.map Prod.fst).getLast?
      = some ⟨7205759403792793 * 2 ^ 1021⟩
    ∧ 8 * float64.tenth.units = 7205759403792794 * 2 ^ 1021
    ∧ float64.round (8 * float64.tenth.units) = 8 * float64.tenth.units
    ∧ min (⟨8 * float64.tenth.units⟩ : float64) tenthBackoff.max
      = ⟨8 * float64.tenth.units⟩
    ∧ sleepMillis (min (⟨8 * float64.tenth.units⟩ : float64) tenthBackoff.max) = 800
    ∧ ((Loop.run tenthBackoff (Loop.init tenthBackoff)
        (List.replicate 8 Poll.empty)).sleeps.map Prod.fst).getLast?
      ≠ some (min (⟨8 * float64.tenth.units⟩ : float64) tenthBackoff.max) := by
  decide

/-- Witness for C17: with increment 1, cap 3 and no limit, four consecutive
empty polls sleep 1, 2, 3 and 3 seconds. -/
theorem backoff_schedule_witness :
    (sampleBackoff.inc.Rep ∧ sampleBackoff.max.Rep ∧ sampleBackoff.limit.Rep
        ∧ sampleBackoff.inc ≤ sampleBackoff.max)
      ∧ (Loop.run sampleBackoff (Loop.init sampleBackoff)
          (List.replicate 4 Poll.empty)).sleeps
        = [(float64.ofNat 1, 1000), (float64.ofNat 2, 2000), (float64.ofNat 3, 3000),
           (float64.ofNat 3, 3000)]
      ∧ (Loop.run sampleBackoff (Loop.init sampleBackoff)
          (List.replicate 4 Poll.empty)).sleeps
        = (List.range 4).map (fun (j : Nat) =>
              (min (accumulate sampleBackoff.inc j) (sleepCap sampleBackoff),
               sleepMillis (min (accumulate sampleBackoff.inc j)
                 (sleepCap sampleBackoff)))) :=
  ⟨⟨rep_ofNat 1, rep_ofNat 3, rep_zero, by decide⟩, by decide,
    (backoff_schedule sampleBackoff (rep_ofNat 1) (rep_ofNat 3) rep_zero (by decide) [] 4).2.1⟩

end BackoffExamples

section Limits

/-- C21 (effective runtime limit), the code at a backend limit of 5 and a
client limit of 0: `main` passes the client's limit as `deflimit` and the
backend's as `limit`, `doWork` replaces a `limit` above `deflimit` by
`deflimit`, and the workload runs with limit 0, that is without a limit: a
10 second sleep is slept in full and no timeout is reported, where the
limit of 5 seconds was to apply.  So it is for every backend limit above 0
when the client's limit is 0; with a backend limit of 0 the client's limit
applies, and with both above 0 the smaller of the two. -/
theorem effective_limit_dropped :
    effectiveLimit (0 : Int) 5 = 0
      ∧ (mainWork sampleExtern 0 10 sampleOptions
          { Error := "", Args := ["10"], Limit := 0, Empty := false }).2 = some (10, 10000)
      ∧ (mainWork sampleExtern 0 10 sampleOptions
          { Error := "", Args := ["10"], Limit := 0, Empty := false }).1.Timeout = 0
      ∧ (mainWork sampleExtern 0 10 sampleOptions
          { Error := "", Args := ["10"], Limit := 0, Empty := false }).1.Error = ""
      ∧ (∀ b : Int, 0 < b → effectiveLimit 0 b = 0)
      ∧ (∀ c : Int, effectiveLimit c 0 = c)
      ∧ (∀ b c : Int, 0 < b → 0 < c → effectiveLimit c b = min b c) := by
  refine ⟨by decide, by decide, by decide, by decide, ?_, ?_, ?_⟩
  · intro b hb
    unfold effectiveLimit
    rw [if_pos (Or.inr hb)]
  · intro c
    unfold effectiveLimit
    rw [if_pos (Or.inl (le_refl 0))]
  · intro b c hb _
    unfold effectiveLimit
    by_cases h : b > c
    · rw [if_pos (Or.inr h), min_eq_right (le_of_lt h)]
    · rw [if_neg (fun hc => hc.elim (fun h0 => absurd hb (not_lt.mpr h0)) h),
        min_eq_left (not_lt.mp h)]

/-- C23 (consistent failure classification), the code at two work items.  A
work item whose arguments contain `FILENAME`, on a backend without a device
file, is answered with a non-empty `Error` and `Retcode` 0; and a sleep of 10
seconds under a limit of 5 is answered with the `Error` `Sleep timeout` and
`Retcode` 0.  Both replies have a non-empty `Error` although `Retcode` is 0.
The other replies with an `Error` have a `Retcode` other than 0: a sleep
without a number is answered with `Retcode` 1, a program that exits with 2
with `Retcode` 2. -/
theorem failure_classification_split :
    (mainWork sampleExtern 0 0 sampleOptions
        { Error := "", Args := ["FILENAME"], Limit := 0, Empty := false }).1.Error
        = "FILENAME in args, but no file name to map to it"
      ∧ (mainWork sampleExtern 0 0 sampleOptions
          { Error := "", Args := ["FILENAME"], Limit := 0, Empty := false }).1.Retcode = 0
      ∧ (mainWork sampleExtern 0 5 { sampleOptions with limit := 0 }
          { Error := "", Args := ["10"], Limit := 5, Empty := false }).1.Error
        = "Sleep timeout"
      ∧ (mainWork sampleExtern 0 5 { sampleOptions with limit := 0 }
          { Error := "", Args := ["10"], Limit := 5, Empty := false }).1.Retcode = 0
      ∧ (mainWork sampleExtern 0 5 { sampleOptions with limit := 0 }
          { Error := "", Args := ["10"], Limit := 5, Empty := false }).1.Timeout = 5
      ∧ (mainWork sampleExtern 0 0 sampleOptions
          { Error := "", Args := [], Limit := 0, Empty := false }).1.Error
        = "Sleep time (seconds) argument missing"
      ∧ (mainWork sampleExtern 0 0 sampleOptions
          { Error := "", Args := [], Limit := 0, Empty := false }).1.Retcode = 1
      ∧ (mainWork sampleExtern 2 0 { sampleOptions with args := ["/bin/work"] }
          { Error := "", Args := [], Limit := 0, Empty := false }).1.Error
        = "/bin/work returned error code 2"
      ∧ (mainWork sampleExtern 2 0 { sampleOptions with args := ["/bin/work"] }
          { Error := "", Args := [], Limit := 0, Empty := false }).1.Retcode = 2 := by
  decide

end Limits

end Backend
